import Mathlib

/-!
# c0subset_compiler: instruction model and AST lowering

A shallow embedding of `src/instruction.{hpp,cpp}`, `src/symbol.{hpp,cpp}` and
`src/node.{hpp,cpp}`.

* Heap-allocated instruction objects become values of the inductive type
  `instruction.Base`; `instruction::List` (a `std::list<Base *>`) becomes
  `List instruction.Base`, `push_back` appends on the right and `back` is the
  last element.
* The function-local `static uint32_t labels` counters become explicit state:
  `instruction.RenderState` holds the five counters of `instruction.cpp`,
  `node.GenState` holds the instruction list together with the two counters of
  `node.cpp`.  `labels++` on a `uint32_t` is `(labels + 1) % 2 ^ 32`.
* The two static `std::map`s are only ever read through `operator[]`, which
  value-initialises the entry of an absent key.  They are embedded as total
  functions carrying that default for the one absent key `Temporary::None`.
* `int32_t` values are integers; `std::to_string` is `toString`.
-/

namespace instruction

/-- The enum `instruction::Type` (`Unknown = -1`, `Address`); `Type` is reserved
in Lean, hence the trailing underscore. -/
inductive Type_ where
  | Unknown
  | Address
  deriving DecidableEq, Repr

/-- The enum `instruction::Temporary` (`None = -1`, `Zero`, ..., `Nine`). -/
inductive Temporary where
  | None
  | Zero
  | One
  | Two
  | Three
  | Four
  | Five
  | Six
  | Seven
  | Eight
  | Nine
  deriving DecidableEq, Repr

/-- The underlying value of a `Temporary` enumerator. -/
def Temporary.toInt : Temporary → Int
  | .None => -1
  | .Zero => 0
  | .One => 1
  | .Two => 2
  | .Three => 3
  | .Four => 4
  | .Five => 5
  | .Six => 6
  | .Seven => 7
  | .Eight => 8
  | .Nine => 9

/-- The static map `temporary_number` of `instruction.cpp`, read with `operator[]`:
the key `None` has no entry, so the lookup yields the empty string. -/
def temporary_number : Temporary → String
  | .Zero => "0"
  | .One => "1"
  | .Two => "2"
  | .Three => "3"
  | .Four => "4"
  | .Five => "5"
  | .Six => "6"
  | .Seven => "7"
  | .Eight => "8"
  | .Nine => "9"
  | .None => ""

/-- The class `instruction::Variable`: the tag `type` together with the active
member of the union `value`. -/
inductive Variable where
  | None
  | Constant (integer : Int)
  | Register (temporary : Temporary)
  | Memory (address : String)
  deriving DecidableEq, Repr

/-- `Variable::ToString`. -/
def Variable.ToString : Variable → String
  | .Constant integer => toString integer
  | .Register temporary => "$t" ++ temporary_number temporary
  | .Memory address => address
  | .None => "ERROR"

/-- The concrete subclasses of `instruction::Base`.  Constructor arguments are in
the order of the C++ constructors: `Constant (value, result)`,
`Address (label, result)`, `Load (address, result)`, `Save (value, address)`,
branches `(left, right, label)`, logic and arithmetic `(left, right, result)`. -/
inductive Base where
  | Custom (data : String)
  | Assignment (left right : Variable)
  | Constant (value result : Variable)
  | Address (label : String) (result : Variable)
  | Load (address result : Variable)
  | Save (value address : Variable)
  | Label (label : String)
  | Jump (label : String)
  | BranchLessThan (left right : Variable) (label : String)
  | BranchLessEqual (left right : Variable) (label : String)
  | BranchNotEqual (left right : Variable) (label : String)
  | BranchEqual (left right : Variable) (label : String)
  | BranchGreaterEqual (left right : Variable) (label : String)
  | BranchGreaterThan (left right : Variable) (label : String)
  | LessThan (left right result : Variable)
  | LessEqual (left right result : Variable)
  | NotEqual (left right result : Variable)
  | Equal (left right result : Variable)
  | GreaterEqual (left right result : Variable)
  | GreaterThan (left right result : Variable)
  | And (left right result : Variable)
  | Or (left right result : Variable)
  | Add (left right result : Variable)
  | Subtract (left right result : Variable)
  | Multiply (left right result : Variable)
  | Divide (left right result : Variable)
  | Modulo (left right result : Variable)
  deriving DecidableEq, Repr

/-- `Base::GetType`: only the `Address` constructor passes `Type::Address` to the
base-class constructor, every other class keeps the default `Type::Unknown`. -/
def Base.GetType : Base → Type_
  | .Address _ _ => .Address
  | _ => .Unknown

/-- The five function-local `static uint32_t labels` of `LessEqual::ToString`,
`NotEqual::ToString`, `Equal::ToString`, `GreaterEqual::ToString` and
`GreaterThan::ToString`. -/
structure RenderState where
  LessEqual_labels : Nat
  NotEqual_labels : Nat
  Equal_labels : Nat
  GreaterEqual_labels : Nat
  GreaterThan_labels : Nat
  deriving DecidableEq, Repr

end instruction

namespace instruction

/-- The post-increment of a `uint32_t` counter. -/
def increment (labels : Nat) : Nat := (labels + 1) % 2 ^ 32

/-- The virtual `ToString` of every instruction class.  The state passed in and
out holds the static counters; only the five synthesised comparisons read and
advance one. -/
def Base.ToString : Base → RenderState → String × RenderState
  | .Custom data, rs => (data, rs)
  | .Assignment left right, rs =>
      ("ADDI " ++ left.ToString ++ ", " ++ right.ToString ++ ", 0\n", rs)
  | .Constant value result, rs =>
      ("LI " ++ result.ToString ++ ", " ++ value.ToString ++ "\n", rs)
  | .Address label result, rs =>
      ("LA " ++ result.ToString ++ ", " ++ (Variable.Memory label).ToString ++ "\n", rs)
  | .Load address result, rs =>
      ("LW " ++ result.ToString ++ ", 0(" ++ address.ToString ++ ")\n", rs)
  | .Save value address, rs =>
      ("SW " ++ value.ToString ++ ", 0(" ++ address.ToString ++ ")\n", rs)
  | .Label label, rs => (label ++ ":\n", rs)
  | .Jump label, rs => ("J " ++ label ++ "\n", rs)
  | .BranchLessThan left right label, rs =>
      ("BLT " ++ left.ToString ++ ", " ++ right.ToString ++ ", " ++ label ++ "\n", rs)
  | .BranchLessEqual left right label, rs =>
      ("BLE " ++ left.ToString ++ ", " ++ right.ToString ++ ", " ++ label ++ "\n", rs)
  | .BranchNotEqual left right label, rs =>
      ("BNE " ++ left.ToString ++ ", " ++ right.ToString ++ ", " ++ label ++ "\n", rs)
  | .BranchEqual left right label, rs =>
      ("BEQ " ++ left.ToString ++ ", " ++ right.ToString ++ ", " ++ label ++ "\n", rs)
  | .BranchGreaterEqual left right label, rs =>
      ("BGE " ++ left.ToString ++ ", " ++ right.ToString ++ ", " ++ label ++ "\n", rs)
  | .BranchGreaterThan left right label, rs =>
      ("BGT " ++ left.ToString ++ ", " ++ right.ToString ++ ", " ++ label ++ "\n", rs)
  | .LessThan left right result, rs =>
      ("SLT " ++ result.ToString ++ ", " ++ left.ToString ++ ", " ++ right.ToString ++ "\n", rs)
  | .LessEqual left right result, rs =>
      let labelnum := toString rs.LessEqual_labels
      ("BGT " ++ left.ToString ++ ", " ++ right.ToString ++ ", LessThan_" ++ labelnum ++ "\n" ++
        "ADDI " ++ result.ToString ++ ", $zero, 1\n" ++
        "LessThan_" ++ labelnum ++ ":\n",
        { rs with LessEqual_labels := increment rs.LessEqual_labels })
  | .NotEqual left right result, rs =>
      let labelnum := toString rs.NotEqual_labels
      ("BEQ " ++ left.ToString ++ ", " ++ right.ToString ++ ", NotEqual_" ++ labelnum ++ "\n" ++
        "ADDI " ++ result.ToString ++ ", $zero, 1\n" ++
        "NotEqual_" ++ labelnum ++ ":\n",
        { rs with NotEqual_labels := increment rs.NotEqual_labels })
  | .Equal left right result, rs =>
      let labelnum := toString rs.Equal_labels
      ("BNE " ++ left.ToString ++ ", " ++ right.ToString ++ ", Equal_" ++ labelnum ++ "\n" ++
        "ADDI " ++ result.ToString ++ ", $zero, 1\n" ++
        "Equal_" ++ labelnum ++ ":\n",
        { rs with Equal_labels := increment rs.Equal_labels })
  | .GreaterEqual left right result, rs =>
      let labelnum := toString rs.GreaterEqual_labels
      ("BLT " ++ left.ToString ++ ", " ++ right.ToString ++ ", GreaterEqual_" ++ labelnum ++ "\n" ++
        "ADDI " ++ result.ToString ++ ", $zero, 1\n" ++
        "GreaterEqual_" ++ labelnum ++ ":\n",
        { rs with GreaterEqual_labels := increment rs.GreaterEqual_labels })
  | .GreaterThan left right result, rs =>
      let labelnum := toString rs.GreaterThan_labels
      ("BLE " ++ left.ToString ++ ", " ++ right.ToString ++ ", GreaterThan_" ++ labelnum ++ "\n" ++
        "ADDI " ++ result.ToString ++ ", $zero, 1\n" ++
        "GreaterThan_" ++ labelnum ++ ":\n",
        { rs with GreaterThan_labels := increment rs.GreaterThan_labels })
  | .And left right result, rs =>
      ("AND " ++ result.ToString ++ ", " ++ left.ToString ++ ", " ++ right.ToString ++ "\n", rs)
  | .Or left right result, rs =>
      ("OR " ++ result.ToString ++ ", " ++ left.ToString ++ ", " ++ right.ToString ++ "\n", rs)
  | .Add left right result, rs =>
      ("ADD " ++ result.ToString ++ ", " ++ left.ToString ++ ", " ++ right.ToString ++ "\n", rs)
  | .Subtract left right result, rs =>
      ("SUB " ++ result.ToString ++ ", " ++ left.ToString ++ ", " ++ right.ToString ++ "\n", rs)
  | .Multiply left right result, rs =>
      ("MULT " ++ left.ToString ++ ", " ++ right.ToString ++ "\n" ++
        "MFLO " ++ result.ToString ++ "\n", rs)
  | .Divide left right result, rs =>
      ("DIV " ++ left.ToString ++ ", " ++ right.ToString ++ "\n" ++
        "MFLO " ++ result.ToString ++ "\n", rs)
  | .Modulo left right result, rs =>
      ("DIV " ++ left.ToString ++ ", " ++ right.ToString ++ "\n" ++
        "MFHI " ++ result.ToString ++ "\n", rs)

/-- The output loop of `main`: every instruction of the list is rendered once, in
order, and the fragments are written to the output stream one after the other. -/
def render : List Base → RenderState → List String × RenderState
  | [], rs => ([], rs)
  | inst :: rest, rs =>
      let r := inst.ToString rs
      let q := render rest r.2
      (r.1 :: q.1, q.2)

end instruction

namespace symbol

/-- The enum `symbol::Type` (`None = -1`, `Boolean`, `Integer`). -/
inductive Type_ where
  | None
  | Boolean
  | Integer
  deriving DecidableEq, Repr

/-- The class `symbol::Table`.  The member `table` is a `std::unordered_map`; it is
represented by its entries in iteration order. -/
structure Table where
  table : List (String × Type_)
  deriving DecidableEq, Repr

/-- `Table::Empty`. -/
def Table.Empty (t : Table) : Bool := t.table.isEmpty

/-- `Table::GetAll`. -/
def Table.GetAll (t : Table) : List (String × Type_) := t.table

/-- The lookup `table.find( symbol )`: the entry stored under the key, if any. -/
def Table.find (t : Table) (symbol : String) : Option (String × Type_) :=
  t.table.find? (fun entry => entry.1 == symbol)

/-- `Table::Add`: the returned flag and the table afterwards.  Where a new entry
lands in the iteration order of a `std::unordered_map` is left open by the
standard; the embedding puts it first, and nothing proved about `Add` and `Get`
depends on the position. -/
def Table.Add (t : Table) (symbol : String) (type : Type_) : Bool × Table :=
  if (t.find symbol).isSome then (false, t)
  else (true, ⟨(symbol, type) :: t.table⟩)

/-- `Table::Exists`. -/
def Table.Exists (t : Table) (symbol : String) : Bool := (t.find symbol).isSome

/-- `Table::Get`. -/
def Table.Get (t : Table) (symbol : String) : Type_ :=
  match t.find symbol with
  | none => .None
  | some entry => entry.2

/-- The keys of a `std::unordered_map` are pairwise distinct. -/
def Table.WellFormed (t : Table) : Prop := (t.table.map Prod.fst).Nodup

end symbol

namespace node

open instruction (Temporary Variable Base)

/-- The static map `next_temporary` of `node.cpp`, read with `operator[]`: the key
`None` has no entry, so the lookup yields the value-initialised enumerator, which
is `Zero`. -/
def next_temporary : Temporary → Temporary
  | .Zero => .One
  | .One => .Two
  | .Two => .Three
  | .Three => .Four
  | .Four => .Five
  | .Five => .Six
  | .Six => .Seven
  | .Seven => .Eight
  | .Eight => .Nine
  | .Nine => .None
  | .None => .Zero

/-- The enum `BinaryOperator::Code`. -/
inductive Code where
  | Addition
  | Subtraction
  | Multiplication
  | Division
  | Modulo
  | Equal
  | NotEqual
  | LessThan
  | LessEqual
  | GreaterThan
  | GreaterEqual
  | And
  | Or
  deriving DecidableEq, Repr

mutual
/-- The subclasses of `node::Expression`.  `Identifier` is represented by its
`name`; `Block` is the injection of the subclass `node::Block`. -/
inductive Expression where
  | Boolean (value : Bool)
  | Integer (value : Int)
  | Identifier (name : String)
  | BinaryOperator (lhs : Expression) (op : Code) (rhs : Expression)
  | Block (block : Block)
/-- The subclasses of `node::Statement`.  A member of type `Identifier *` is
represented by the identifier's name, a pointer that may be `nullptr` by an
`Option`. -/
inductive Statement where
  | Assignment (lhs : String) (rhs : Expression)
  | ExpressionStatement (expression : Expression)
  | IntegerDeclaration (id : String) (assignmentExpr : Option Expression)
  | BooleanDeclaration (id : String) (assignmentExpr : Option Expression)
  | IfThenElse (testExpr : Expression) (successBlock : Block) (failureBlock : Option Block)
  | WhileLoop (testExpr : Expression) (successBlock : Block)
/-- The class `node::Block`, holding its `StatementList`. -/
inductive Block where
  | mk (statements : List Statement)
end

/-- What lowering reads and writes: the instruction list passed by reference and
the function-local `static uint32_t labels` of `IfThenElse::GenerateInstructions`
and of `WhileLoop::GenerateInstructions`. -/
structure GenState where
  list : List Base
  IfThenElse_labels : Nat
  WhileLoop_labels : Nat
  deriving DecidableEq, Repr

/-- `list.push_back( inst )`. -/
def GenState.push_back (st : GenState) (inst : Base) : GenState :=
  { st with list := st.list ++ [inst] }

/-- The test made after an operand has been lowered:
`dynamic_cast<instruction::Address *>( list.back( ) )` is not null and its
`GetType( )` is `Type::Address`.  `back` of an empty list is undefined in C++; no
call site reaches it (see `Expression.GenerateInstructions_ne_nil`), and the
embedding answers `false` there. -/
def backIsAddress (list : List Base) : Bool :=
  match list.getLast? with
  | some (.Address label result) => (Base.Address label result).GetType == .Address
  | _ => false

/-- The dereference idiom repeated at every consumption point:
`if( address != nullptr && ... ) list.push_back( new Load( temporary, temporary ) )`. -/
def loadIfAddress (temporary : Temporary) (st : GenState) : GenState :=
  if backIsAddress st.list then
    st.push_back (.Load (.Register temporary) (.Register temporary))
  else st

/-- The `switch( op )` of `BinaryOperator::GenerateInstructions`. -/
def BinaryOperator.inst (op : Code) (temporary temporary2 : Temporary) : Base :=
  match op with
  | .Addition => .Add (.Register temporary) (.Register temporary2) (.Register temporary)
  | .Subtraction => .Subtract (.Register temporary) (.Register temporary2) (.Register temporary)
  | .Multiplication => .Multiply (.Register temporary) (.Register temporary2) (.Register temporary)
  | .Division => .Divide (.Register temporary) (.Register temporary2) (.Register temporary)
  | .Modulo => .Modulo (.Register temporary) (.Register temporary2) (.Register temporary)
  | .Equal => .Equal (.Register temporary) (.Register temporary2) (.Register temporary)
  | .NotEqual => .NotEqual (.Register temporary) (.Register temporary2) (.Register temporary)
  | .LessThan => .LessThan (.Register temporary) (.Register temporary2) (.Register temporary)
  | .LessEqual => .LessEqual (.Register temporary) (.Register temporary2) (.Register temporary)
  | .GreaterThan => .GreaterThan (.Register temporary) (.Register temporary2) (.Register temporary)
  | .GreaterEqual => .GreaterEqual (.Register temporary) (.Register temporary2) (.Register temporary)
  | .And => .And (.Register temporary) (.Register temporary2) (.Register temporary)
  | .Or => .Or (.Register temporary) (.Register temporary2) (.Register temporary)

/-- The start of `Block::GenerateInstructions`: the directives pushed when the list
is still empty. -/
def Block.prologue (symTable : symbol.Table) (st : GenState) : GenState :=
  if st.list.isEmpty then
    let st :=
      if !symTable.Empty then
        symTable.GetAll.foldl
          (fun st pair => st.push_back (.Custom (pair.1 ++ ": .word 0\n")))
          (st.push_back (.Custom ".data\n"))
      else st
    st.push_back (.Custom ".text\n")
  else st

mutual
/-- The overrides of `GenerateInstructions` in the subclasses of `Expression`. -/
def Expression.GenerateInstructions :
    Expression → symbol.Table → Temporary → GenState → GenState
  | .Boolean value, _, temporary, st =>
      st.push_back (.Constant (.Constant (if value then 1 else 0)) (.Register temporary))
  | .Integer value, _, temporary, st =>
      st.push_back (.Constant (.Constant value) (.Register temporary))
  | .Identifier name, _, temporary, st =>
      st.push_back (.Address name (.Register temporary))
  | .BinaryOperator lhs op rhs, symTable, temporary, st =>
      let temporary2 := next_temporary temporary
      let st := lhs.GenerateInstructions symTable temporary st
      let st := loadIfAddress temporary st
      let st := rhs.GenerateInstructions symTable temporary2 st
      let st := loadIfAddress temporary2 st
      st.push_back (BinaryOperator.inst op temporary temporary2)
  | .Block block, symTable, temporary, st =>
      block.GenerateInstructions symTable temporary st
/-- The overrides of `GenerateInstructions` in the subclasses of `Statement`. -/
def Statement.GenerateInstructions :
    Statement → symbol.Table → Temporary → GenState → GenState
  | .Assignment lhs rhs, symTable, _, st =>
      let st := rhs.GenerateInstructions symTable .One st
      let st := loadIfAddress .One st
      let st := st.push_back (.Address lhs (.Register .Zero))
      st.push_back (.Save (.Register .One) (.Register .Zero))
  | .ExpressionStatement expression, symTable, temporary, st =>
      expression.GenerateInstructions symTable temporary st
  | .IntegerDeclaration _ none, _, _, st => st
  | .IntegerDeclaration id (some assignmentExpr), symTable, _, st =>
      let st := assignmentExpr.GenerateInstructions symTable .One st
      let st := loadIfAddress .One st
      let st := st.push_back (.Address id (.Register .Zero))
      st.push_back (.Save (.Register .One) (.Register .Zero))
  | .BooleanDeclaration _ none, _, _, st => st
  | .BooleanDeclaration id (some assignmentExpr), symTable, _, st =>
      let st := assignmentExpr.GenerateInstructions symTable .One st
      let st := loadIfAddress .One st
      let st := st.push_back (.Address id (.Register .Zero))
      st.push_back (.Save (.Register .One) (.Register .Zero))
  | .IfThenElse testExpr successBlock none, symTable, _, st =>
      let labelnum := toString st.IfThenElse_labels
      let st := { st with IfThenElse_labels := instruction.increment st.IfThenElse_labels }
      let labelend := "IfThenElse_End_" ++ labelnum
      let st := testExpr.GenerateInstructions symTable .Zero st
      let st := loadIfAddress .Zero st
      let st := st.push_back (.BranchEqual (.Register .Zero) (.Constant 0) labelend)
      let st := successBlock.GenerateInstructions symTable .Zero st
      st.push_back (.Label labelend)
  | .IfThenElse testExpr successBlock (some failureBlock), symTable, _, st =>
      let labelnum := toString st.IfThenElse_labels
      let st := { st with IfThenElse_labels := instruction.increment st.IfThenElse_labels }
      let labelfail := "IfThenElse_Failure_" ++ labelnum
      let labelend := "IfThenElse_End_" ++ labelnum
      let st := testExpr.GenerateInstructions symTable .Zero st
      let st := loadIfAddress .Zero st
      let st := st.push_back (.BranchEqual (.Register .Zero) (.Constant 0) labelfail)
      let st := successBlock.GenerateInstructions symTable .Zero st
      let st := st.push_back (.Label labelfail)
      let st := failureBlock.GenerateInstructions symTable .Zero st
      st.push_back (.Label labelend)
  | .WhileLoop testExpr successBlock, symTable, _, st =>
      let labelnum := toString st.WhileLoop_labels
      let st := { st with WhileLoop_labels := instruction.increment st.WhileLoop_labels }
      let labelstart := "WhileLoop_Start_" ++ labelnum
      let labelend := "WhileLoop_End_" ++ labelnum
      let st := st.push_back (.Label labelstart)
      let st := testExpr.GenerateInstructions symTable .Zero st
      let st := loadIfAddress .Zero st
      let st := st.push_back (.BranchEqual (.Register .Zero) (.Constant 0) labelend)
      let st := successBlock.GenerateInstructions symTable .Zero st
      let st := st.push_back (.Jump labelstart)
      st.push_back (.Label labelend)
/-- `Block::GenerateInstructions`. -/
def Block.GenerateInstructions :
    Block → symbol.Table → Temporary → GenState → GenState
  | .mk statements, symTable, _, st =>
      Block.GenerateStatements statements symTable (Block.prologue symTable st)
/-- The loop `for( const Statement *stmt : statements )` that ends
`Block::GenerateInstructions`; each statement is lowered with the default
argument `Temporary::Zero`. -/
def Block.GenerateStatements :
    List Statement → symbol.Table → GenState → GenState
  | [], _, st => st
  | stmt :: rest, symTable, st =>
      Block.GenerateStatements rest symTable (stmt.GenerateInstructions symTable .Zero st)
end

end node

namespace node

open instruction (Temporary Variable Base)

/-- The instructions between `st` and `st'` were appended, and each of them
satisfies `P`. -/
def Appends (P : Base → Prop) (st st' : GenState) : Prop :=
  ∃ app : List Base, st'.list = st.list ++ app ∧ ∀ x ∈ app, P x

/-- The raw-text instructions, objects of class `instruction::Custom`. -/
def isCustom : Base → Bool
  | .Custom _ => true
  | _ => false

/-- The directives `Block::GenerateInstructions` pushes into an empty list, as a
list: `.data` and one word reservation per entry of the table when the table is
not empty, then `.text`. -/
def prologueList (symTable : symbol.Table) : List Base :=
  (if symTable.GetAll = [] then []
    else Base.Custom ".data\n" ::
      symTable.GetAll.map (fun pair => Base.Custom (pair.1 ++ ": .word 0\n")))
  ++ [Base.Custom ".text\n"]

/-- The name carried by a `Label` instruction. -/
def labelName? : Base → Option String
  | .Label label => some label
  | _ => none

/-- The names defined by the `Label` instructions of a list, in list order. -/
def labelNames (list : List Base) : List String :=
  list.filterMap labelName?

/-- The four labels of control flow, each with its numeric suffix. -/
inductive ControlLabel where
  | IfThenElse_Failure (suffix : Nat)
  | IfThenElse_End (suffix : Nat)
  | WhileLoop_Start (suffix : Nat)
  | WhileLoop_End (suffix : Nat)
  deriving DecidableEq, Repr

/-- The label string: the fixed text followed by the suffix in decimal, as built
from `labelnum` in `IfThenElse::GenerateInstructions` and
`WhileLoop::GenerateInstructions`. -/
def ControlLabel.name : ControlLabel → String
  | .IfThenElse_Failure suffix => "IfThenElse_Failure_" ++ toString suffix
  | .IfThenElse_End suffix => "IfThenElse_End_" ++ toString suffix
  | .WhileLoop_Start suffix => "WhileLoop_Start_" ++ toString suffix
  | .WhileLoop_End suffix => "WhileLoop_End_" ++ toString suffix

/-- The suffix of a label that belongs to a conditional. -/
def ControlLabel.conditional? : ControlLabel → Option Nat
  | .IfThenElse_Failure suffix => some suffix
  | .IfThenElse_End suffix => some suffix
  | _ => none

/-- The suffix of a label that belongs to a loop. -/
def ControlLabel.loop? : ControlLabel → Option Nat
  | .WhileLoop_Start suffix => some suffix
  | .WhileLoop_End suffix => some suffix
  | _ => none

mutual
/-- The number of `IfThenElse` nodes inside an expression. -/
def Expression.conditionals : Expression → Nat
  | .Boolean _ => 0
  | .Integer _ => 0
  | .Identifier _ => 0
  | .BinaryOperator lhs _ rhs => lhs.conditionals + rhs.conditionals
  | .Block block => block.conditionals
/-- The number of `IfThenElse` nodes in a statement, itself included. -/
def Statement.conditionals : Statement → Nat
  | .Assignment _ rhs => rhs.conditionals
  | .ExpressionStatement expression => expression.conditionals
  | .IntegerDeclaration _ none => 0
  | .IntegerDeclaration _ (some assignmentExpr) => assignmentExpr.conditionals
  | .BooleanDeclaration _ none => 0
  | .BooleanDeclaration _ (some assignmentExpr) => assignmentExpr.conditionals
  | .IfThenElse testExpr successBlock none =>
      1 + testExpr.conditionals + successBlock.conditionals
  | .IfThenElse testExpr successBlock (some failureBlock) =>
      1 + testExpr.conditionals + successBlock.conditionals + failureBlock.conditionals
  | .WhileLoop testExpr successBlock => testExpr.conditionals + successBlock.conditionals
/-- The number of `IfThenElse` nodes inside a block. -/
def Block.conditionals : Block → Nat
  | .mk statements => Block.conditionalsOfStatements statements
/-- The number of `IfThenElse` nodes in a list of statements. -/
def Block.conditionalsOfStatements : List Statement → Nat
  | [] => 0
  | stmt :: rest => stmt.conditionals + Block.conditionalsOfStatements rest
end

mutual
/-- The number of `WhileLoop` nodes inside an expression. -/
def Expression.loops : Expression → Nat
  | .Boolean _ => 0
  | .Integer _ => 0
  | .Identifier _ => 0
  | .BinaryOperator lhs _ rhs => lhs.loops + rhs.loops
  | .Block block => block.loops
/-- The number of `WhileLoop` nodes in a statement, itself included. -/
def Statement.loops : Statement → Nat
  | .Assignment _ rhs => rhs.loops
  | .ExpressionStatement expression => expression.loops
  | .IntegerDeclaration _ none => 0
  | .IntegerDeclaration _ (some assignmentExpr) => assignmentExpr.loops
  | .BooleanDeclaration _ none => 0
  | .BooleanDeclaration _ (some assignmentExpr) => assignmentExpr.loops
  | .IfThenElse testExpr successBlock none => testExpr.loops + successBlock.loops
  | .IfThenElse testExpr successBlock (some failureBlock) =>
      testExpr.loops + successBlock.loops + failureBlock.loops
  | .WhileLoop testExpr successBlock => 1 + testExpr.loops + successBlock.loops
/-- The number of `WhileLoop` nodes inside a block. -/
def Block.loops : Block → Nat
  | .mk statements => Block.loopsOfStatements statements
/-- The number of `WhileLoop` nodes in a list of statements. -/
def Block.loopsOfStatements : List Statement → Nat
  | [] => 0
  | stmt :: rest => stmt.loops + Block.loopsOfStatements rest
end

mutual
/-- The control-flow labels of an expression in the order their definitions are
emitted, numbered in pre-order: `i` conditionals and `w` loops have started to be
lowered before this node, a construct takes the index at which its lowering
starts as suffix, and the parts of a node follow in the order they are lowered. -/
def Expression.preorderLabels : Expression → Nat → Nat → List ControlLabel
  | .Boolean _, _, _ => []
  | .Integer _, _, _ => []
  | .Identifier _, _, _ => []
  | .BinaryOperator lhs _ rhs, i, w =>
      lhs.preorderLabels i w ++ rhs.preorderLabels (i + lhs.conditionals) (w + lhs.loops)
  | .Block block, i, w => block.preorderLabels i w
/-- The pre-order numbered labels of a statement: a conditional that is the `i`-th
to start uses suffix `i`, a loop that is the `w`-th to start uses suffix `w`. -/
def Statement.preorderLabels : Statement → Nat → Nat → List ControlLabel
  | .Assignment _ rhs, i, w => rhs.preorderLabels i w
  | .ExpressionStatement expression, i, w => expression.preorderLabels i w
  | .IntegerDeclaration _ none, _, _ => []
  | .IntegerDeclaration _ (some assignmentExpr), i, w => assignmentExpr.preorderLabels i w
  | .BooleanDeclaration _ none, _, _ => []
  | .BooleanDeclaration _ (some assignmentExpr), i, w => assignmentExpr.preorderLabels i w
  | .IfThenElse testExpr successBlock none, i, w =>
      testExpr.preorderLabels (i + 1) w
        ++ successBlock.preorderLabels (i + 1 + testExpr.conditionals) (w + testExpr.loops)
        ++ [.IfThenElse_End i]
  | .IfThenElse testExpr successBlock (some failureBlock), i, w =>
      testExpr.preorderLabels (i + 1) w
        ++ successBlock.preorderLabels (i + 1 + testExpr.conditionals) (w + testExpr.loops)
        ++ [.IfThenElse_Failure i]
        ++ failureBlock.preorderLabels
            (i + 1 + testExpr.conditionals + successBlock.conditionals)
            (w + testExpr.loops + successBlock.loops)
        ++ [.IfThenElse_End i]
  | .WhileLoop testExpr successBlock, i, w =>
      [.WhileLoop_Start w]
        ++ testExpr.preorderLabels i (w + 1)
        ++ successBlock.preorderLabels (i + testExpr.conditionals) (w + 1 + testExpr.loops)
        ++ [.WhileLoop_End w]
/-- The pre-order numbered labels of a block. -/
def Block.preorderLabels : Block → Nat → Nat → List ControlLabel
  | .mk statements, i, w => Block.preorderLabelsOfStatements statements i w
/-- The pre-order numbered labels of a list of statements. -/
def Block.preorderLabelsOfStatements : List Statement → Nat → Nat → List ControlLabel
  | [], _, _ => []
  | stmt :: rest, i, w =>
      stmt.preorderLabels i w
        ++ Block.preorderLabelsOfStatements rest (i + stmt.conditionals) (w + stmt.loops)
end

/-- The value of a list of decimal digit characters, least significant first. -/
def digitsValue : List Char → Nat
  | [] => 0
  | c :: cs => (c.toNat - 48) + 10 * digitsValue cs

/-- The suffix of a label lies in the half-open range of its kind: `[i, i')` for a
label of a conditional, `[w, w')` for a label of a loop. -/
def ControlLabel.within (c : ControlLabel) (i i' w w' : Nat) : Prop :=
  match c with
  | .IfThenElse_Failure k => i ≤ k ∧ k < i'
  | .IfThenElse_End k => i ≤ k ∧ k < i'
  | .WhileLoop_Start k => w ≤ k ∧ k < w'
  | .WhileLoop_End k => w ≤ k ∧ k < w'

end node

namespace instruction

/-- The five comparison classes whose `ToString` synthesises a branch around an
immediate set and owns a `static uint32_t labels`. -/
inductive Synthesized where
  | LessEqual
  | NotEqual
  | Equal
  | GreaterEqual
  | GreaterThan
  deriving DecidableEq, Repr

/-- The instruction of a synthesised kind with the given operands. -/
def Synthesized.inst : Synthesized → Variable → Variable → Variable → Base
  | .LessEqual, left, right, result => .LessEqual left right result
  | .NotEqual, left, right, result => .NotEqual left right result
  | .Equal, left, right, result => .Equal left right result
  | .GreaterEqual, left, right, result => .GreaterEqual left right result
  | .GreaterThan, left, right, result => .GreaterThan left right result

/-- The synthesised kind of an instruction, if it has one. -/
def Base.synthesized? : Base → Option Synthesized
  | .LessEqual _ _ _ => some .LessEqual
  | .NotEqual _ _ _ => some .NotEqual
  | .Equal _ _ _ => some .Equal
  | .GreaterEqual _ _ _ => some .GreaterEqual
  | .GreaterThan _ _ _ => some .GreaterThan
  | _ => none

/-- The counter owned by a synthesised kind. -/
def Synthesized.counter : Synthesized → RenderState → Nat
  | .LessEqual, rs => rs.LessEqual_labels
  | .NotEqual, rs => rs.NotEqual_labels
  | .Equal, rs => rs.Equal_labels
  | .GreaterEqual, rs => rs.GreaterEqual_labels
  | .GreaterThan, rs => rs.GreaterThan_labels

/-- The label a synthesised kind defines for a given suffix: the text written in
its `ToString` followed by the suffix in decimal. -/
def Synthesized.labelName : Synthesized → Nat → String
  | .LessEqual, suffix => "LessThan_" ++ toString suffix
  | .NotEqual, suffix => "NotEqual_" ++ toString suffix
  | .Equal, suffix => "Equal_" ++ toString suffix
  | .GreaterEqual, suffix => "GreaterEqual_" ++ toString suffix
  | .GreaterThan, suffix => "GreaterThan_" ++ toString suffix

/-- The branch mnemonic a synthesised kind starts with, the inverse of its
condition. -/
def Synthesized.branch : Synthesized → String
  | .LessEqual => "BGT"
  | .NotEqual => "BEQ"
  | .Equal => "BNE"
  | .GreaterEqual => "BLT"
  | .GreaterThan => "BLE"

/-- The three lines of a synthesised comparison for a given label suffix. -/
def Synthesized.text (kind : Synthesized) (left right result : Variable)
    (suffix : Nat) : String :=
  kind.branch ++ " " ++ left.ToString ++ ", " ++ right.ToString ++ ", "
      ++ kind.labelName suffix ++ "\n"
    ++ ("ADDI " ++ result.ToString ++ ", $zero, 1\n")
    ++ (kind.labelName suffix ++ ":\n")

/-- The number of instructions of a synthesised kind in a list. -/
def Synthesized.calls (kind : Synthesized) (list : List Base) : Nat :=
  list.countP (fun inst => inst.synthesized? == some kind)

/-- The state in which a run starts: every `static uint32_t labels = 0`. -/
def RenderState.initial : RenderState := ⟨0, 0, 0, 0, 0⟩

/-- The number of newline characters of a string. -/
def newlines (s : String) : Nat := s.data.count (Char.ofNat 10)

end instruction

namespace instruction

/-- The operands held by an instruction, in the order of its members. -/
def Base.operands : Base → List Variable
  | .Custom _ => []
  | .Assignment left right => [left, right]
  | .Constant value result => [result, value]
  | .Address label result => [result, .Memory label]
  | .Load address result => [result, address]
  | .Save value address => [value, address]
  | .Label _ => []
  | .Jump _ => []
  | .BranchLessThan left right _ => [left, right]
  | .BranchLessEqual left right _ => [left, right]
  | .BranchNotEqual left right _ => [left, right]
  | .BranchEqual left right _ => [left, right]
  | .BranchGreaterEqual left right _ => [left, right]
  | .BranchGreaterThan left right _ => [left, right]
  | .LessThan left right result => [result, left, right]
  | .LessEqual left right result => [result, left, right]
  | .NotEqual left right result => [result, left, right]
  | .Equal left right result => [result, left, right]
  | .GreaterEqual left right result => [result, left, right]
  | .GreaterThan left right result => [result, left, right]
  | .And left right result => [result, left, right]
  | .Or left right result => [result, left, right]
  | .Add left right result => [result, left, right]
  | .Subtract left right result => [result, left, right]
  | .Multiply left right result => [result, left, right]
  | .Divide left right result => [result, left, right]
  | .Modulo left right result => [result, left, right]

/-- An operand that is a register names one of the temporaries 0..9. -/
def Variable.registerInRange : Variable → Bool
  | .Register .None => false
  | _ => true

/-- Every register operand of the instruction is one of the temporaries 0..9. -/
def Base.registersInRange (inst : Base) : Bool :=
  inst.operands.all Variable.registerInRange

end instruction

namespace node

open instruction (Temporary Variable Base)

mutual
/-- No binary operator of the expression, lowered into `temporary`, is reached with
the target register 9 or with none: the left operand keeps the target, the right
operand takes the next register, and the statements of a block start again from
the fixed temporaries. -/
def Expression.fits : Expression → Temporary → Bool
  | .Boolean _, temporary => temporary != .None
  | .Integer _, temporary => temporary != .None
  | .Identifier _, temporary => temporary != .None
  | .BinaryOperator lhs _ rhs, temporary =>
      temporary != .None && next_temporary temporary != .None
        && lhs.fits temporary && rhs.fits (next_temporary temporary)
  | .Block block, _ => block.fits
/-- The expressions of the statement fit the registers they are lowered into:
temporary 1 for a right-hand side or an initialiser, temporary 0 for a test, the
statement's own argument for an expression statement. -/
def Statement.fits : Statement → Temporary → Bool
  | .Assignment _ rhs, _ => rhs.fits .One
  | .ExpressionStatement expression, temporary => expression.fits temporary
  | .IntegerDeclaration _ none, _ => true
  | .IntegerDeclaration _ (some assignmentExpr), _ => assignmentExpr.fits .One
  | .BooleanDeclaration _ none, _ => true
  | .BooleanDeclaration _ (some assignmentExpr), _ => assignmentExpr.fits .One
  | .IfThenElse testExpr successBlock none, _ => testExpr.fits .Zero && successBlock.fits
  | .IfThenElse testExpr successBlock (some failureBlock), _ =>
      testExpr.fits .Zero && successBlock.fits && failureBlock.fits
  | .WhileLoop testExpr successBlock, _ => testExpr.fits .Zero && successBlock.fits
/-- Every statement of the block fits, lowered with the default temporary 0. -/
def Block.fits : Block → Bool
  | .mk statements => Block.fitsStatements statements
/-- Every statement of the list fits, lowered with the default temporary 0. -/
def Block.fitsStatements : List Statement → Bool
  | [] => true
  | stmt :: rest => stmt.fits .Zero && Block.fitsStatements rest
end

/-- The expression is built from literals, identifiers and binary operators only. -/
def Expression.blockFree : Expression → Bool
  | .Boolean _ => true
  | .Integer _ => true
  | .Identifier _ => true
  | .BinaryOperator lhs _ rhs => lhs.blockFree && rhs.blockFree
  | .Block _ => false

/-- The right-nesting depth: 0 for a literal or an identifier,
`max (rdepth l) (1 + rdepth r)` for a binary operator; a block does not use the
target register. -/
def Expression.rdepth : Expression → Nat
  | .Boolean _ => 0
  | .Integer _ => 0
  | .Identifier _ => 0
  | .BinaryOperator lhs _ rhs => max lhs.rdepth (1 + rhs.rdepth)
  | .Block _ => 0

/-- The program of the round-trip scenario,
`int x = 1 + 2; if (x > 2) { x = 0; }`. -/
def scenarioProgram : Block :=
  .mk [
    .IntegerDeclaration "x" (some (.BinaryOperator (.Integer 1) .Addition (.Integer 2))),
    .IfThenElse (.BinaryOperator (.Identifier "x") .GreaterThan (.Integer 2))
      (.mk [.Assignment "x" (.Integer 0)]) none]

/-- The symbol table of the round-trip scenario: `x` declared as an integer. -/
def scenarioTable : symbol.Table := ⟨[("x", .Integer)]⟩

end node

namespace node

open instruction (Temporary Variable Base)

/-- The local map `operator_to_type` of `BinaryOperator::GetResultType`. -/
def BinaryOperator.operator_to_type : Code → symbol.Type_
  | .Addition => .Integer
  | .Subtraction => .Integer
  | .Multiplication => .Integer
  | .Division => .Integer
  | .Modulo => .Integer
  | .Equal => .Boolean
  | .NotEqual => .Boolean
  | .LessThan => .Boolean
  | .LessEqual => .Boolean
  | .GreaterThan => .Boolean
  | .GreaterEqual => .Boolean
  | .And => .Boolean
  | .Or => .Boolean

/-- The overrides of `GetResultType` in the subclasses of `Expression`. -/
def Expression.GetResultType : Expression → symbol.Table → symbol.Type_
  | .Boolean _, _ => .Boolean
  | .Integer _, _ => .Integer
  | .Identifier name, symTable => symTable.Get name
  | .BinaryOperator _ op _, _ => BinaryOperator.operator_to_type op
  | .Block _, _ => .None

/-- The overrides of `GetResultType` in the subclasses of `Statement`; an
assignment answers with the type of its left identifier. -/
def Statement.GetResultType : Statement → symbol.Table → symbol.Type_
  | .Assignment lhs _, symTable => symTable.Get lhs
  | .ExpressionStatement _, _ => .None
  | .IntegerDeclaration _ _, _ => .None
  | .BooleanDeclaration _ _, _ => .None
  | .IfThenElse _ _ _, _ => .None
  | .WhileLoop _ _, _ => .None

/-- The instructions that stand in `st'` after those of `st`. -/
def appended (st st' : GenState) : List Base := st'.list.drop st.list.length

/-- Two states that lowering cannot tell apart: the lists are both empty or both
non-empty, their last elements agree on being an address or not, and the counters
agree. -/
def Similar (st st' : GenState) : Prop :=
  (st.list = [] ↔ st'.list = []) ∧ backIsAddress st.list = backIsAddress st'.list
    ∧ st.IfThenElse_labels = st'.IfThenElse_labels
    ∧ st.WhileLoop_labels = st'.WhileLoop_labels

/-- Two lowerings, one with each table, went the same way: the counters reached
agree, and either the same instructions were appended to `st` and to `st'`, or both
lists were empty and each now holds the prologue of its table followed by the same
instructions. -/
def SameAppended (symTable symTable' : symbol.Table) (st st' r r' : GenState) : Prop :=
  r.IfThenElse_labels = r'.IfThenElse_labels
    ∧ r.WhileLoop_labels = r'.WhileLoop_labels
    ∧ ∃ rest : List Base,
        (r.list = st.list ++ rest ∧ r'.list = st'.list ++ rest)
        ∨ (st.list = [] ∧ st'.list = []
            ∧ r.list = prologueList symTable ++ rest
            ∧ r'.list = prologueList symTable' ++ rest)

/-- The expression is a literal or a binary operator. -/
def Expression.isLiteralOrOperator : Expression → Bool
  | .Boolean _ => true
  | .Integer _ => true
  | .BinaryOperator _ _ _ => true
  | .Identifier _ => false
  | .Block _ => false

end node

namespace instruction

/-- An operand that is a register has its index between the two bounds. -/
def Variable.registerWithin (lo hi : Int) : Variable → Bool
  | .Register t => decide (lo ≤ t.toInt) && decide (t.toInt ≤ hi)
  | _ => true

/-- Every register operand of the instruction has its index between the two
bounds. -/
def Base.registersWithin (lo hi : Int) (inst : Base) : Bool :=
  inst.operands.all (Variable.registerWithin lo hi)

/-- The label whose definition line `ToString` writes for the instruction: the name
of a `Label`, and for the five synthesised comparisons the text written in their
`ToString` followed by the current value of their counter.  The word reservations
of the data section are raw text and are not counted. -/
def Base.definedLabel? : Base → RenderState → Option String
  | .Label label, _ => some label
  | .LessEqual _ _ _, rs => some ("LessThan_" ++ toString rs.LessEqual_labels)
  | .NotEqual _ _ _, rs => some ("NotEqual_" ++ toString rs.NotEqual_labels)
  | .Equal _ _ _, rs => some ("Equal_" ++ toString rs.Equal_labels)
  | .GreaterEqual _ _ _, rs => some ("GreaterEqual_" ++ toString rs.GreaterEqual_labels)
  | .GreaterThan _ _ _, rs => some ("GreaterThan_" ++ toString rs.GreaterThan_labels)
  | _, _ => none

/-- The labels defined in the output when the list is rendered once, in order,
each instruction seeing the counters left by the ones before it. -/
def definedLabels : List Base → RenderState → List String
  | [], _ => []
  | inst :: rest, rs =>
      (inst.definedLabel? rs).toList ++ definedLabels rest (inst.ToString rs).2

end instruction

namespace node

open instruction (Temporary Variable Base)

/-- The expression is a boolean or an integer literal. -/
def Expression.isLiteral : Expression → Bool
  | .Boolean _ => true
  | .Integer _ => true
  | _ => false

/-- The expression is `n` binary operators nested on the right side: each one is
the right operand of the one before, and the leaves are literals. -/
def Expression.rightNested : Nat → Expression → Bool
  | 0, e => e.isLiteral
  | n + 1, .BinaryOperator lhs _ rhs => lhs.isLiteral && Expression.rightNested n rhs
  | _ + 1, _ => false

/-- The expression is `n` binary operators nested on the left side: each one is
the left operand of the one before, and the leaves are literals. -/
def Expression.leftNested : Nat → Expression → Bool
  | 0, e => e.isLiteral
  | n + 1, .BinaryOperator lhs _ rhs => Expression.leftNested n lhs && rhs.isLiteral
  | _ + 1, _ => false

/-- The sum `0 + 1 + ... + n` written without parentheses, which nests on the
left. -/
def Expression.leftChain : Nat → Expression
  | 0 => .Integer 0
  | n + 1 => .BinaryOperator (Expression.leftChain n) .Addition (.Integer (n + 1))

/-- The sum `n + (... + (1 + 0))`, which nests on the right. -/
def Expression.rightChain : Nat → Expression
  | 0 => .Integer 0
  | n + 1 => .BinaryOperator (.Integer (n + 1)) .Addition (Expression.rightChain n)

end node

/-! ## Theorems -/

namespace node

open instruction (Temporary Variable Base RenderState)

/-! ### State bookkeeping -/

@[simp] theorem GenState.push_back_list (st : GenState) (inst : Base) :
    (st.push_back inst).list = st.list ++ [inst] := rfl

@[simp] theorem GenState.push_back_IfThenElse_labels (st : GenState) (inst : Base) :
    (st.push_back inst).IfThenElse_labels = st.IfThenElse_labels := rfl

@[simp] theorem GenState.push_back_WhileLoop_labels (st : GenState) (inst : Base) :
    (st.push_back inst).WhileLoop_labels = st.WhileLoop_labels := rfl

theorem loadIfAddress_list (t : Temporary) (st : GenState) :
    (loadIfAddress t st).list = st.list ++
      (if backIsAddress st.list then [Base.Load (.Register t) (.Register t)] else []) := by
  unfold loadIfAddress
  split <;> simp

@[simp] theorem loadIfAddress_IfThenElse_labels (t : Temporary) (st : GenState) :
    (loadIfAddress t st).IfThenElse_labels = st.IfThenElse_labels := by
  unfold loadIfAddress
  split <;> rfl

@[simp] theorem loadIfAddress_WhileLoop_labels (t : Temporary) (st : GenState) :
    (loadIfAddress t st).WhileLoop_labels = st.WhileLoop_labels := by
  unfold loadIfAddress
  split <;> rfl

theorem foldl_push_back_list (f : String × symbol.Type_ → Base)
    (entries : List (String × symbol.Type_)) (st : GenState) :
    (entries.foldl (fun st pair => st.push_back (f pair)) st).list
      = st.list ++ entries.map f := by
  induction entries generalizing st with
  | nil => simp
  | cons e rest ih => simp [List.foldl_cons, ih]

theorem foldl_push_back_IfThenElse_labels (f : String × symbol.Type_ → Base)
    (entries : List (String × symbol.Type_)) (st : GenState) :
    (entries.foldl (fun st pair => st.push_back (f pair)) st).IfThenElse_labels
      = st.IfThenElse_labels := by
  induction entries generalizing st with
  | nil => simp
  | cons e rest ih => simp [List.foldl_cons, ih]

theorem foldl_push_back_WhileLoop_labels (f : String × symbol.Type_ → Base)
    (entries : List (String × symbol.Type_)) (st : GenState) :
    (entries.foldl (fun st pair => st.push_back (f pair)) st).WhileLoop_labels
      = st.WhileLoop_labels := by
  induction entries generalizing st with
  | nil => simp
  | cons e rest ih => simp [List.foldl_cons, ih]

theorem Block.prologue_of_ne_nil (symTable : symbol.Table) (st : GenState)
    (h : st.list ≠ []) : Block.prologue symTable st = st := by
  unfold Block.prologue
  have : st.list.isEmpty = false := by
    cases hl : st.list with
    | nil => exact absurd hl h
    | cons a l => rfl
  simp [this]

theorem Block.prologue_of_nil (symTable : symbol.Table) (i w : Nat) :
    Block.prologue symTable ⟨[], i, w⟩ = ⟨prologueList symTable, i, w⟩ := by
  unfold Block.prologue prologueList symbol.Table.Empty symbol.Table.GetAll
  cases ht : symTable.table with
  | nil => simp [GenState.push_back]
  | cons e rest =>
    have h1 := foldl_push_back_list (fun pair => Base.Custom (pair.1 ++ ": .word 0\n"))
      (e :: rest) (GenState.push_back ⟨[], i, w⟩ (.Custom ".data\n"))
    have h2 := foldl_push_back_IfThenElse_labels
      (fun pair => Base.Custom (pair.1 ++ ": .word 0\n"))
      (e :: rest) (GenState.push_back ⟨[], i, w⟩ (.Custom ".data\n"))
    have h3 := foldl_push_back_WhileLoop_labels
      (fun pair => Base.Custom (pair.1 ++ ": .word 0\n"))
      (e :: rest) (GenState.push_back ⟨[], i, w⟩ (.Custom ".data\n"))
    generalize List.foldl (fun st pair => st.push_back (Base.Custom (pair.1 ++ ": .word 0\n")))
      (GenState.push_back ⟨[], i, w⟩ (.Custom ".data\n")) (e :: rest) = r at h1 h2 h3
    cases r with
    | mk l a b =>
      simp only [GenState.push_back] at h1 h2 h3 ⊢
      simp [h1, h2, h3]

theorem Block.GenerateStatements_eq_foldl (statements : List Statement)
    (symTable : symbol.Table) (st : GenState) :
    Block.GenerateStatements statements symTable st
      = statements.foldl (fun st stmt => stmt.GenerateInstructions symTable .Zero st) st := by
  induction statements generalizing st with
  | nil => simp [Block.GenerateStatements]
  | cons s rest ih => simp [Block.GenerateStatements, ih]

/-! ### Appending -/

theorem Appends.refl (P : Base → Prop) (st : GenState) : Appends P st st :=
  ⟨[], by simp, by simp⟩

theorem Appends.trans {P : Base → Prop} {a b c : GenState}
    (h1 : Appends P a b) (h2 : Appends P b c) : Appends P a c := by
  obtain ⟨x, hx, px⟩ := h1
  obtain ⟨y, hy, py⟩ := h2
  refine ⟨x ++ y, by rw [hy, hx, List.append_assoc], ?_⟩
  intro z hz
  rcases List.mem_append.mp hz with h | h
  · exact px z h
  · exact py z h

theorem Appends.of_list_eq {P : Base → Prop} {a b : GenState}
    (h : b.list = a.list) : Appends P a b :=
  ⟨[], by simp [h], by simp⟩

theorem Appends.push_back {P : Base → Prop} (st : GenState) (inst : Base)
    (h : P inst) : Appends P st (st.push_back inst) :=
  ⟨[inst], rfl, by simpa using h⟩

theorem Appends.loadIfAddress {P : Base → Prop} (t : Temporary) (st : GenState)
    (h : P (.Load (.Register t) (.Register t))) : Appends P st (loadIfAddress t st) := by
  refine ⟨_, loadIfAddress_list t st, ?_⟩
  intro x hx
  split at hx
  · simp only [List.mem_singleton] at hx
    exact hx ▸ h
  · simp at hx

theorem Appends.ne_nil {P : Base → Prop} {a b : GenState}
    (h : Appends P a b) (ha : a.list ≠ []) : b.list ≠ [] := by
  obtain ⟨x, hx, _⟩ := h
  rw [hx]
  simp [ha]

theorem Appends.step {P : Base → Prop} {a b c : GenState}
    (h1 : a.list ≠ [] → Appends P a b) (h2 : b.list ≠ [] → Appends P b c) :
    a.list ≠ [] → Appends P a c :=
  fun ha => (h1 ha).trans (h2 ((h1 ha).ne_nil ha))

/-! ### Lowering into a non-empty list pushes no raw text -/

theorem BinaryOperator.inst_isCustom (op : Code) (t t2 : Temporary) :
    isCustom (BinaryOperator.inst op t t2) = false := by
  cases op <;> rfl

mutual
theorem appends_noCustom_Expression : ∀ (e : Expression) (symTable : symbol.Table)
    (temporary : Temporary) (st : GenState), st.list ≠ [] →
    Appends (fun x => isCustom x = false) st (e.GenerateInstructions symTable temporary st)
  | .Boolean _, _, _, st => fun _ => Appends.push_back st _ rfl
  | .Integer _, _, _, st => fun _ => Appends.push_back st _ rfl
  | .Identifier _, _, _, st => fun _ => Appends.push_back st _ rfl
  | .BinaryOperator lhs op rhs, symTable, temporary, st => by
      simp only [Expression.GenerateInstructions]
      refine Appends.step ?_
        (fun _ => Appends.push_back _ _ (BinaryOperator.inst_isCustom op _ _))
      refine Appends.step ?_ (fun _ => Appends.loadIfAddress _ _ rfl)
      refine Appends.step ?_ (appends_noCustom_Expression rhs symTable _ _)
      refine Appends.step ?_ (fun _ => Appends.loadIfAddress _ _ rfl)
      exact appends_noCustom_Expression lhs symTable _ _
  | .Block block, symTable, temporary, st => by
      simp only [Expression.GenerateInstructions]
      exact appends_noCustom_Block block symTable temporary st
theorem appends_noCustom_Statement : ∀ (s : Statement) (symTable : symbol.Table)
    (temporary : Temporary) (st : GenState), st.list ≠ [] →
    Appends (fun x => isCustom x = false) st (s.GenerateInstructions symTable temporary st)
  | .Assignment _ rhs, symTable, _, st => by
      simp only [Statement.GenerateInstructions]
      refine Appends.step ?_ (fun _ => Appends.push_back _ _ rfl)
      refine Appends.step ?_ (fun _ => Appends.push_back _ _ rfl)
      refine Appends.step ?_ (fun _ => Appends.loadIfAddress _ _ rfl)
      exact appends_noCustom_Expression rhs symTable _ _
  | .ExpressionStatement expression, symTable, temporary, st => by
      simp only [Statement.GenerateInstructions]
      exact appends_noCustom_Expression expression symTable temporary st
  | .IntegerDeclaration _ none, _, _, st => by
      simp only [Statement.GenerateInstructions]
      exact fun _ => Appends.refl _ st
  | .IntegerDeclaration _ (some e), symTable, _, st => by
      simp only [Statement.GenerateInstructions]
      refine Appends.step ?_ (fun _ => Appends.push_back _ _ rfl)
      refine Appends.step ?_ (fun _ => Appends.push_back _ _ rfl)
      refine Appends.step ?_ (fun _ => Appends.loadIfAddress _ _ rfl)
      exact appends_noCustom_Expression e symTable _ _
  | .BooleanDeclaration _ none, _, _, st => by
      simp only [Statement.GenerateInstructions]
      exact fun _ => Appends.refl _ st
  | .BooleanDeclaration _ (some e), symTable, _, st => by
      simp only [Statement.GenerateInstructions]
      refine Appends.step ?_ (fun _ => Appends.push_back _ _ rfl)
      refine Appends.step ?_ (fun _ => Appends.push_back _ _ rfl)
      refine Appends.step ?_ (fun _ => Appends.loadIfAddress _ _ rfl)
      exact appends_noCustom_Expression e symTable _ _
  | .IfThenElse testExpr successBlock none, symTable, _, st => by
      simp only [Statement.GenerateInstructions]
      refine Appends.step ?_ (fun _ => Appends.push_back _ _ rfl)
      refine Appends.step ?_ (appends_noCustom_Block successBlock symTable _ _)
      refine Appends.step ?_ (fun _ => Appends.push_back _ _ rfl)
      refine Appends.step ?_ (fun _ => Appends.loadIfAddress _ _ rfl)
      refine Appends.step ?_ (appends_noCustom_Expression testExpr symTable _ _)
      exact fun _ => Appends.of_list_eq rfl
  | .IfThenElse testExpr successBlock (some failureBlock), symTable, _, st => by
      simp only [Statement.GenerateInstructions]
      refine Appends.step ?_ (fun _ => Appends.push_back _ _ rfl)
      refine Appends.step ?_ (appends_noCustom_Block failureBlock symTable _ _)
      refine Appends.step ?_ (fun _ => Appends.push_back _ _ rfl)
      refine Appends.step ?_ (appends_noCustom_Block successBlock symTable _ _)
      refine Appends.step ?_ (fun _ => Appends.push_back _ _ rfl)
      refine Appends.step ?_ (fun _ => Appends.loadIfAddress _ _ rfl)
      refine Appends.step ?_ (appends_noCustom_Expression testExpr symTable _ _)
      exact fun _ => Appends.of_list_eq rfl
  | .WhileLoop testExpr successBlock, symTable, _, st => by
      simp only [Statement.GenerateInstructions]
      refine Appends.step ?_ (fun _ => Appends.push_back _ _ rfl)
      refine Appends.step ?_ (fun _ => Appends.push_back _ _ rfl)
      refine Appends.step ?_ (appends_noCustom_Block successBlock symTable _ _)
      refine Appends.step ?_ (fun _ => Appends.push_back _ _ rfl)
      refine Appends.step ?_ (fun _ => Appends.loadIfAddress _ _ rfl)
      refine Appends.step ?_ (appends_noCustom_Expression testExpr symTable _ _)
      refine Appends.step ?_ (fun _ => Appends.push_back _ _ rfl)
      exact fun _ => Appends.of_list_eq rfl
theorem appends_noCustom_Block : ∀ (b : Block) (symTable : symbol.Table)
    (temporary : Temporary) (st : GenState), st.list ≠ [] →
    Appends (fun x => isCustom x = false) st (b.GenerateInstructions symTable temporary st)
  | .mk statements, symTable, _, st => by
      intro h
      simp only [Block.GenerateInstructions, Block.prologue_of_ne_nil symTable st h]
      exact appends_noCustom_GenerateStatements statements symTable st h
theorem appends_noCustom_GenerateStatements : ∀ (statements : List Statement)
    (symTable : symbol.Table) (st : GenState), st.list ≠ [] →
    Appends (fun x => isCustom x = false) st
      (Block.GenerateStatements statements symTable st)
  | [], _, st => by
      simp only [Block.GenerateStatements]
      exact fun _ => Appends.refl _ st
  | stmt :: rest, symTable, st => by
      simp only [Block.GenerateStatements]
      refine Appends.step ?_ (appends_noCustom_GenerateStatements rest symTable _)
      exact appends_noCustom_Statement stmt symTable .Zero st
end

/-! ### The list is never empty where its last element is inspected -/

theorem Block.prologue_ne_nil (symTable : symbol.Table) (st : GenState) :
    (Block.prologue symTable st).list ≠ [] := by
  cases st with
  | mk l i w =>
    cases l with
    | nil =>
      rw [Block.prologue_of_nil]
      unfold prologueList
      simp
    | cons a l =>
      rw [Block.prologue_of_ne_nil symTable _ (by simp)]
      simp

/-- Every call of `list.back( )` in `node.cpp` directly follows the lowering of an
expression, and that lowering leaves the list non-empty whatever it started from. -/
theorem Expression.GenerateInstructions_ne_nil (e : Expression) (symTable : symbol.Table)
    (temporary : Temporary) (st : GenState) :
    (e.GenerateInstructions symTable temporary st).list ≠ [] := by
  cases e with
  | Boolean value => simp [Expression.GenerateInstructions]
  | Integer value => simp [Expression.GenerateInstructions]
  | Identifier name => simp [Expression.GenerateInstructions]
  | BinaryOperator lhs op rhs => simp [Expression.GenerateInstructions]
  | Block block =>
    cases block with
    | mk statements =>
      simp only [Expression.GenerateInstructions, Block.GenerateInstructions]
      exact (appends_noCustom_GenerateStatements statements symTable _
        (Block.prologue_ne_nil symTable st)).ne_nil (Block.prologue_ne_nil symTable st)

/-! ### Literals and binary operators -/

/-- C1: lowering `Integer(n)` into a register `r` of 0..9 appends exactly one
instruction, the load-immediate of `n` into `r`, and leaves the counters alone; that
instruction renders as `LI $t<r>, <n>` followed by a newline, with `n` in signed
decimal.  Lowering `Boolean(b)` appends exactly one load-immediate of 1 (for true)
or 0 (for false) into `r`. -/
theorem C1_literal_lowering (n : Int) (b : Bool) (r : Temporary)
    (hr : r ≠ Temporary.None) (symTable : symbol.Table) (st : GenState)
    (rs : RenderState) :
    (Expression.Integer n).GenerateInstructions symTable r st
        = { st with list := st.list ++ [Base.Constant (.Constant n) (.Register r)] }
    ∧ (Base.Constant (.Constant n) (.Register r)).ToString rs
        = ("LI $t" ++ toString r.toInt ++ ", " ++ toString n ++ "\n", rs)
    ∧ (Expression.Boolean b).GenerateInstructions symTable r st
        = { st with list := st.list ++
              [Base.Constant (.Constant (if b then 1 else 0)) (.Register r)] }
    ∧ (Base.Constant (.Constant (if b then 1 else 0)) (.Register r)).ToString rs
        = ("LI $t" ++ toString r.toInt ++ ", " ++ (if b then "1" else "0") ++ "\n", rs) := by
  refine ⟨rfl, ?_, rfl, ?_⟩
  · cases r <;> first | exact absurd rfl hr | rfl
  · cases r <;> cases b <;> first | exact absurd rfl hr | rfl

/-- Witness for C1: the literal `-7` and the literal `true` lowered into
temporary 3 after one earlier instruction. -/
theorem C1_literal_lowering_witness :
    Temporary.Three ≠ Temporary.None
    ∧ (Expression.Integer (-7)).GenerateInstructions ⟨[]⟩ .Three ⟨[.Custom ".text\n"], 0, 0⟩
        = ⟨[.Custom ".text\n", .Constant (.Constant (-7)) (.Register .Three)], 0, 0⟩
    ∧ (Base.Constant (.Constant (-7)) (.Register .Three)).ToString ⟨0, 0, 0, 0, 0⟩
        = ("LI $t3, -7\n", ⟨0, 0, 0, 0, 0⟩)
    ∧ (Expression.Boolean true).GenerateInstructions ⟨[]⟩ .Three ⟨[.Custom ".text\n"], 0, 0⟩
        = ⟨[.Custom ".text\n", .Constant (.Constant 1) (.Register .Three)], 0, 0⟩
    ∧ (Base.Constant (.Constant 1) (.Register .Three)).ToString ⟨0, 0, 0, 0, 0⟩
        = ("LI $t3, 1\n", ⟨0, 0, 0, 0, 0⟩) :=
  ⟨by decide,
    C1_literal_lowering (-7) true .Three (by decide) ⟨[]⟩ ⟨[.Custom ".text\n"], 0, 0⟩
      ⟨0, 0, 0, 0, 0⟩⟩

/-- C2: a binary operator lowered into a register `T` of 0..9 lowers `lhs` into `T`
and `rhs` into `next_temporary T` (each followed by the dereferencing load when it
left an address), where `next_temporary` is one step of the table
0 -> 1 -> ... -> 9 -> none; the last instruction appended is the variant matching
the operator, with left operand `T`, right operand `next_temporary T` and
destination `T`. -/
theorem C2_binary_operator_lowering (lhs rhs : Expression) (op : Code) (T : Temporary)
    (hT : T ≠ Temporary.None) (symTable : symbol.Table) (st : GenState) :
    (Expression.BinaryOperator lhs op rhs).GenerateInstructions symTable T st
        = (loadIfAddress (next_temporary T)
            (rhs.GenerateInstructions symTable (next_temporary T)
              (loadIfAddress T (lhs.GenerateInstructions symTable T st)))).push_back
            (BinaryOperator.inst op T (next_temporary T))
    ∧ (if T = Temporary.Nine then next_temporary T = Temporary.None
        else (next_temporary T).toInt = T.toInt + 1)
    ∧ ((Expression.BinaryOperator lhs op rhs).GenerateInstructions symTable T st).list.getLast?
        = some (match op with
          | .Addition => .Add (.Register T) (.Register (next_temporary T)) (.Register T)
          | .Subtraction =>
              .Subtract (.Register T) (.Register (next_temporary T)) (.Register T)
          | .Multiplication =>
              .Multiply (.Register T) (.Register (next_temporary T)) (.Register T)
          | .Division => .Divide (.Register T) (.Register (next_temporary T)) (.Register T)
          | .Modulo => .Modulo (.Register T) (.Register (next_temporary T)) (.Register T)
          | .Equal => .Equal (.Register T) (.Register (next_temporary T)) (.Register T)
          | .NotEqual => .NotEqual (.Register T) (.Register (next_temporary T)) (.Register T)
          | .LessThan => .LessThan (.Register T) (.Register (next_temporary T)) (.Register T)
          | .LessEqual =>
              .LessEqual (.Register T) (.Register (next_temporary T)) (.Register T)
          | .GreaterThan =>
              .GreaterThan (.Register T) (.Register (next_temporary T)) (.Register T)
          | .GreaterEqual =>
              .GreaterEqual (.Register T) (.Register (next_temporary T)) (.Register T)
          | .And => .And (.Register T) (.Register (next_temporary T)) (.Register T)
          | .Or => .Or (.Register T) (.Register (next_temporary T)) (.Register T)) := by
  refine ⟨rfl, ?_, ?_⟩
  · cases T <;> first | exact absurd rfl hT | decide
  · simp only [Expression.GenerateInstructions, GenState.push_back_list]
    rw [List.getLast?_concat]
    cases op <;> rfl

/-- Witness for C2: `1 - x` lowered into temporary 8 ends with the subtraction of
temporary 9 from temporary 8 into temporary 8. -/
theorem C2_binary_operator_lowering_witness :
    Temporary.Eight ≠ Temporary.None
    ∧ ((Expression.BinaryOperator (.Integer 1) .Subtraction
          (.Identifier "x")).GenerateInstructions ⟨[]⟩ .Eight ⟨[], 0, 0⟩).list.getLast?
        = some (.Subtract (.Register .Eight) (.Register (next_temporary .Eight))
            (.Register .Eight)) :=
  ⟨by decide,
    (C2_binary_operator_lowering (.Integer 1) (.Identifier "x") .Subtraction .Eight
      (by decide) ⟨[]⟩ ⟨[], 0, 0⟩).2.2⟩

/-! ### The prologue of a program -/

theorem word_ne_text (name : String) : name ++ ": .word 0\n" ≠ ".text\n" := by
  intro h
  have := congrArg String.length h
  simp [String.length_append] at this
  have h2 : (": .word 0\n" : String).length = 10 := by decide
  have h3 : (".text\n" : String).length = 6 := by decide
  omega

theorem word_ne_data (name : String) : name ++ ": .word 0\n" ≠ ".data\n" := by
  intro h
  have := congrArg String.length h
  simp [String.length_append] at this
  have h2 : (": .word 0\n" : String).length = 10 := by decide
  have h3 : (".data\n" : String).length = 6 := by decide
  omega

theorem prologueList_ne_nil (symTable : symbol.Table) : prologueList symTable ≠ [] := by
  unfold prologueList
  simp

theorem prologueList_count_text (symTable : symbol.Table) :
    (prologueList symTable).count (Base.Custom ".text\n") = 1 := by
  unfold prologueList
  have hmap : ∀ l : List (String × symbol.Type_),
      (l.map (fun pair => Base.Custom (pair.1 ++ ": .word 0\n"))).count
        (Base.Custom ".text\n") = 0 := by
    intro l
    rw [List.count_eq_zero]
    intro hmem
    obtain ⟨e, _, he⟩ := List.mem_map.mp hmem
    exact word_ne_text e.1 (Base.Custom.inj he)
  split
  · simp
  · rw [List.count_append, List.count_cons, hmap]
    simp

theorem prologueList_count_data (symTable : symbol.Table) :
    (prologueList symTable).count (Base.Custom ".data\n") ≤ 1 := by
  unfold prologueList
  have hmap : ∀ l : List (String × symbol.Type_),
      (l.map (fun pair => Base.Custom (pair.1 ++ ": .word 0\n"))).count
        (Base.Custom ".data\n") = 0 := by
    intro l
    rw [List.count_eq_zero]
    intro hmem
    obtain ⟨e, _, he⟩ := List.mem_map.mp hmem
    exact word_ne_data e.1 (Base.Custom.inj he)
  split
  · simp
  · rw [List.count_append, List.count_cons, hmap]
    simp

theorem Block.GenerateInstructions_nil_state (statements : List Statement)
    (symTable : symbol.Table) (temporary : Temporary) (i w : Nat) :
    (Block.mk statements).GenerateInstructions symTable temporary ⟨[], i, w⟩
      = Block.GenerateStatements statements symTable ⟨prologueList symTable, i, w⟩ := by
  simp only [Block.GenerateInstructions, Block.prologue_of_nil]

theorem Block.appends_after_prologue (statements : List Statement)
    (symTable : symbol.Table) (temporary : Temporary) (i w : Nat) :
    ∃ rest : List Base,
      ((Block.mk statements).GenerateInstructions symTable temporary ⟨[], i, w⟩).list
        = prologueList symTable ++ rest ∧ ∀ x ∈ rest, isCustom x = false := by
  rw [Block.GenerateInstructions_nil_state]
  exact appends_noCustom_GenerateStatements statements symTable
    ⟨prologueList symTable, i, w⟩ (prologueList_ne_nil symTable)

/-- C3: a block lowered into an empty list first pushes the prologue, which is just
the raw `.text` line when the table enumerates nothing, and otherwise the raw
`.data` line, one raw `<name>: .word 0` line per entry in enumeration order and the
raw `.text` line; the statements are then lowered in order, starting from exactly
that prologue, which stays at the front of the output.  A block lowered into a
non-empty list pushes no prologue: it is the in-order lowering of its statements
from the list as it stands, and nothing it appends is raw text. -/
theorem C3_block_prologue (statements : List Statement) (symTable : symbol.Table)
    (temporary : Temporary) (i w : Nat) (s : List Base) :
    (symTable.GetAll = [] → prologueList symTable = [Base.Custom ".text\n"])
    ∧ (symTable.GetAll ≠ [] → prologueList symTable
        = [Base.Custom ".data\n"]
          ++ symTable.GetAll.map (fun pair => Base.Custom (pair.1 ++ ": .word 0\n"))
          ++ [Base.Custom ".text\n"])
    ∧ (Block.mk statements).GenerateInstructions symTable temporary ⟨[], i, w⟩
        = statements.foldl (fun st stmt => stmt.GenerateInstructions symTable .Zero st)
            ⟨prologueList symTable, i, w⟩
    ∧ (∃ rest : List Base,
        ((Block.mk statements).GenerateInstructions symTable temporary ⟨[], i, w⟩).list
          = prologueList symTable ++ rest)
    ∧ (s ≠ [] →
        (Block.mk statements).GenerateInstructions symTable temporary ⟨s, i, w⟩
          = statements.foldl (fun st stmt => stmt.GenerateInstructions symTable .Zero st)
              ⟨s, i, w⟩
        ∧ Appends (fun x => isCustom x = false) ⟨s, i, w⟩
            ((Block.mk statements).GenerateInstructions symTable temporary ⟨s, i, w⟩)) := by
  refine ⟨?_, ?_, ?_, ?_, ?_⟩
  · intro h
    simp [prologueList, h]
  · intro h
    simp [prologueList, h]
  · rw [Block.GenerateInstructions_nil_state, Block.GenerateStatements_eq_foldl]
  · obtain ⟨rest, h, _⟩ := Block.appends_after_prologue statements symTable temporary i w
    exact ⟨rest, h⟩
  · intro hs
    refine ⟨?_, appends_noCustom_Block _ symTable temporary ⟨s, i, w⟩ hs⟩
    simp only [Block.GenerateInstructions]
    rw [Block.prologue_of_ne_nil symTable ⟨s, i, w⟩ hs, Block.GenerateStatements_eq_foldl]

/-- Witness for C3: the block `{ int x = 5; }` with table `x, y`, lowered into the
empty list and into a list that already holds one instruction. -/
theorem C3_block_prologue_witness :
    (Block.mk [.IntegerDeclaration "x" (some (.Integer 5))]).GenerateInstructions
        ⟨[("x", .Integer), ("y", .Boolean)]⟩ .Zero ⟨[], 0, 0⟩
      = ⟨[.Custom ".data\n", .Custom "x: .word 0\n", .Custom "y: .word 0\n",
          .Custom ".text\n", .Constant (.Constant 5) (.Register .One),
          .Address "x" (.Register .Zero), .Save (.Register .One) (.Register .Zero)], 0, 0⟩
    ∧ [Base.Jump "L"] ≠ []
    ∧ (Block.mk [.IntegerDeclaration "x" (some (.Integer 5))]).GenerateInstructions
        ⟨[("x", .Integer), ("y", .Boolean)]⟩ .Zero ⟨[.Jump "L"], 0, 0⟩
      = ⟨[.Jump "L", .Constant (.Constant 5) (.Register .One),
          .Address "x" (.Register .Zero), .Save (.Register .One) (.Register .Zero)], 0, 0⟩ :=
  ⟨((C3_block_prologue [.IntegerDeclaration "x" (some (.Integer 5))]
      ⟨[("x", .Integer), ("y", .Boolean)]⟩ .Zero 0 0 [.Jump "L"]).2.2.1).trans (by decide),
    by decide,
    (((C3_block_prologue [.IntegerDeclaration "x" (some (.Integer 5))]
      ⟨[("x", .Integer), ("y", .Boolean)]⟩ .Zero 0 0 [.Jump "L"]).2.2.2.2
        (by decide)).1).trans (by decide)⟩

/-- C4: in a program lowered into the empty list the prologue appears once.  The
output is the prologue followed by instructions none of which is raw text, so it
holds exactly one raw `.text` line and at most one raw `.data` line, both inside
the prologue; and any block lowered into a non-empty list, as every nested block
is, appends no raw text. -/
theorem C4_prologue_once (program : Block) (symTable : symbol.Table)
    (temporary : Temporary) (i w : Nat) :
    (∃ rest : List Base,
        (program.GenerateInstructions symTable temporary ⟨[], i, w⟩).list
          = prologueList symTable ++ rest
        ∧ ∀ x ∈ rest, isCustom x = false)
    ∧ (program.GenerateInstructions symTable temporary ⟨[], i, w⟩).list.count
        (Base.Custom ".text\n") = 1
    ∧ (program.GenerateInstructions symTable temporary ⟨[], i, w⟩).list.count
        (Base.Custom ".data\n") ≤ 1
    ∧ (∀ (nested : Block) (t : Temporary) (st : GenState), st.list ≠ [] →
        ∃ app : List Base,
          (nested.GenerateInstructions symTable t st).list = st.list ++ app
          ∧ ∀ x ∈ app, isCustom x = false) := by
  cases program with
  | mk statements =>
    obtain ⟨rest, h, hrest⟩ :=
      Block.appends_after_prologue statements symTable temporary i w
    have hcount : ∀ d : String, rest.count (Base.Custom d) = 0 := by
      intro d
      rw [List.count_eq_zero]
      intro hmem
      have := hrest _ hmem
      simp [isCustom] at this
    refine ⟨⟨rest, h, hrest⟩, ?_, ?_, ?_⟩
    · rw [h, List.count_append, hcount, prologueList_count_text]
    · rw [h, List.count_append, hcount]
      exact prologueList_count_data symTable
    · intro nested t st hst
      exact appends_noCustom_Block nested symTable t st hst

/-- Witness for C4: a block nested in a conditional, reached with a non-empty
list, appends only its own load, address and store. -/
theorem C4_prologue_once_witness :
    [Base.Custom ".text\n"] ≠ []
    ∧ ∃ app : List Base,
        ((Block.mk [.Assignment "x" (.Integer 0)]).GenerateInstructions
          ⟨[("x", .Integer)]⟩ .Zero ⟨[.Custom ".text\n"], 0, 0⟩).list
          = [Base.Custom ".text\n"] ++ app
        ∧ ∀ x ∈ app, isCustom x = false :=
  ⟨by decide,
    (C4_prologue_once (.mk []) ⟨[("x", .Integer)]⟩ .Zero 0 0).2.2.2
      (.mk [.Assignment "x" (.Integer 0)]) .Zero ⟨[.Custom ".text\n"], 0, 0⟩ (by decide)⟩

/-! ### Decimal rendering is injective -/

theorem digitChar_toNat (k : Nat) (h : k < 10) : (Nat.digitChar k).toNat - 48 = k := by
  interval_cases k <;> rfl

theorem toDigitsCore_decode : ∀ (fuel n : Nat) (ds : List Char), n < fuel →
    ∃ front : List Char, Nat.toDigitsCore 10 fuel n ds = front ++ ds
      ∧ digitsValue front.reverse = n := by
  intro fuel
  induction fuel with
  | zero => intro n ds h; omega
  | succ f ih =>
    intro n ds h
    unfold Nat.toDigitsCore
    by_cases hz : n / 10 = 0
    · refine ⟨[Nat.digitChar (n % 10)], by simp [hz], ?_⟩
      have hn : n < 10 := by omega
      simp [digitsValue, digitChar_toNat (n % 10) (Nat.mod_lt _ (by decide))]
      omega
    · obtain ⟨front, hf, hv⟩ := ih (n / 10) (Nat.digitChar (n % 10) :: ds) (by omega)
      refine ⟨front ++ [Nat.digitChar (n % 10)], by simp [hz, hf], ?_⟩
      simp [digitsValue, hv, digitChar_toNat (n % 10) (Nat.mod_lt _ (by decide))]
      omega

theorem toString_nat_injective (a b : Nat) (h : toString a = toString b) : a = b := by
  have h1 : Nat.toDigits 10 a = Nat.toDigits 10 b := by
    have := congrArg String.data h
    simpa [toString, Nat.repr, List.asString] using this
  obtain ⟨fa, ha, va⟩ := toDigitsCore_decode (a + 1) a [] (by omega)
  obtain ⟨fb, hb, vb⟩ := toDigitsCore_decode (b + 1) b [] (by omega)
  unfold Nat.toDigits at h1
  rw [ha, hb] at h1
  simp only [List.append_nil] at h1
  rw [← va, ← vb, h1]

theorem append_toString_injective (p : String) (a b : Nat)
    (h : p ++ toString a = p ++ toString b) : a = b := by
  apply toString_nat_injective
  have := congrArg String.data h
  simp only [String.data_append] at this
  exact String.ext (List.append_cancel_left this)

/-! ### Label definitions and the two counters of lowering -/

@[simp] theorem labelNames_nil : labelNames [] = [] := rfl

@[simp] theorem labelNames_append (a b : List Base) :
    labelNames (a ++ b) = labelNames a ++ labelNames b := by
  simp [labelNames, List.filterMap_append]

@[simp] theorem labelNames_singleton (x : Base) :
    labelNames [x] = (labelName? x).toList := by
  cases h : labelName? x <;> simp [labelNames, List.filterMap_cons, h]

@[simp] theorem labelNames_cons (x : Base) (l : List Base) :
    labelNames (x :: l) = (labelName? x).toList ++ labelNames l := by
  cases h : labelName? x <;> simp [labelNames, List.filterMap_cons, h]

@[simp] theorem labelNames_loadIfAddress (t : Temporary) (st : GenState) :
    labelNames (loadIfAddress t st).list = labelNames st.list := by
  rw [loadIfAddress_list]
  split <;> simp [labelName?]

@[simp] theorem labelName?_inst (op : Code) (t t2 : Temporary) :
    labelName? (BinaryOperator.inst op t t2) = none := by
  cases op <;> rfl

theorem labelNames_of_noLabel (l : List Base) (h : ∀ x ∈ l, labelName? x = none) :
    labelNames l = [] := by
  simp only [labelNames, List.filterMap_eq_nil_iff]
  exact h

theorem labelNames_prologueList (symTable : symbol.Table) :
    labelNames (prologueList symTable) = [] := by
  apply labelNames_of_noLabel
  intro x hx
  unfold prologueList at hx
  split at hx
  · simp at hx
    subst hx
    rfl
  · simp only [List.mem_append, List.mem_cons, List.mem_map, List.mem_singleton,
      List.not_mem_nil, or_false] at hx
    rcases hx with (h | ⟨a, _, h⟩) | h <;> subst h <;> rfl

theorem Block.prologue_cases (symTable : symbol.Table) (st : GenState) :
    Block.prologue symTable st = st
    ∨ Block.prologue symTable st
        = ⟨prologueList symTable, st.IfThenElse_labels, st.WhileLoop_labels⟩ ∧ st.list = [] := by
  cases st with
  | mk l i w =>
    cases l with
    | nil => exact Or.inr ⟨Block.prologue_of_nil symTable i w, rfl⟩
    | cons a l => exact Or.inl (Block.prologue_of_ne_nil symTable _ (by simp))

@[simp] theorem labelNames_prologue (symTable : symbol.Table) (st : GenState) :
    labelNames (Block.prologue symTable st).list = labelNames st.list := by
  rcases Block.prologue_cases symTable st with h | ⟨h, hl⟩
  · rw [h]
  · rw [h, hl]
    simp [labelNames_prologueList]

@[simp] theorem prologue_IfThenElse_labels (symTable : symbol.Table) (st : GenState) :
    (Block.prologue symTable st).IfThenElse_labels = st.IfThenElse_labels := by
  rcases Block.prologue_cases symTable st with h | ⟨h, _⟩ <;> rw [h]

@[simp] theorem prologue_WhileLoop_labels (symTable : symbol.Table) (st : GenState) :
    (Block.prologue symTable st).WhileLoop_labels = st.WhileLoop_labels := by
  rcases Block.prologue_cases symTable st with h | ⟨h, _⟩ <;> rw [h]

theorem increment_eq (n : Nat) (h : n + 1 < 2 ^ 32) : instruction.increment n = n + 1 := by
  unfold instruction.increment
  exact Nat.mod_eq_of_lt h


mutual
theorem labels_Expression : ∀ (e : Expression) (symTable : symbol.Table)
    (temporary : Temporary) (st : GenState),
    st.IfThenElse_labels + e.conditionals < 2 ^ 32 →
    st.WhileLoop_labels + e.loops < 2 ^ 32 →
    labelNames (e.GenerateInstructions symTable temporary st).list
        = labelNames st.list
          ++ (e.preorderLabels st.IfThenElse_labels st.WhileLoop_labels).map ControlLabel.name
    ∧ (e.GenerateInstructions symTable temporary st).IfThenElse_labels
        = st.IfThenElse_labels + e.conditionals
    ∧ (e.GenerateInstructions symTable temporary st).WhileLoop_labels
        = st.WhileLoop_labels + e.loops
  | .Boolean _, _, _, st => by
      intro _ _
      simp [Expression.GenerateInstructions, Expression.preorderLabels,
        Expression.conditionals, Expression.loops, labelName?]
  | .Integer _, _, _, st => by
      intro _ _
      simp [Expression.GenerateInstructions, Expression.preorderLabels,
        Expression.conditionals, Expression.loops, labelName?]
  | .Identifier _, _, _, st => by
      intro _ _
      simp [Expression.GenerateInstructions, Expression.preorderLabels,
        Expression.conditionals, Expression.loops, labelName?]
  | .BinaryOperator lhs op rhs, symTable, temporary, st => by
      intro hi hw
      simp only [Expression.conditionals, Expression.loops] at hi hw
      obtain ⟨l1, i1, w1⟩ := labels_Expression lhs symTable temporary st
        (by omega) (by omega)
      obtain ⟨l2, i2, w2⟩ := labels_Expression rhs symTable (next_temporary temporary)
        (loadIfAddress temporary (lhs.GenerateInstructions symTable temporary st))
        (by simp only [loadIfAddress_IfThenElse_labels, i1]; omega)
        (by simp only [loadIfAddress_WhileLoop_labels, w1]; omega)
      simp only [loadIfAddress_IfThenElse_labels, loadIfAddress_WhileLoop_labels, i1, w1,
        labelNames_loadIfAddress, l1] at l2 i2 w2
      simp only [Expression.GenerateInstructions, Expression.preorderLabels,
        Expression.conditionals, Expression.loops, GenState.push_back_list,
        GenState.push_back_IfThenElse_labels, GenState.push_back_WhileLoop_labels,
        loadIfAddress_IfThenElse_labels, loadIfAddress_WhileLoop_labels,
        labelNames_append, labelNames_loadIfAddress, labelNames_singleton, labelName?_inst,
        l2, i2, w2, List.map_append]
      simp [Nat.add_assoc]
  | .Block block, symTable, temporary, st => by
      intro hi hw
      simp only [Expression.conditionals, Expression.loops] at hi hw
      simp only [Expression.GenerateInstructions, Expression.preorderLabels,
        Expression.conditionals, Expression.loops]
      exact labels_Block block symTable temporary st hi hw
theorem labels_Statement : ∀ (s : Statement) (symTable : symbol.Table)
    (temporary : Temporary) (st : GenState),
    st.IfThenElse_labels + s.conditionals < 2 ^ 32 →
    st.WhileLoop_labels + s.loops < 2 ^ 32 →
    labelNames (s.GenerateInstructions symTable temporary st).list
        = labelNames st.list
          ++ (s.preorderLabels st.IfThenElse_labels st.WhileLoop_labels).map ControlLabel.name
    ∧ (s.GenerateInstructions symTable temporary st).IfThenElse_labels
        = st.IfThenElse_labels + s.conditionals
    ∧ (s.GenerateInstructions symTable temporary st).WhileLoop_labels
        = st.WhileLoop_labels + s.loops
  | .Assignment _ rhs, symTable, _, st => by
      intro hi hw
      simp only [Statement.conditionals, Statement.loops] at hi hw
      obtain ⟨l1, i1, w1⟩ := labels_Expression rhs symTable .One st hi hw
      simp [Statement.GenerateInstructions, Statement.preorderLabels,
        Statement.conditionals, Statement.loops, l1, i1, w1, labelName?]
  | .ExpressionStatement expression, symTable, temporary, st => by
      intro hi hw
      simp only [Statement.conditionals, Statement.loops] at hi hw
      simp only [Statement.GenerateInstructions, Statement.preorderLabels,
        Statement.conditionals, Statement.loops]
      exact labels_Expression expression symTable temporary st hi hw
  | .IntegerDeclaration _ none, _, _, st => by
      intro _ _
      simp [Statement.GenerateInstructions, Statement.preorderLabels,
        Statement.conditionals, Statement.loops]
  | .IntegerDeclaration _ (some e), symTable, _, st => by
      intro hi hw
      simp only [Statement.conditionals, Statement.loops] at hi hw
      obtain ⟨l1, i1, w1⟩ := labels_Expression e symTable .One st hi hw
      simp [Statement.GenerateInstructions, Statement.preorderLabels,
        Statement.conditionals, Statement.loops, l1, i1, w1, labelName?]
  | .BooleanDeclaration _ none, _, _, st => by
      intro _ _
      simp [Statement.GenerateInstructions, Statement.preorderLabels,
        Statement.conditionals, Statement.loops]
  | .BooleanDeclaration _ (some e), symTable, _, st => by
      intro hi hw
      simp only [Statement.conditionals, Statement.loops] at hi hw
      obtain ⟨l1, i1, w1⟩ := labels_Expression e symTable .One st hi hw
      simp [Statement.GenerateInstructions, Statement.preorderLabels,
        Statement.conditionals, Statement.loops, l1, i1, w1, labelName?]
  | .IfThenElse testExpr successBlock none, symTable, _, st => by
      intro hi hw
      simp only [Statement.conditionals, Statement.loops] at hi hw
      have hinc := increment_eq st.IfThenElse_labels (by omega)
      obtain ⟨l1, i1, w1⟩ := labels_Expression testExpr symTable .Zero
        { st with IfThenElse_labels := instruction.increment st.IfThenElse_labels }
        (by simp only [hinc]; omega) (by simpa using (by omega))
      simp only [hinc] at l1 i1 w1
      obtain ⟨l2, i2, w2⟩ := labels_Block successBlock symTable .Zero
        ((loadIfAddress .Zero (testExpr.GenerateInstructions symTable .Zero
          { st with IfThenElse_labels := st.IfThenElse_labels + 1 })).push_back
          (.BranchEqual (.Register .Zero) (.Constant 0)
            ("IfThenElse_End_" ++ toString st.IfThenElse_labels)))
        (by simp only [GenState.push_back_IfThenElse_labels,
              loadIfAddress_IfThenElse_labels, i1]; omega)
        (by simp only [GenState.push_back_WhileLoop_labels,
              loadIfAddress_WhileLoop_labels, w1]; omega)
      simp only [GenState.push_back_IfThenElse_labels, GenState.push_back_WhileLoop_labels,
        GenState.push_back_list, loadIfAddress_IfThenElse_labels,
        loadIfAddress_WhileLoop_labels, labelNames_append, labelNames_loadIfAddress,
        labelNames_singleton, i1, w1, l1, labelName?] at l2 i2 w2
      simp only [Statement.GenerateInstructions, Statement.preorderLabels,
        Statement.conditionals, Statement.loops, hinc, GenState.push_back_list,
        GenState.push_back_IfThenElse_labels, GenState.push_back_WhileLoop_labels,
        labelNames_append, labelNames_singleton, l2, i2, w2, labelName?, List.map_append]
      simp [ControlLabel.name, Nat.add_assoc, Nat.add_comm 1]
  | .IfThenElse testExpr successBlock (some failureBlock), symTable, _, st => by
      intro hi hw
      simp only [Statement.conditionals, Statement.loops] at hi hw
      have hinc := increment_eq st.IfThenElse_labels (by omega)
      obtain ⟨l1, i1, w1⟩ := labels_Expression testExpr symTable .Zero
        { st with IfThenElse_labels := instruction.increment st.IfThenElse_labels }
        (by simp only [hinc]; omega) (by simpa using (by omega))
      simp only [hinc] at l1 i1 w1
      obtain ⟨l2, i2, w2⟩ := labels_Block successBlock symTable .Zero
        ((loadIfAddress .Zero (testExpr.GenerateInstructions symTable .Zero
          { st with IfThenElse_labels := st.IfThenElse_labels + 1 })).push_back
          (.BranchEqual (.Register .Zero) (.Constant 0)
            ("IfThenElse_Failure_" ++ toString st.IfThenElse_labels)))
        (by simp only [GenState.push_back_IfThenElse_labels,
              loadIfAddress_IfThenElse_labels, i1]; omega)
        (by simp only [GenState.push_back_WhileLoop_labels,
              loadIfAddress_WhileLoop_labels, w1]; omega)
      simp only [GenState.push_back_IfThenElse_labels, GenState.push_back_WhileLoop_labels,
        GenState.push_back_list, loadIfAddress_IfThenElse_labels,
        loadIfAddress_WhileLoop_labels, labelNames_append, labelNames_loadIfAddress,
        labelNames_singleton, i1, w1, l1, labelName?] at l2 i2 w2
      obtain ⟨l3, i3, w3⟩ := labels_Block failureBlock symTable .Zero
        ((successBlock.GenerateInstructions symTable .Zero
          ((loadIfAddress .Zero (testExpr.GenerateInstructions symTable .Zero
            { st with IfThenElse_labels := st.IfThenElse_labels + 1 })).push_back
            (.BranchEqual (.Register .Zero) (.Constant 0)
              ("IfThenElse_Failure_" ++ toString st.IfThenElse_labels)))).push_back
          (.Label ("IfThenElse_Failure_" ++ toString st.IfThenElse_labels)))
        (by simp only [GenState.push_back_IfThenElse_labels, i2]; omega)
        (by simp only [GenState.push_back_WhileLoop_labels, w2]; omega)
      simp only [GenState.push_back_IfThenElse_labels, GenState.push_back_WhileLoop_labels,
        GenState.push_back_list, labelNames_append,
        labelNames_singleton, i2, w2, l2, labelName?] at l3 i3 w3
      simp only [Statement.GenerateInstructions, Statement.preorderLabels,
        Statement.conditionals, Statement.loops, hinc, GenState.push_back_list,
        GenState.push_back_IfThenElse_labels, GenState.push_back_WhileLoop_labels,
        labelNames_append, labelNames_singleton, l3, i3, w3, labelName?, List.map_append]
      simp [ControlLabel.name, Nat.add_assoc, Nat.add_comm 1]
  | .WhileLoop testExpr successBlock, symTable, _, st => by
      intro hi hw
      simp only [Statement.conditionals, Statement.loops] at hi hw
      have hinc := increment_eq st.WhileLoop_labels (by omega)
      obtain ⟨l1, i1, w1⟩ := labels_Expression testExpr symTable .Zero
        (GenState.push_back
          { st with WhileLoop_labels := instruction.increment st.WhileLoop_labels }
          (.Label ("WhileLoop_Start_" ++ toString st.WhileLoop_labels)))
        (by simpa using (by omega))
        (by simp only [GenState.push_back_WhileLoop_labels, hinc]; omega)
      simp only [hinc, GenState.push_back_list, GenState.push_back_IfThenElse_labels,
        GenState.push_back_WhileLoop_labels, labelNames_append, labelNames_singleton,
        labelName?] at l1 i1 w1
      obtain ⟨l2, i2, w2⟩ := labels_Block successBlock symTable .Zero
        ((loadIfAddress .Zero (testExpr.GenerateInstructions symTable .Zero
          (GenState.push_back { st with WhileLoop_labels := st.WhileLoop_labels + 1 }
            (.Label ("WhileLoop_Start_" ++ toString st.WhileLoop_labels))))).push_back
          (.BranchEqual (.Register .Zero) (.Constant 0)
            ("WhileLoop_End_" ++ toString st.WhileLoop_labels)))
        (by simp only [GenState.push_back_IfThenElse_labels,
              loadIfAddress_IfThenElse_labels, i1]; omega)
        (by simp only [GenState.push_back_WhileLoop_labels,
              loadIfAddress_WhileLoop_labels, w1]; omega)
      simp only [GenState.push_back_IfThenElse_labels, GenState.push_back_WhileLoop_labels,
        GenState.push_back_list, loadIfAddress_IfThenElse_labels,
        loadIfAddress_WhileLoop_labels, labelNames_append, labelNames_loadIfAddress,
        labelNames_singleton, i1, w1, l1, labelName?] at l2 i2 w2
      simp only [Statement.GenerateInstructions, Statement.preorderLabels,
        Statement.conditionals, Statement.loops, hinc, GenState.push_back_list,
        GenState.push_back_IfThenElse_labels, GenState.push_back_WhileLoop_labels,
        labelNames_append, labelNames_singleton, l2, i2, w2, labelName?, List.map_append]
      simp [ControlLabel.name, Nat.add_assoc, Nat.add_comm 1]
theorem labels_Block : ∀ (b : Block) (symTable : symbol.Table)
    (temporary : Temporary) (st : GenState),
    st.IfThenElse_labels + b.conditionals < 2 ^ 32 →
    st.WhileLoop_labels + b.loops < 2 ^ 32 →
    labelNames (b.GenerateInstructions symTable temporary st).list
        = labelNames st.list
          ++ (b.preorderLabels st.IfThenElse_labels st.WhileLoop_labels).map ControlLabel.name
    ∧ (b.GenerateInstructions symTable temporary st).IfThenElse_labels
        = st.IfThenElse_labels + b.conditionals
    ∧ (b.GenerateInstructions symTable temporary st).WhileLoop_labels
        = st.WhileLoop_labels + b.loops
  | .mk statements, symTable, _, st => by
      intro hi hw
      simp only [Block.conditionals, Block.loops] at hi hw
      have h := labels_GenerateStatements statements symTable (Block.prologue symTable st)
        (by simpa using hi) (by simpa using hw)
      simpa [Block.GenerateInstructions, Block.preorderLabels, Block.conditionals,
        Block.loops] using h
theorem labels_GenerateStatements : ∀ (statements : List Statement)
    (symTable : symbol.Table) (st : GenState),
    st.IfThenElse_labels + Block.conditionalsOfStatements statements < 2 ^ 32 →
    st.WhileLoop_labels + Block.loopsOfStatements statements < 2 ^ 32 →
    labelNames (Block.GenerateStatements statements symTable st).list
        = labelNames st.list
          ++ (Block.preorderLabelsOfStatements statements st.IfThenElse_labels
                st.WhileLoop_labels).map ControlLabel.name
    ∧ (Block.GenerateStatements statements symTable st).IfThenElse_labels
        = st.IfThenElse_labels + Block.conditionalsOfStatements statements
    ∧ (Block.GenerateStatements statements symTable st).WhileLoop_labels
        = st.WhileLoop_labels + Block.loopsOfStatements statements
  | [], _, st => by
      intro _ _
      simp [Block.GenerateStatements, Block.preorderLabelsOfStatements,
        Block.conditionalsOfStatements, Block.loopsOfStatements]
  | stmt :: rest, symTable, st => by
      intro hi hw
      simp only [Block.conditionalsOfStatements, Block.loopsOfStatements] at hi hw
      obtain ⟨l1, i1, w1⟩ := labels_Statement stmt symTable .Zero st (by omega) (by omega)
      obtain ⟨l2, i2, w2⟩ := labels_GenerateStatements rest symTable
        (stmt.GenerateInstructions symTable .Zero st)
        (by simp only [i1]; omega) (by simp only [w1]; omega)
      simp only [i1, w1, l1] at l2 i2 w2
      simp only [Block.GenerateStatements, Block.preorderLabelsOfStatements,
        Block.conditionalsOfStatements, Block.loopsOfStatements, l2, i2, w2,
        List.map_append]
      simp [Nat.add_assoc]
end

/-! ### Pre-order numbering of control-flow labels -/

theorem within_mono {c : ControlLabel} {i i' w w' j j' v v' : Nat}
    (h : c.within i i' w w') (h1 : j ≤ i) (h2 : i' ≤ j') (h3 : v ≤ w) (h4 : w' ≤ v') :
    c.within j j' v v' := by
  cases c <;> simp only [ControlLabel.within] at h ⊢ <;> omega

theorem within_disjoint {c : ControlLabel} {i i' w w' j j' v v' : Nat}
    (h : c.within i i' w w') (h' : c.within j j' v v') (h1 : i' ≤ j) (h2 : w' ≤ v) :
    False := by
  cases c <;> simp only [ControlLabel.within] at h h' <;> omega

mutual
theorem within_Expression : ∀ (e : Expression) (i w : Nat) (c : ControlLabel),
    c ∈ e.preorderLabels i w → c.within i (i + e.conditionals) w (w + e.loops)
  | .Boolean _, _, _, _ => by simp [Expression.preorderLabels]
  | .Integer _, _, _, _ => by simp [Expression.preorderLabels]
  | .Identifier _, _, _, _ => by simp [Expression.preorderLabels]
  | .BinaryOperator lhs _ rhs, i, w, c => by
      intro h
      simp only [Expression.preorderLabels, List.mem_append] at h
      simp only [Expression.conditionals, Expression.loops]
      rcases h with h | h
      · exact within_mono (within_Expression lhs i w c h) (by omega) (by omega)
          (by omega) (by omega)
      · exact within_mono (within_Expression rhs _ _ c h) (by omega) (by omega)
          (by omega) (by omega)
  | .Block block, i, w, c => by
      intro h
      simp only [Expression.preorderLabels] at h
      simp only [Expression.conditionals, Expression.loops]
      exact within_Block block i w c h
theorem within_Statement : ∀ (s : Statement) (i w : Nat) (c : ControlLabel),
    c ∈ s.preorderLabels i w → c.within i (i + s.conditionals) w (w + s.loops)
  | .Assignment _ rhs, i, w, c => by
      intro h
      simp only [Statement.preorderLabels] at h
      simp only [Statement.conditionals, Statement.loops]
      exact within_Expression rhs i w c h
  | .ExpressionStatement e, i, w, c => by
      intro h
      simp only [Statement.preorderLabels] at h
      simp only [Statement.conditionals, Statement.loops]
      exact within_Expression e i w c h
  | .IntegerDeclaration _ none, _, _, _ => by simp [Statement.preorderLabels]
  | .IntegerDeclaration _ (some e), i, w, c => by
      intro h
      simp only [Statement.preorderLabels] at h
      simp only [Statement.conditionals, Statement.loops]
      exact within_Expression e i w c h
  | .BooleanDeclaration _ none, _, _, _ => by simp [Statement.preorderLabels]
  | .BooleanDeclaration _ (some e), i, w, c => by
      intro h
      simp only [Statement.preorderLabels] at h
      simp only [Statement.conditionals, Statement.loops]
      exact within_Expression e i w c h
  | .IfThenElse testExpr successBlock none, i, w, c => by
      intro h
      simp only [Statement.preorderLabels, List.mem_append, List.mem_singleton] at h
      simp only [Statement.conditionals, Statement.loops]
      rcases h with (h | h) | h
      · exact within_mono (within_Expression testExpr _ _ c h) (by omega) (by omega)
          (by omega) (by omega)
      · exact within_mono (within_Block successBlock _ _ c h) (by omega) (by omega)
          (by omega) (by omega)
      · subst h
        simp only [ControlLabel.within]
        omega
  | .IfThenElse testExpr successBlock (some failureBlock), i, w, c => by
      intro h
      simp only [Statement.preorderLabels, List.mem_append, List.mem_singleton] at h
      simp only [Statement.conditionals, Statement.loops]
      rcases h with (((h | h) | h) | h) | h
      · exact within_mono (within_Expression testExpr _ _ c h) (by omega) (by omega)
          (by omega) (by omega)
      · exact within_mono (within_Block successBlock _ _ c h) (by omega) (by omega)
          (by omega) (by omega)
      · subst h
        simp only [ControlLabel.within]
        omega
      · exact within_mono (within_Block failureBlock _ _ c h) (by omega) (by omega)
          (by omega) (by omega)
      · subst h
        simp only [ControlLabel.within]
        omega
  | .WhileLoop testExpr successBlock, i, w, c => by
      intro h
      simp only [Statement.preorderLabels, List.mem_append, List.mem_singleton] at h
      simp only [Statement.conditionals, Statement.loops]
      rcases h with ((h | h) | h) | h
      · subst h
        simp only [ControlLabel.within]
        omega
      · exact within_mono (within_Expression testExpr _ _ c h) (by omega) (by omega)
          (by omega) (by omega)
      · exact within_mono (within_Block successBlock _ _ c h) (by omega) (by omega)
          (by omega) (by omega)
      · subst h
        simp only [ControlLabel.within]
        omega
theorem within_Block : ∀ (b : Block) (i w : Nat) (c : ControlLabel),
    c ∈ b.preorderLabels i w → c.within i (i + b.conditionals) w (w + b.loops)
  | .mk statements, i, w, c => by
      intro h
      simp only [Block.preorderLabels] at h
      simp only [Block.conditionals, Block.loops]
      exact within_Statements statements i w c h
theorem within_Statements : ∀ (statements : List Statement) (i w : Nat)
    (c : ControlLabel), c ∈ Block.preorderLabelsOfStatements statements i w →
    c.within i (i + Block.conditionalsOfStatements statements)
      w (w + Block.loopsOfStatements statements)
  | [], _, _, _ => by simp [Block.preorderLabelsOfStatements]
  | stmt :: rest, i, w, c => by
      intro h
      simp only [Block.preorderLabelsOfStatements, List.mem_append] at h
      simp only [Block.conditionalsOfStatements, Block.loopsOfStatements]
      rcases h with h | h
      · exact within_mono (within_Statement stmt i w c h) (by omega) (by omega)
          (by omega) (by omega)
      · exact within_mono (within_Statements rest _ _ c h) (by omega) (by omega)
          (by omega) (by omega)
end


theorem nodup_append_of_within {A B : List ControlLabel} {i i' w w' j j' v v' : Nat}
    (hA : A.Nodup) (hB : B.Nodup) (wA : ∀ c ∈ A, c.within i i' w w')
    (wB : ∀ c ∈ B, c.within j j' v v') (h1 : i' ≤ j) (h2 : w' ≤ v) : (A ++ B).Nodup := by
  rw [List.nodup_append]
  refine ⟨hA, hB, ?_⟩
  rw [List.disjoint_left]
  intro c ha hb
  exact within_disjoint (wA c ha) (wB c hb) h1 h2

theorem nodup_concat_of_not_mem {A : List ControlLabel} {c : ControlLabel}
    (hA : A.Nodup) (hc : c ∉ A) : (A ++ [c]).Nodup := by
  rw [List.nodup_append]
  refine ⟨hA, List.nodup_singleton c, ?_⟩
  rw [List.disjoint_left]
  intro a ha hb
  rw [List.mem_singleton] at hb
  exact hc (hb ▸ ha)

theorem within_append {A B : List ControlLabel} {i i' w w' : Nat}
    (wA : ∀ c ∈ A, c.within i i' w w') (wB : ∀ c ∈ B, c.within i i' w w') :
    ∀ c ∈ A ++ B, c.within i i' w w' := by
  intro c hc
  rcases List.mem_append.mp hc with h | h
  · exact wA c h
  · exact wB c h

mutual
theorem nodup_Expression : ∀ (e : Expression) (i w : Nat), (e.preorderLabels i w).Nodup
  | .Boolean _, _, _ => by simp [Expression.preorderLabels]
  | .Integer _, _, _ => by simp [Expression.preorderLabels]
  | .Identifier _, _, _ => by simp [Expression.preorderLabels]
  | .BinaryOperator lhs _ rhs, i, w => by
      simp only [Expression.preorderLabels]
      exact nodup_append_of_within (nodup_Expression lhs i w) (nodup_Expression rhs _ _)
        (within_Expression lhs i w) (within_Expression rhs _ _) (Nat.le_refl _)
        (Nat.le_refl _)
  | .Block block, i, w => by
      simp only [Expression.preorderLabels]
      exact nodup_Block block i w
theorem nodup_Statement : ∀ (s : Statement) (i w : Nat), (s.preorderLabels i w).Nodup
  | .Assignment _ rhs, i, w => by
      simp only [Statement.preorderLabels]
      exact nodup_Expression rhs i w
  | .ExpressionStatement e, i, w => by
      simp only [Statement.preorderLabels]
      exact nodup_Expression e i w
  | .IntegerDeclaration _ none, _, _ => by simp [Statement.preorderLabels]
  | .IntegerDeclaration _ (some e), i, w => by
      simp only [Statement.preorderLabels]
      exact nodup_Expression e i w
  | .BooleanDeclaration _ none, _, _ => by simp [Statement.preorderLabels]
  | .BooleanDeclaration _ (some e), i, w => by
      simp only [Statement.preorderLabels]
      exact nodup_Expression e i w
  | .IfThenElse testExpr successBlock none, i, w => by
      simp only [Statement.preorderLabels]
      have hTS := nodup_append_of_within (nodup_Expression testExpr (i + 1) w)
        (nodup_Block successBlock _ _) (within_Expression testExpr (i + 1) w)
        (within_Block successBlock (i + 1 + testExpr.conditionals) (w + testExpr.loops))
        (Nat.le_refl _) (Nat.le_refl _)
      refine nodup_concat_of_not_mem hTS ?_
      intro hmem
      rcases List.mem_append.mp hmem with h | h
      · have := within_Expression testExpr _ _ _ h
        simp only [ControlLabel.within] at this
        omega
      · have := within_Block successBlock _ _ _ h
        simp only [ControlLabel.within] at this
        omega
  | .IfThenElse testExpr successBlock (some failureBlock), i, w => by
      simp only [Statement.preorderLabels]
      have hTS := nodup_append_of_within (nodup_Expression testExpr (i + 1) w)
        (nodup_Block successBlock _ _) (within_Expression testExpr (i + 1) w)
        (within_Block successBlock (i + 1 + testExpr.conditionals) (w + testExpr.loops))
        (Nat.le_refl _) (Nat.le_refl _)
      have hnotTS : ∀ c : ControlLabel, c.conditional? = some i →
          c ∉ testExpr.preorderLabels (i + 1) w ++ successBlock.preorderLabels
            (i + 1 + testExpr.conditionals) (w + testExpr.loops) := by
        intro c hc hmem
        rcases List.mem_append.mp hmem with h | h
        · have := within_Expression testExpr _ _ _ h
          cases c <;> simp only [ControlLabel.within, ControlLabel.conditional?,
            Option.some.injEq] at this hc <;> first | omega | exact absurd hc (by simp)
        · have := within_Block successBlock _ _ _ h
          cases c <;> simp only [ControlLabel.within, ControlLabel.conditional?,
            Option.some.injEq] at this hc <;> first | omega | exact absurd hc (by simp)
      have hnotF : ∀ c : ControlLabel, c.conditional? = some i →
          c ∉ failureBlock.preorderLabels
            (i + 1 + testExpr.conditionals + successBlock.conditionals)
            (w + testExpr.loops + successBlock.loops) := by
        intro c hc h
        have := within_Block failureBlock _ _ _ h
        cases c <;> simp only [ControlLabel.within, ControlLabel.conditional?,
          Option.some.injEq] at this hc <;> first | omega | exact absurd hc (by simp)
      have hTSF := nodup_concat_of_not_mem hTS (hnotTS (.IfThenElse_Failure i) rfl)
      have hwTS : ∀ c ∈ testExpr.preorderLabels (i + 1) w ++ successBlock.preorderLabels
            (i + 1 + testExpr.conditionals) (w + testExpr.loops) ++ [.IfThenElse_Failure i],
          c.within i (i + 1 + testExpr.conditionals + successBlock.conditionals)
            w (w + testExpr.loops + successBlock.loops) := by
        refine within_append (within_append ?_ ?_) ?_
        · intro c h
          exact within_mono (within_Expression testExpr _ _ c h) (by omega) (by omega)
            (by omega) (by omega)
        · intro c h
          exact within_mono (within_Block successBlock _ _ c h) (by omega) (by omega)
            (by omega) (by omega)
        · intro c h
          rw [List.mem_singleton] at h
          subst h
          simp only [ControlLabel.within]
          omega
      have hAll := nodup_append_of_within hTSF (nodup_Block failureBlock _ _) hwTS
        (within_Block failureBlock
          (i + 1 + testExpr.conditionals + successBlock.conditionals)
          (w + testExpr.loops + successBlock.loops)) (Nat.le_refl _) (Nat.le_refl _)
      refine nodup_concat_of_not_mem hAll ?_
      intro hmem
      rcases List.mem_append.mp hmem with h | h
      · rcases List.mem_append.mp h with h | h
        · exact hnotTS (.IfThenElse_End i) rfl h
        · simp at h
      · exact hnotF (.IfThenElse_End i) rfl h
  | .WhileLoop testExpr successBlock, i, w => by
      simp only [Statement.preorderLabels]
      have hTS := nodup_append_of_within (nodup_Expression testExpr i (w + 1))
        (nodup_Block successBlock _ _) (within_Expression testExpr i (w + 1))
        (within_Block successBlock (i + testExpr.conditionals) (w + 1 + testExpr.loops))
        (Nat.le_refl _) (Nat.le_refl _)
      have hnotTS : ∀ c : ControlLabel, c.loop? = some w →
          c ∉ testExpr.preorderLabels i (w + 1) ++ successBlock.preorderLabels
            (i + testExpr.conditionals) (w + 1 + testExpr.loops) := by
        intro c hc hmem
        rcases List.mem_append.mp hmem with h | h
        · have := within_Expression testExpr _ _ _ h
          cases c <;> simp only [ControlLabel.within, ControlLabel.loop?,
            Option.some.injEq] at this hc <;> first | omega | exact absurd hc (by simp)
        · have := within_Block successBlock _ _ _ h
          cases c <;> simp only [ControlLabel.within, ControlLabel.loop?,
            Option.some.injEq] at this hc <;> first | omega | exact absurd hc (by simp)
      have hS : ([ControlLabel.WhileLoop_Start w] ++ testExpr.preorderLabels i (w + 1)
          ++ successBlock.preorderLabels (i + testExpr.conditionals)
            (w + 1 + testExpr.loops)).Nodup := by
        rw [List.append_assoc, List.singleton_append, List.nodup_cons]
        exact ⟨hnotTS (.WhileLoop_Start w) rfl, hTS⟩
      refine nodup_concat_of_not_mem hS ?_
      intro hmem
      rw [List.append_assoc, List.singleton_append, List.mem_cons] at hmem
      rcases hmem with h | h
      · simp at h
      · exact hnotTS (.WhileLoop_End w) rfl h
theorem nodup_Block : ∀ (b : Block) (i w : Nat), (b.preorderLabels i w).Nodup
  | .mk statements, i, w => by
      simp only [Block.preorderLabels]
      exact nodup_Statements statements i w
theorem nodup_Statements : ∀ (statements : List Statement) (i w : Nat),
    (Block.preorderLabelsOfStatements statements i w).Nodup
  | [], _, _ => by simp [Block.preorderLabelsOfStatements]
  | stmt :: rest, i, w => by
      simp only [Block.preorderLabelsOfStatements]
      exact nodup_append_of_within (nodup_Statement stmt i w) (nodup_Statements rest _ _)
        (within_Statement stmt i w) (within_Statements rest _ _) (Nat.le_refl _)
        (Nat.le_refl _)
end

theorem ControlLabel.name_injective : Function.Injective ControlLabel.name := by
  intro a b h
  cases a <;> cases b <;> simp only [ControlLabel.name] at h <;>
    first
    | (congr 1; exact append_toString_injective _ _ _ h)
    | (exfalso
       have := congrArg String.data h
       simp [String.data_append] at this)

/-- C5: in a program with fewer than 2^32 conditionals and fewer than 2^32 loops,
lowered into the empty list with both counters at 0, no two `Label` instructions of
the output carry the same name.  The names are, in output order, those of the
pre-order numbering: the `i`-th conditional to start (from 0) defines
`IfThenElse_Failure_i` (when it has an else block) and `IfThenElse_End_i`, the
`i`-th loop defines `WhileLoop_Start_i` and `WhileLoop_End_i`, and the suffixes used
are below the number of constructs.  Inside any conditional numbered `i` every
label of a conditional other than its own two has a suffix above `i`, and likewise
inside any loop. -/
theorem C5_control_labels_distinct (program : Block) (symTable : symbol.Table)
    (temporary : Temporary) (hi : program.conditionals < 2 ^ 32)
    (hw : program.loops < 2 ^ 32) :
    (labelNames (program.GenerateInstructions symTable temporary ⟨[], 0, 0⟩).list).Nodup
    ∧ labelNames (program.GenerateInstructions symTable temporary ⟨[], 0, 0⟩).list
        = (program.preorderLabels 0 0).map ControlLabel.name
    ∧ (∀ c ∈ program.preorderLabels 0 0,
        (∀ k, c.conditional? = some k → k < program.conditionals)
        ∧ (∀ k, c.loop? = some k → k < program.loops))
    ∧ (∀ (testExpr : Expression) (successBlock : Block) (failureBlock : Option Block)
        (i w : Nat),
        ∀ c ∈ (Statement.IfThenElse testExpr successBlock failureBlock).preorderLabels i w,
          c ≠ .IfThenElse_Failure i → c ≠ .IfThenElse_End i →
          ∀ k, c.conditional? = some k → i < k)
    ∧ (∀ (testExpr : Expression) (successBlock : Block) (i w : Nat),
        ∀ c ∈ (Statement.WhileLoop testExpr successBlock).preorderLabels i w,
          c ≠ .WhileLoop_Start w → c ≠ .WhileLoop_End w →
          ∀ k, c.loop? = some k → w < k) := by
  obtain ⟨hl, _, _⟩ := labels_Block program symTable temporary ⟨[], 0, 0⟩
    (by simpa using hi) (by simpa using hw)
  simp only [labelNames_nil, List.nil_append] at hl
  refine ⟨?_, hl, ?_, ?_, ?_⟩
  · rw [hl]
    exact (nodup_Block program 0 0).map ControlLabel.name_injective
  · intro c hc
    have := within_Block program 0 0 c hc
    constructor <;> intro k hk <;>
      cases c <;> simp only [ControlLabel.within, ControlLabel.conditional?,
        ControlLabel.loop?, Option.some.injEq] at this hk <;>
      first | omega | exact absurd hk (by simp)
  · intro testExpr successBlock failureBlock i w c hc h1 h2 k hk
    have := within_Statement _ i w c hc
    cases c with
    | IfThenElse_Failure s =>
      simp only [ControlLabel.within, ControlLabel.conditional?, Option.some.injEq] at this hk
      rcases Nat.lt_or_ge i s with h | h
      · omega
      · exact absurd (by rw [Nat.le_antisymm h this.1]) h1
    | IfThenElse_End s =>
      simp only [ControlLabel.within, ControlLabel.conditional?, Option.some.injEq] at this hk
      rcases Nat.lt_or_ge i s with h | h
      · omega
      · exact absurd (by rw [Nat.le_antisymm h this.1]) h2
    | WhileLoop_Start s => simp [ControlLabel.conditional?] at hk
    | WhileLoop_End s => simp [ControlLabel.conditional?] at hk
  · intro testExpr successBlock i w c hc h1 h2 k hk
    have := within_Statement _ i w c hc
    cases c with
    | IfThenElse_Failure s => simp [ControlLabel.loop?] at hk
    | IfThenElse_End s => simp [ControlLabel.loop?] at hk
    | WhileLoop_Start s =>
      simp only [ControlLabel.within, ControlLabel.loop?, Option.some.injEq] at this hk
      rcases Nat.lt_or_ge w s with h | h
      · omega
      · exact absurd (by rw [Nat.le_antisymm h this.1]) h1
    | WhileLoop_End s =>
      simp only [ControlLabel.within, ControlLabel.loop?, Option.some.injEq] at this hk
      rcases Nat.lt_or_ge w s with h | h
      · omega
      · exact absurd (by rw [Nat.le_antisymm h this.1]) h2

/-- Witness for C5: a conditional with an else block nested in a conditional,
followed by a loop nested in a loop. -/
theorem C5_control_labels_distinct_witness :
    (Block.mk [
        .IfThenElse (.Boolean true)
          (.mk [.IfThenElse (.Boolean false) (.mk []) (some (.mk []))]) none,
        .WhileLoop (.Boolean true) (.mk [.WhileLoop (.Identifier "x") (.mk [])])]).conditionals
      < 2 ^ 32
    ∧ (Block.mk [
        .IfThenElse (.Boolean true)
          (.mk [.IfThenElse (.Boolean false) (.mk []) (some (.mk []))]) none,
        .WhileLoop (.Boolean true) (.mk [.WhileLoop (.Identifier "x") (.mk [])])]).loops
      < 2 ^ 32
    ∧ labelNames ((Block.mk [
        .IfThenElse (.Boolean true)
          (.mk [.IfThenElse (.Boolean false) (.mk []) (some (.mk []))]) none,
        .WhileLoop (.Boolean true)
          (.mk [.WhileLoop (.Identifier "x") (.mk [])])]).GenerateInstructions
          ⟨[]⟩ .Zero ⟨[], 0, 0⟩).list
      = ["IfThenElse_Failure_1", "IfThenElse_End_1", "IfThenElse_End_0",
         "WhileLoop_Start_0", "WhileLoop_Start_1", "WhileLoop_End_1", "WhileLoop_End_0"] :=
  ⟨by decide, by decide,
    ((C5_control_labels_distinct _ ⟨[]⟩ .Zero (by decide) (by decide)).2.1).trans
      (by decide)⟩

end node

namespace instruction

/-! ### Rendering the synthesised comparisons -/

theorem newlines_append (a b : String) : newlines (a ++ b) = newlines a + newlines b := by
  simp [newlines, String.data_append, List.count_append]

theorem digitChar_ne_newline (k : Nat) (h : k < 10) : Nat.digitChar k ≠ Char.ofNat 10 := by
  interval_cases k <;> decide

theorem toDigitsCore_no_newline : ∀ (fuel n : Nat) (ds : List Char),
    (∀ c ∈ ds, c ≠ Char.ofNat 10) → ∀ c ∈ Nat.toDigitsCore 10 fuel n ds, c ≠ Char.ofNat 10 := by
  intro fuel
  induction fuel with
  | zero => intro n ds h; simpa [Nat.toDigitsCore] using h
  | succ f ih =>
    intro n ds h
    unfold Nat.toDigitsCore
    have hd := digitChar_ne_newline (n % 10) (Nat.mod_lt _ (by decide))
    have hcons : ∀ c ∈ Nat.digitChar (n % 10) :: ds, c ≠ Char.ofNat 10 := by
      intro c hc
      rcases List.mem_cons.mp hc with h1 | h1
      · exact h1 ▸ hd
      · exact h c h1
    by_cases hz : n / 10 = 0
    · simpa [hz] using hcons
    · simpa [hz] using ih (n / 10) _ hcons

theorem newlines_toString_nat (n : Nat) : newlines (toString n) = 0 := by
  unfold newlines
  rw [List.count_eq_zero]
  intro hmem
  have : (toString n).data = Nat.toDigits 10 n := by
    simp [toString, Nat.repr, List.asString]
  rw [this] at hmem
  exact toDigitsCore_no_newline (n + 1) n [] (by simp) _ hmem rfl

theorem newlines_register (t : Temporary) : newlines (Variable.Register t).ToString = 0 := by
  cases t <;> decide

theorem newlines_labelName (kind : Synthesized) (suffix : Nat) :
    newlines (kind.labelName suffix) = 0 := by
  cases kind <;> simp only [Synthesized.labelName, newlines_append, newlines_toString_nat] <;>
    decide

theorem Synthesized.ToString_inst (kind : Synthesized) (left right result : Variable)
    (rs : RenderState) :
    ((kind.inst left right result).ToString rs).1
      = kind.text left right result (kind.counter rs) := by
  cases kind <;> apply String.ext <;>
    simp [Synthesized.inst, Base.ToString, Synthesized.text, Synthesized.branch,
      Synthesized.labelName, Synthesized.counter, String.data_append, List.append_assoc]

theorem Synthesized.newlines_text (kind : Synthesized) (tl tr td : Temporary)
    (suffix : Nat) :
    newlines (kind.text (.Register tl) (.Register tr) (.Register td) suffix) = 3 := by
  simp only [Synthesized.text, newlines_append, newlines_register, newlines_labelName]
  cases kind <;> decide

/-- C6: each of the five synthesised comparisons renders as three lines, a newline
closing each: the branch with the inverse condition on the two operands to the
label that carries the current value of the counter of the kind, the line
`ADDI <d>, $zero, 1`, and the definition of that same label.  The pairing is
le -> BGT, ne -> BEQ, eq -> BNE, ge -> BLT, gt -> BLE.  `LessThan` is not
synthesised: it renders as the single line `SLT <d>, <l>, <r>` and leaves the
counters alone.  With register operands the synthesised text holds exactly three
newline characters and the `SLT` text exactly one. -/
theorem C6_synthesized_comparison_text (left right result : Variable)
    (tl tr td : Temporary) (rs : RenderState) :
    ((Base.LessEqual left right result).ToString rs).1
        = "BGT " ++ left.ToString ++ ", " ++ right.ToString ++ ", "
            ++ ("LessThan_" ++ toString rs.LessEqual_labels) ++ "\n"
          ++ ("ADDI " ++ result.ToString ++ ", $zero, 1\n")
          ++ ("LessThan_" ++ toString rs.LessEqual_labels ++ ":\n")
    ∧ ((Base.NotEqual left right result).ToString rs).1
        = "BEQ " ++ left.ToString ++ ", " ++ right.ToString ++ ", "
            ++ ("NotEqual_" ++ toString rs.NotEqual_labels) ++ "\n"
          ++ ("ADDI " ++ result.ToString ++ ", $zero, 1\n")
          ++ ("NotEqual_" ++ toString rs.NotEqual_labels ++ ":\n")
    ∧ ((Base.Equal left right result).ToString rs).1
        = "BNE " ++ left.ToString ++ ", " ++ right.ToString ++ ", "
            ++ ("Equal_" ++ toString rs.Equal_labels) ++ "\n"
          ++ ("ADDI " ++ result.ToString ++ ", $zero, 1\n")
          ++ ("Equal_" ++ toString rs.Equal_labels ++ ":\n")
    ∧ ((Base.GreaterEqual left right result).ToString rs).1
        = "BLT " ++ left.ToString ++ ", " ++ right.ToString ++ ", "
            ++ ("GreaterEqual_" ++ toString rs.GreaterEqual_labels) ++ "\n"
          ++ ("ADDI " ++ result.ToString ++ ", $zero, 1\n")
          ++ ("GreaterEqual_" ++ toString rs.GreaterEqual_labels ++ ":\n")
    ∧ ((Base.GreaterThan left right result).ToString rs).1
        = "BLE " ++ left.ToString ++ ", " ++ right.ToString ++ ", "
            ++ ("GreaterThan_" ++ toString rs.GreaterThan_labels) ++ "\n"
          ++ ("ADDI " ++ result.ToString ++ ", $zero, 1\n")
          ++ ("GreaterThan_" ++ toString rs.GreaterThan_labels ++ ":\n")
    ∧ (Base.LessThan left right result).ToString rs
        = ("SLT " ++ result.ToString ++ ", " ++ left.ToString ++ ", " ++ right.ToString
            ++ "\n", rs)
    ∧ (∀ kind : Synthesized,
        newlines ((kind.inst (.Register tl) (.Register tr) (.Register td)).ToString rs).1 = 3)
    ∧ newlines
        ((Base.LessThan (.Register tl) (.Register tr) (.Register td)).ToString rs).1 = 1 := by
  refine ⟨?_, ?_, ?_, ?_, ?_, rfl, ?_, ?_⟩
  · apply String.ext
    simp [Base.ToString, String.data_append, List.append_assoc]
  · apply String.ext
    simp [Base.ToString, String.data_append, List.append_assoc]
  · apply String.ext
    simp [Base.ToString, String.data_append, List.append_assoc]
  · apply String.ext
    simp [Base.ToString, String.data_append, List.append_assoc]
  · apply String.ext
    simp [Base.ToString, String.data_append, List.append_assoc]
  · intro kind
    rw [Synthesized.ToString_inst, Synthesized.newlines_text]
  · simp only [Base.ToString, newlines_append, newlines_register]
    decide

theorem render_append (a b : List Base) (rs : RenderState) :
    render (a ++ b) rs
      = ((render a rs).1 ++ (render b (render a rs).2).1, (render b (render a rs).2).2) := by
  induction a generalizing rs with
  | nil => simp [render]
  | cons x rest ih => simp [render, ih]

theorem render_length (a : List Base) (rs : RenderState) :
    (render a rs).1.length = a.length := by
  induction a generalizing rs with
  | nil => simp [render]
  | cons x rest ih => simp [render, ih]

theorem Synthesized.counter_ToString (other : Synthesized) (inst : Base) (rs : RenderState) :
    other.counter (inst.ToString rs).2
      = if inst.synthesized? = some other then increment (other.counter rs)
        else other.counter rs := by
  cases inst <;> cases other <;> simp [Base.ToString, Base.synthesized?, Synthesized.counter]

theorem Synthesized.counter_render (kind : Synthesized) (list : List Base)
    (rs : RenderState) (h : kind.counter rs + kind.calls list < 2 ^ 32) :
    kind.counter (render list rs).2 = kind.counter rs + kind.calls list := by
  induction list generalizing rs with
  | nil => simp [render, Synthesized.calls]
  | cons x rest ih =>
    simp only [Synthesized.calls, List.countP_cons, render] at h ⊢
    have hx := Synthesized.counter_ToString kind x rs
    by_cases hk : x.synthesized? = some kind
    · simp only [hk, if_true, beq_self_eq_true] at hx h ⊢
      have hinc : increment (kind.counter rs) = kind.counter rs + 1 :=
        Nat.mod_eq_of_lt (by omega)
      rw [hinc] at hx
      have := ih (x.ToString rs).2 (by simp only [Synthesized.calls, hx]; omega)
      simp only [Synthesized.calls, hx] at this
      omega
    · have hb : (x.synthesized? == some kind) = false := by
        simpa using hk
      simp only [hk, if_false, hb, Bool.false_eq_true] at hx h ⊢
      have := ih (x.ToString rs).2 (by simp only [Synthesized.calls, hx]; omega)
      simp only [Synthesized.calls, hx] at this
      omega

theorem Synthesized.labelName_injective (kind : Synthesized) (j j' : Nat)
    (h : kind.labelName j = kind.labelName j') : j = j' := by
  cases kind <;> exact node.append_toString_injective _ _ _ h

/-- C7: the five counters start at 0.  One render call of a synthesised kind writes
the current value of that kind's counter as the label suffix and afterwards the
counter is one more (modulo 2^32), the counters of the other kinds being as
before.  In a run from the initial state, the instruction of that kind that comes
after `j` earlier ones of its kind, `j` below 2^32, is rendered with suffix `j`,
whatever else is rendered in between; and different suffixes give different label
names. -/
theorem C7_synthesized_counters (kind : Synthesized) (left right result : Variable)
    (rs : RenderState) (pre post : List Base) (hcalls : kind.calls pre < 2 ^ 32) :
    (∀ other : Synthesized, other.counter RenderState.initial = 0)
    ∧ ((kind.inst left right result).ToString rs).1
        = kind.text left right result (kind.counter rs)
    ∧ (∀ other : Synthesized,
        other.counter ((kind.inst left right result).ToString rs).2
          = if other = kind then (kind.counter rs + 1) % 2 ^ 32 else other.counter rs)
    ∧ (render (pre ++ kind.inst left right result :: post) RenderState.initial).1[pre.length]?
        = some (kind.text left right result (kind.calls pre))
    ∧ (∀ j j' : Nat, j ≠ j' → kind.labelName j ≠ kind.labelName j') := by
  refine ⟨?_, Synthesized.ToString_inst kind left right result rs, ?_, ?_, ?_⟩
  · intro other
    cases other <;> rfl
  · intro other
    rw [Synthesized.counter_ToString]
    have hs : (kind.inst left right result).synthesized? = some kind := by
      cases kind <;> rfl
    rw [hs]
    by_cases h : other = kind
    · subst h
      simp [increment]
    · have h' : ¬ (some kind = some other) := by
        intro hc
        exact h (Option.some.inj hc).symm
      simp [h, h']
  · rw [render_append]
    have hlen := render_length pre RenderState.initial
    rw [List.getElem?_append_right (by omega)]
    have hc := Synthesized.counter_render kind pre RenderState.initial
      (by
        have h0 : kind.counter RenderState.initial = 0 := by cases kind <;> rfl
        omega)
    have h0 : kind.counter RenderState.initial = 0 := by cases kind <;> rfl
    simp only [hlen, Nat.sub_self, render, List.getElem?_cons_zero,
      Synthesized.ToString_inst, hc, h0, Nat.zero_add]
  · intro j j' hne h
    exact hne (Synthesized.labelName_injective kind j j' h)

/-- Witness for C7: the third `GreaterThan` of a run, rendered after two earlier
ones and one `LessEqual`, uses suffix 2. -/
theorem C7_synthesized_counters_witness :
    Synthesized.GreaterThan.calls
        [Base.GreaterThan (.Register .Zero) (.Register .One) (.Register .Zero),
          Base.LessEqual (.Register .Zero) (.Register .One) (.Register .Zero),
          Base.GreaterThan (.Register .One) (.Register .Two) (.Register .One)] < 2 ^ 32
    ∧ (render
        ([Base.GreaterThan (.Register .Zero) (.Register .One) (.Register .Zero),
          Base.LessEqual (.Register .Zero) (.Register .One) (.Register .Zero),
          Base.GreaterThan (.Register .One) (.Register .Two) (.Register .One)]
          ++ Synthesized.GreaterThan.inst (.Register .Zero) (.Register .One) (.Register .Zero)
            :: []) RenderState.initial).1[3]?
        = some "BLE $t0, $t1, GreaterThan_2\nADDI $t0, $zero, 1\nGreaterThan_2:\n" :=
  ⟨by decide,
    ((C7_synthesized_counters .GreaterThan (.Register .Zero) (.Register .One)
      (.Register .Zero) RenderState.initial
      [Base.GreaterThan (.Register .Zero) (.Register .One) (.Register .Zero),
        Base.LessEqual (.Register .Zero) (.Register .One) (.Register .Zero),
        Base.GreaterThan (.Register .One) (.Register .Two) (.Register .One)] []
      (by decide)).2.2.2.1).trans (by decide)⟩

/-- Counterexample to C9 as stated: the same `LessEqual` instruction rendered twice
in a run gives two different strings, and the first call has changed the state. -/
theorem C9_render_not_pure :
    ((Base.LessEqual (.Register .Zero) (.Register .One) (.Register .Zero)).ToString
        RenderState.initial).1
      = "BGT $t0, $t1, LessThan_0\nADDI $t0, $zero, 1\nLessThan_0:\n"
    ∧ ((Base.LessEqual (.Register .Zero) (.Register .One) (.Register .Zero)).ToString
        ((Base.LessEqual (.Register .Zero) (.Register .One) (.Register .Zero)).ToString
          RenderState.initial).2).1
      = "BGT $t0, $t1, LessThan_1\nADDI $t0, $zero, 1\nLessThan_1:\n"
    ∧ ((Base.LessEqual (.Register .Zero) (.Register .One) (.Register .Zero)).ToString
        ((Base.LessEqual (.Register .Zero) (.Register .One) (.Register .Zero)).ToString
          RenderState.initial).2).1
      ≠ ((Base.LessEqual (.Register .Zero) (.Register .One) (.Register .Zero)).ToString
        RenderState.initial).1
    ∧ ((Base.LessEqual (.Register .Zero) (.Register .One) (.Register .Zero)).ToString
        RenderState.initial).2 ≠ RenderState.initial := by
  decide

/-- C9 as amended: an instruction that is not one of the five synthesised
comparisons renders to a string that depends on the instruction alone, and the
call changes no counter.  A synthesised comparison renders to a string fixed by
the instruction and the current value of the counter of its kind, and the call
advances that counter by one (modulo 2^32) and no other. -/
theorem C9_render_state_dependence (inst : Base) (rs rs' : RenderState) :
    (inst.synthesized? = none → inst.ToString rs = ((inst.ToString rs').1, rs))
    ∧ (∀ kind : Synthesized, inst.synthesized? = some kind →
        (kind.counter rs = kind.counter rs' → (inst.ToString rs).1 = (inst.ToString rs').1)
        ∧ ∀ other : Synthesized, other.counter (inst.ToString rs).2
            = if other = kind then (kind.counter rs + 1) % 2 ^ 32 else other.counter rs) := by
  constructor
  · intro h
    cases inst <;> first | (simp [Base.synthesized?] at h; done) | rfl
  · intro kind hk
    constructor
    · intro hc
      cases inst <;> simp only [Base.synthesized?, Option.some.injEq] at hk <;>
        first
        | (exact absurd hk (by simp))
        | (subst hk
           simp only [Synthesized.counter] at hc
           simp only [Base.ToString, hc])
    · intro other
      rw [Synthesized.counter_ToString, hk]
      by_cases h : other = kind
      · subst h
        simp [increment]
      · have h' : ¬ (some kind = some other) := by
          intro hc
          exact h (Option.some.inj hc).symm
        simp [h, h']

/-- Witness for C9 as amended: an `Add` renders the same in two different states
and leaves the state as it was; a `GreaterThan` advances only its own counter. -/
theorem C9_render_state_dependence_witness :
    (Base.Add (.Register .Zero) (.Register .One) (.Register .Zero)).synthesized? = none
    ∧ (Base.Add (.Register .Zero) (.Register .One) (.Register .Zero)).ToString ⟨1, 2, 3, 4, 5⟩
        = (((Base.Add (.Register .Zero) (.Register .One) (.Register .Zero)).ToString
            RenderState.initial).1, ⟨1, 2, 3, 4, 5⟩) :=
  ⟨by decide,
    (C9_render_state_dependence (.Add (.Register .Zero) (.Register .One) (.Register .Zero))
      ⟨1, 2, 3, 4, 5⟩ RenderState.initial).1 (by decide)⟩

end instruction

namespace node

open instruction (Temporary Variable Base RenderState)

/-! ### The round-trip scenario -/

/-- C8 as amended: the scenario program lowers, from the empty list with all
counters at 0, to exactly seventeen instructions: the three raw lines of the
prologue; the loads of 1 into temporary 1 and of 2 into temporary 2 and their `Add`
into temporary 1; the address of `x` into temporary 0 and the store; the address of
`x` into temporary 0 and its dereferencing load; the load of 2 into temporary 1;
the synthesised greater-than into temporary 0; the branch on zero to
`IfThenElse_End_0`; the load of 0, the address of `x` and the store; and the label
`IfThenElse_End_0`.  The rendered text follows. -/
theorem C8_scenario_output :
    scenarioProgram.GenerateInstructions scenarioTable .Zero ⟨[], 0, 0⟩
      = ⟨[.Custom ".data\n",
          .Custom "x: .word 0\n",
          .Custom ".text\n",
          .Constant (.Constant 1) (.Register .One),
          .Constant (.Constant 2) (.Register .Two),
          .Add (.Register .One) (.Register .Two) (.Register .One),
          .Address "x" (.Register .Zero),
          .Save (.Register .One) (.Register .Zero),
          .Address "x" (.Register .Zero),
          .Load (.Register .Zero) (.Register .Zero),
          .Constant (.Constant 2) (.Register .One),
          .GreaterThan (.Register .Zero) (.Register .One) (.Register .Zero),
          .BranchEqual (.Register .Zero) (.Constant 0) "IfThenElse_End_0",
          .Constant (.Constant 0) (.Register .One),
          .Address "x" (.Register .Zero),
          .Save (.Register .One) (.Register .Zero),
          .Label "IfThenElse_End_0"], 1, 0⟩
    ∧ (instruction.render
        (scenarioProgram.GenerateInstructions scenarioTable .Zero ⟨[], 0, 0⟩).list
        instruction.RenderState.initial).1
      = [".data\n", "x: .word 0\n", ".text\n",
         "LI $t1, 1\n", "LI $t2, 2\n", "ADD $t1, $t1, $t2\n",
         "LA $t0, x\n", "SW $t1, 0($t0)\n",
         "LA $t0, x\n", "LW $t0, 0($t0)\n", "LI $t1, 2\n",
         "BLE $t0, $t1, GreaterThan_0\nADDI $t0, $zero, 1\nGreaterThan_0:\n",
         "BEQ $t0, 0, IfThenElse_End_0\n",
         "LI $t1, 0\n", "LA $t0, x\n", "SW $t1, 0($t0)\n",
         "IfThenElse_End_0:\n"] := by
  constructor <;> decide

/-- Counterexample to C8 as stated: whatever registers and operands are chosen, the
output of the scenario is not the sixteen-instruction sequence of the claim, in
which the comparison comes straight after the dereferencing load. -/
theorem C8_scenario_not_as_listed :
    ¬ ∃ (r q : Temporary) (v1 v2 v3 v4 v5 v6 v7 v8 v9 v10 v11 v12 : Variable),
      (scenarioProgram.GenerateInstructions scenarioTable .Zero ⟨[], 0, 0⟩).list
        = [.Custom ".data\n",
           .Custom "x: .word 0\n",
           .Custom ".text\n",
           .Constant (.Constant 1) (.Register r),
           .Constant (.Constant 2) (.Register (next_temporary r)),
           .Add (.Register r) (.Register (next_temporary r)) (.Register r),
           .Address "x" v1,
           .Save v2 v3,
           .Address "x" (.Register q),
           .Load (.Register q) (.Register q),
           .GreaterThan v4 v5 v6,
           .BranchEqual v7 v8 "IfThenElse_End_0",
           .Constant (.Constant 0) v9,
           .Address "x" v10,
           .Save v11 v12,
           .Label "IfThenElse_End_0"] := by
  rintro ⟨r, q, v1, v2, v3, v4, v5, v6, v7, v8, v9, v10, v11, v12, h⟩
  have hlen := congrArg List.length h
  have h17 : (scenarioProgram.GenerateInstructions scenarioTable .Zero ⟨[], 0, 0⟩).list.length
      = 17 := by decide
  rw [h17] at hlen
  simp at hlen

/-! ### Registers handed out -/

theorem registerInRange_Register (t : Temporary) :
    (Variable.Register t).registerInRange = true ↔ t ≠ Temporary.None := by
  cases t <;> simp [Variable.registerInRange]

theorem inst_registersInRange (op : Code) (t t2 : Temporary) (h1 : t ≠ Temporary.None)
    (h2 : t2 ≠ Temporary.None) : (BinaryOperator.inst op t t2).registersInRange = true := by
  cases op <;>
    simp [BinaryOperator.inst, Base.registersInRange, Base.operands,
      registerInRange_Register, h1, h2]

theorem Load_registersInRange (t : Temporary) (h : t ≠ Temporary.None) :
    (Base.Load (.Register t) (.Register t)).registersInRange = true := by
  simp [Base.registersInRange, Base.operands, registerInRange_Register, h]

theorem Constant_registersInRange (v : Int) (t : Temporary) (h : t ≠ Temporary.None) :
    (Base.Constant (.Constant v) (.Register t)).registersInRange = true := by
  simp [Base.registersInRange, Base.operands, registerInRange_Register, h,
    Variable.registerInRange]

theorem Address_registersInRange (name : String) (t : Temporary) (h : t ≠ Temporary.None) :
    (Base.Address name (.Register t)).registersInRange = true := by
  simp [Base.registersInRange, Base.operands, registerInRange_Register, h,
    Variable.registerInRange]

theorem Appends.prologue {P : Base → Prop} (symTable : symbol.Table) (st : GenState)
    (h : ∀ x ∈ prologueList symTable, P x) : Appends P st (Block.prologue symTable st) := by
  rcases Block.prologue_cases symTable st with h1 | ⟨h1, hl⟩
  · rw [h1]
    exact Appends.refl P st
  · rw [h1]
    exact ⟨prologueList symTable, by simp [hl], h⟩

theorem prologueList_registersInRange (symTable : symbol.Table) :
    ∀ x ∈ prologueList symTable, x.registersInRange = true := by
  intro x hx
  unfold prologueList at hx
  split at hx
  · simp at hx
    subst hx
    rfl
  · simp only [List.mem_append, List.mem_cons, List.mem_map, List.mem_singleton,
      List.not_mem_nil, or_false] at hx
    rcases hx with (h | ⟨a, _, h⟩) | h <;> subst h <;> rfl

mutual
theorem fits_Expression : ∀ (e : Expression) (symTable : symbol.Table)
    (temporary : Temporary) (st : GenState), e.fits temporary = true →
    Appends (fun x => x.registersInRange = true) st
      (e.GenerateInstructions symTable temporary st)
  | .Boolean _, _, temporary, st => by
      intro h
      simp only [Expression.fits, bne_iff_ne] at h
      exact Appends.push_back st _ (Constant_registersInRange _ _ h)
  | .Integer _, _, temporary, st => by
      intro h
      simp only [Expression.fits, bne_iff_ne] at h
      exact Appends.push_back st _ (Constant_registersInRange _ _ h)
  | .Identifier _, _, temporary, st => by
      intro h
      simp only [Expression.fits, bne_iff_ne] at h
      exact Appends.push_back st _ (Address_registersInRange _ _ h)
  | .BinaryOperator lhs op rhs, symTable, temporary, st => by
      intro h
      simp only [Expression.fits, Bool.and_eq_true, bne_iff_ne] at h
      obtain ⟨⟨⟨h1, h2⟩, hl⟩, hr⟩ := h
      simp only [Expression.GenerateInstructions]
      refine Appends.trans ?_ (Appends.push_back _ _ (inst_registersInRange op _ _ h1 h2))
      refine Appends.trans ?_ (Appends.loadIfAddress _ _ (Load_registersInRange _ h2))
      refine Appends.trans ?_ (fits_Expression rhs symTable _ _ hr)
      refine Appends.trans ?_ (Appends.loadIfAddress _ _ (Load_registersInRange _ h1))
      exact fits_Expression lhs symTable _ _ hl
  | .Block block, symTable, temporary, st => by
      intro h
      simp only [Expression.fits] at h
      simp only [Expression.GenerateInstructions]
      exact fits_Block block symTable temporary st h
theorem fits_Statement : ∀ (s : Statement) (symTable : symbol.Table)
    (temporary : Temporary) (st : GenState), s.fits temporary = true →
    Appends (fun x => x.registersInRange = true) st
      (s.GenerateInstructions symTable temporary st)
  | .Assignment _ rhs, symTable, _, st => by
      intro h
      simp only [Statement.fits] at h
      simp only [Statement.GenerateInstructions]
      refine Appends.trans ?_ (Appends.push_back _ _ rfl)
      refine Appends.trans ?_ (Appends.push_back _ _ rfl)
      refine Appends.trans ?_ (Appends.loadIfAddress _ _ rfl)
      exact fits_Expression rhs symTable _ _ h
  | .ExpressionStatement expression, symTable, temporary, st => by
      intro h
      simp only [Statement.fits] at h
      simp only [Statement.GenerateInstructions]
      exact fits_Expression expression symTable temporary st h
  | .IntegerDeclaration _ none, _, _, st => by
      intro _
      simp only [Statement.GenerateInstructions]
      exact Appends.refl _ st
  | .IntegerDeclaration _ (some e), symTable, _, st => by
      intro h
      simp only [Statement.fits] at h
      simp only [Statement.GenerateInstructions]
      refine Appends.trans ?_ (Appends.push_back _ _ rfl)
      refine Appends.trans ?_ (Appends.push_back _ _ rfl)
      refine Appends.trans ?_ (Appends.loadIfAddress _ _ rfl)
      exact fits_Expression e symTable _ _ h
  | .BooleanDeclaration _ none, _, _, st => by
      intro _
      simp only [Statement.GenerateInstructions]
      exact Appends.refl _ st
  | .BooleanDeclaration _ (some e), symTable, _, st => by
      intro h
      simp only [Statement.fits] at h
      simp only [Statement.GenerateInstructions]
      refine Appends.trans ?_ (Appends.push_back _ _ rfl)
      refine Appends.trans ?_ (Appends.push_back _ _ rfl)
      refine Appends.trans ?_ (Appends.loadIfAddress _ _ rfl)
      exact fits_Expression e symTable _ _ h
  | .IfThenElse testExpr successBlock none, symTable, _, st => by
      intro h
      simp only [Statement.fits, Bool.and_eq_true] at h
      simp only [Statement.GenerateInstructions]
      refine Appends.trans ?_ (Appends.push_back _ _ rfl)
      refine Appends.trans ?_ (fits_Block successBlock symTable _ _ h.2)
      refine Appends.trans ?_ (Appends.push_back _ _ rfl)
      refine Appends.trans ?_ (Appends.loadIfAddress _ _ rfl)
      refine Appends.trans ?_ (fits_Expression testExpr symTable _ _ h.1)
      exact Appends.of_list_eq rfl
  | .IfThenElse testExpr successBlock (some failureBlock), symTable, _, st => by
      intro h
      simp only [Statement.fits, Bool.and_eq_true] at h
      simp only [Statement.GenerateInstructions]
      refine Appends.trans ?_ (Appends.push_back _ _ rfl)
      refine Appends.trans ?_ (fits_Block failureBlock symTable _ _ h.2)
      refine Appends.trans ?_ (Appends.push_back _ _ rfl)
      refine Appends.trans ?_ (fits_Block successBlock symTable _ _ h.1.2)
      refine Appends.trans ?_ (Appends.push_back _ _ rfl)
      refine Appends.trans ?_ (Appends.loadIfAddress _ _ rfl)
      refine Appends.trans ?_ (fits_Expression testExpr symTable _ _ h.1.1)
      exact Appends.of_list_eq rfl
  | .WhileLoop testExpr successBlock, symTable, _, st => by
      intro h
      simp only [Statement.fits, Bool.and_eq_true] at h
      simp only [Statement.GenerateInstructions]
      refine Appends.trans ?_ (Appends.push_back _ _ rfl)
      refine Appends.trans ?_ (Appends.push_back _ _ rfl)
      refine Appends.trans ?_ (fits_Block successBlock symTable _ _ h.2)
      refine Appends.trans ?_ (Appends.push_back _ _ rfl)
      refine Appends.trans ?_ (Appends.loadIfAddress _ _ rfl)
      refine Appends.trans ?_ (fits_Expression testExpr symTable _ _ h.1)
      refine Appends.trans ?_ (Appends.push_back _ _ rfl)
      exact Appends.of_list_eq rfl
theorem fits_Block : ∀ (b : Block) (symTable : symbol.Table)
    (temporary : Temporary) (st : GenState), b.fits = true →
    Appends (fun x => x.registersInRange = true) st
      (b.GenerateInstructions symTable temporary st)
  | .mk statements, symTable, _, st => by
      intro h
      simp only [Block.fits] at h
      simp only [Block.GenerateInstructions]
      refine Appends.trans ?_ (fits_GenerateStatements statements symTable _ h)
      exact Appends.prologue symTable st (prologueList_registersInRange symTable)
theorem fits_GenerateStatements : ∀ (statements : List Statement)
    (symTable : symbol.Table) (st : GenState), Block.fitsStatements statements = true →
    Appends (fun x => x.registersInRange = true) st
      (Block.GenerateStatements statements symTable st)
  | [], _, st => by
      intro _
      simp only [Block.GenerateStatements]
      exact Appends.refl _ st
  | stmt :: rest, symTable, st => by
      intro h
      simp only [Block.fitsStatements, Bool.and_eq_true] at h
      simp only [Block.GenerateStatements]
      refine Appends.trans ?_ (fits_GenerateStatements rest symTable _ h.2)
      exact fits_Statement stmt symTable .Zero st h.1
end

theorem fits_of_rdepth : ∀ (e : Expression) (temporary : Temporary),
    e.blockFree = true → temporary ≠ Temporary.None → temporary.toInt + e.rdepth ≤ 9 →
    e.fits temporary = true
  | .Boolean _, temporary => by
      intro _ ht _
      simpa [Expression.fits] using ht
  | .Integer _, temporary => by
      intro _ ht _
      simpa [Expression.fits] using ht
  | .Identifier _, temporary => by
      intro _ ht _
      simpa [Expression.fits] using ht
  | .BinaryOperator lhs _ rhs, temporary => by
      intro hb ht hd
      simp only [Expression.blockFree, Bool.and_eq_true] at hb
      simp only [Expression.rdepth] at hd
      have hnext : next_temporary temporary ≠ Temporary.None
          ∧ (next_temporary temporary).toInt = temporary.toInt + 1 := by
        cases temporary <;> first
          | exact absurd rfl ht
          | (simp only [Temporary.toInt] at hd; omega)
          | exact ⟨by decide, by decide⟩
      simp only [Expression.fits, Bool.and_eq_true, bne_iff_ne]
      refine ⟨⟨⟨ht, hnext.1⟩, ?_⟩, ?_⟩
      · exact fits_of_rdepth lhs temporary hb.1 ht (by omega)
      · exact fits_of_rdepth rhs _ hb.2 hnext.1 (by omega)
  | .Block _, _ => by
      intro hb
      simp [Expression.blockFree] at hb

/-- Counterexample to C10 as stated: `1 + 2` lowered into temporary 9 loads its
right operand into the register `None`, which then appears as an operand of the
`Add`; the load renders with an empty register number. -/
theorem C10_none_register_handed_out :
    (Expression.BinaryOperator (.Integer 1) .Addition (.Integer 2)).GenerateInstructions
        ⟨[]⟩ .Nine ⟨[], 0, 0⟩
      = ⟨[.Constant (.Constant 1) (.Register .Nine),
          .Constant (.Constant 2) (.Register .None),
          .Add (.Register .Nine) (.Register .None) (.Register .Nine)], 0, 0⟩
    ∧ (Base.Constant (.Constant 2) (.Register .None)).registersInRange = false
    ∧ ((Base.Constant (.Constant 2) (.Register .None)).ToString
        instruction.RenderState.initial).1 = "LI $t, 2\n" := by
  decide

/-- C10 as amended: when no binary operator of the expression is reached with
target register 9 or none (`fits`), every operand of every instruction that
lowering appends is different from the register `None`, so every register handed
out is one of 0..9.  For an expression of literals, identifiers and binary
operators lowered into a register `T` of 0..9, `fits` holds as soon as the index of
`T` plus the right-nesting depth is at most 9. -/
theorem C10_registers_in_range (e : Expression) (T : Temporary)
    (symTable : symbol.Table) (st : GenState) :
    (e.fits T = true →
      ∃ app : List Base, (e.GenerateInstructions symTable T st).list = st.list ++ app
        ∧ ∀ x ∈ app, ∀ v ∈ x.operands, v ≠ Variable.Register Temporary.None)
    ∧ (e.blockFree = true → T ≠ Temporary.None → T.toInt + e.rdepth ≤ 9 →
        e.fits T = true) := by
  refine ⟨?_, fits_of_rdepth e T⟩
  intro hfit
  obtain ⟨app, happ, hP⟩ := fits_Expression e symTable T st hfit
  refine ⟨app, happ, ?_⟩
  intro x hx v hv hnone
  have := hP x hx
  simp only [Base.registersInRange, List.all_eq_true] at this
  have hv' := this v hv
  rw [hnone] at hv'
  simp [Variable.registerInRange] at hv'

/-- Witness for C10 as amended: `1 + (x + 3)` lowered into temporary 7 uses the
temporaries 7, 8 and 9. -/
theorem C10_registers_in_range_witness :
    (Expression.BinaryOperator (.Integer 1) .Addition
        (.BinaryOperator (.Identifier "x") .Addition (.Integer 3))).fits .Seven = true
    ∧ ∃ app : List Base,
        ((Expression.BinaryOperator (.Integer 1) .Addition
          (.BinaryOperator (.Identifier "x") .Addition (.Integer 3))).GenerateInstructions
            ⟨[]⟩ .Seven ⟨[.Custom ".text\n"], 0, 0⟩).list = [.Custom ".text\n"] ++ app
        ∧ ∀ x ∈ app, ∀ v ∈ x.operands, v ≠ Variable.Register Temporary.None :=
  ⟨by decide,
    (C10_registers_in_range _ .Seven ⟨[]⟩ ⟨[.Custom ".text\n"], 0, 0⟩).1 (by decide)⟩

end node

namespace node
open instruction (Temporary Variable Base RenderState)

/-! ### Lowering only appends -/

mutual
theorem extends_Expression : ∀ (e : Expression) (symTable : symbol.Table)
    (temporary : Temporary) (st : GenState),
    Appends (fun _ => True) st (e.GenerateInstructions symTable temporary st)
  | .Boolean _, _, _, st => Appends.push_back st _ trivial
  | .Integer _, _, _, st => Appends.push_back st _ trivial
  | .Identifier _, _, _, st => Appends.push_back st _ trivial
  | .BinaryOperator lhs op rhs, symTable, temporary, st => by
      simp only [Expression.GenerateInstructions]
      refine Appends.trans ?_ (Appends.push_back _ _ trivial)
      refine Appends.trans ?_ (Appends.loadIfAddress _ _ trivial)
      refine Appends.trans ?_ (extends_Expression rhs symTable _ _)
      refine Appends.trans ?_ (Appends.loadIfAddress _ _ trivial)
      exact extends_Expression lhs symTable _ _
  | .Block block, symTable, temporary, st => by
      simp only [Expression.GenerateInstructions]
      exact extends_Block block symTable temporary st
theorem extends_Statement : ∀ (s : Statement) (symTable : symbol.Table)
    (temporary : Temporary) (st : GenState),
    Appends (fun _ => True) st (s.GenerateInstructions symTable temporary st)
  | .Assignment _ rhs, symTable, _, st => by
      simp only [Statement.GenerateInstructions]
      refine Appends.trans ?_ (Appends.push_back _ _ trivial)
      refine Appends.trans ?_ (Appends.push_back _ _ trivial)
      refine Appends.trans ?_ (Appends.loadIfAddress _ _ trivial)
      exact extends_Expression rhs symTable _ _
  | .ExpressionStatement expression, symTable, temporary, st => by
      simp only [Statement.GenerateInstructions]
      exact extends_Expression expression symTable temporary st
  | .IntegerDeclaration _ none, _, _, st => by
      simp only [Statement.GenerateInstructions]
      exact Appends.refl _ st
  | .IntegerDeclaration _ (some e), symTable, _, st => by
      simp only [Statement.GenerateInstructions]
      refine Appends.trans ?_ (Appends.push_back _ _ trivial)
      refine Appends.trans ?_ (Appends.push_back _ _ trivial)
      refine Appends.trans ?_ (Appends.loadIfAddress _ _ trivial)
      exact extends_Expression e symTable _ _
  | .BooleanDeclaration _ none, _, _, st => by
      simp only [Statement.GenerateInstructions]
      exact Appends.refl _ st
  | .BooleanDeclaration _ (some e), symTable, _, st => by
      simp only [Statement.GenerateInstructions]
      refine Appends.trans ?_ (Appends.push_back _ _ trivial)
      refine Appends.trans ?_ (Appends.push_back _ _ trivial)
      refine Appends.trans ?_ (Appends.loadIfAddress _ _ trivial)
      exact extends_Expression e symTable _ _
  | .IfThenElse testExpr successBlock none, symTable, _, st => by
      simp only [Statement.GenerateInstructions]
      refine Appends.trans ?_ (Appends.push_back _ _ trivial)
      refine Appends.trans ?_ (extends_Block successBlock symTable _ _)
      refine Appends.trans ?_ (Appends.push_back _ _ trivial)
      refine Appends.trans ?_ (Appends.loadIfAddress _ _ trivial)
      refine Appends.trans ?_ (extends_Expression testExpr symTable _ _)
      exact Appends.of_list_eq rfl
  | .IfThenElse testExpr successBlock (some failureBlock), symTable, _, st => by
      simp only [Statement.GenerateInstructions]
      refine Appends.trans ?_ (Appends.push_back _ _ trivial)
      refine Appends.trans ?_ (extends_Block failureBlock symTable _ _)
      refine Appends.trans ?_ (Appends.push_back _ _ trivial)
      refine Appends.trans ?_ (extends_Block successBlock symTable _ _)
      refine Appends.trans ?_ (Appends.push_back _ _ trivial)
      refine Appends.trans ?_ (Appends.loadIfAddress _ _ trivial)
      refine Appends.trans ?_ (extends_Expression testExpr symTable _ _)
      exact Appends.of_list_eq rfl
  | .WhileLoop testExpr successBlock, symTable, _, st => by
      simp only [Statement.GenerateInstructions]
      refine Appends.trans ?_ (Appends.push_back _ _ trivial)
      refine Appends.trans ?_ (Appends.push_back _ _ trivial)
      refine Appends.trans ?_ (extends_Block successBlock symTable _ _)
      refine Appends.trans ?_ (Appends.push_back _ _ trivial)
      refine Appends.trans ?_ (Appends.loadIfAddress _ _ trivial)
      refine Appends.trans ?_ (extends_Expression testExpr symTable _ _)
      refine Appends.trans ?_ (Appends.push_back _ _ trivial)
      exact Appends.of_list_eq rfl
theorem extends_Block : ∀ (b : Block) (symTable : symbol.Table)
    (temporary : Temporary) (st : GenState),
    Appends (fun _ => True) st (b.GenerateInstructions symTable temporary st)
  | .mk statements, symTable, _, st => by
      simp only [Block.GenerateInstructions]
      refine Appends.trans ?_ (extends_GenerateStatements statements symTable _)
      exact Appends.prologue symTable st (fun _ _ => trivial)
theorem extends_GenerateStatements : ∀ (statements : List Statement)
    (symTable : symbol.Table) (st : GenState),
    Appends (fun _ => True) st (Block.GenerateStatements statements symTable st)
  | [], _, st => by
      simp only [Block.GenerateStatements]
      exact Appends.refl _ st
  | stmt :: rest, symTable, st => by
      simp only [Block.GenerateStatements]
      refine Appends.trans ?_ (extends_GenerateStatements rest symTable _)
      exact extends_Statement stmt symTable .Zero st
end

theorem list_eq_append_appended {P : Base → Prop} {st st' : GenState}
    (h : Appends P st st') : st'.list = st.list ++ appended st st' := by
  obtain ⟨app, happ, _⟩ := h
  simp [appended, happ]

theorem appended_of_list_eq {st st' : GenState} {app : List Base}
    (h : st'.list = st.list ++ app) : appended st st' = app := by
  simp [appended, h]

theorem list_eq_Expression (e : Expression) (symTable : symbol.Table)
    (temporary : Temporary) (st : GenState) :
    (e.GenerateInstructions symTable temporary st).list
      = st.list ++ appended st (e.GenerateInstructions symTable temporary st) :=
  list_eq_append_appended (extends_Expression e symTable temporary st)

theorem list_eq_Block (b : Block) (symTable : symbol.Table)
    (temporary : Temporary) (st : GenState) :
    (b.GenerateInstructions symTable temporary st).list
      = st.list ++ appended st (b.GenerateInstructions symTable temporary st) :=
  list_eq_append_appended (extends_Block b symTable temporary st)

theorem backIsAddress_iff (list : List Base) :
    backIsAddress list = true
      ↔ ∃ (label : String) (result : Variable), list.getLast? = some (.Address label result) := by
  unfold backIsAddress
  cases h : list.getLast? with
  | none => simp
  | some x => cases x <;> simp [Base.GetType]

end node

namespace node
open instruction (Temporary Variable Base RenderState)

/-! ### Assignments and declarations -/

theorem store_list (x : String) (e : Expression) (symTable : symbol.Table)
    (st : GenState) :
    (((loadIfAddress .One (e.GenerateInstructions symTable .One st)).push_back
        (.Address x (.Register .Zero))).push_back
        (.Save (.Register .One) (.Register .Zero))).list
      = st.list ++ (appended st (e.GenerateInstructions symTable .One st)
          ++ (if backIsAddress (e.GenerateInstructions symTable .One st).list
              then [Base.Load (.Register .One) (.Register .One)] else [])
          ++ [Base.Address x (.Register .Zero),
              Base.Save (.Register .One) (.Register .Zero)]) := by
  simp only [GenState.push_back_list, loadIfAddress_list]
  rw [list_eq_Expression e symTable .One st]
  simp [appended]

/-- C12: for every assignment `x = e`, whatever the list it starts from and
whatever target register it is given, lowering appends the lowering of `e` into
temporary 1, then the load of temporary 1 from the address in temporary 1 exactly
when the list then ends in an address instruction, then the address of `x` into
temporary 0 and the store of temporary 1 at the address in temporary 0.  The two
counters are those left by `e`, and the last two instructions render as
`LA $t0, x` and `SW $t1, 0($t0)`. -/
theorem C12_assignment_lowering (x : String) (e : Expression) (symTable : symbol.Table)
    (temporary : Temporary) (st : GenState) (rs : RenderState) :
    ((Statement.Assignment x e).GenerateInstructions symTable temporary st).list
        = st.list ++ (appended st (e.GenerateInstructions symTable .One st)
          ++ (if backIsAddress (e.GenerateInstructions symTable .One st).list
              then [Base.Load (.Register .One) (.Register .One)] else [])
          ++ [Base.Address x (.Register .Zero),
              Base.Save (.Register .One) (.Register .Zero)])
    ∧ (e.GenerateInstructions symTable .One st).list
        = st.list ++ appended st (e.GenerateInstructions symTable .One st)
    ∧ (backIsAddress (e.GenerateInstructions symTable .One st).list = true
        ↔ ∃ (label : String) (result : Variable),
            (e.GenerateInstructions symTable .One st).list.getLast?
              = some (.Address label result))
    ∧ ((Statement.Assignment x e).GenerateInstructions symTable temporary st).IfThenElse_labels
        = (e.GenerateInstructions symTable .One st).IfThenElse_labels
    ∧ ((Statement.Assignment x e).GenerateInstructions symTable temporary st).WhileLoop_labels
        = (e.GenerateInstructions symTable .One st).WhileLoop_labels
    ∧ (Base.Address x (.Register .Zero)).ToString rs = ("LA $t0, " ++ x ++ "\n", rs)
    ∧ (Base.Save (.Register .One) (.Register .Zero)).ToString rs
        = ("SW $t1, 0($t0)\n", rs) := by
  refine ⟨?_, list_eq_Expression e symTable .One st, backIsAddress_iff _, ?_, ?_, rfl, rfl⟩
  · simp only [Statement.GenerateInstructions]
    exact store_list x e symTable st
  · simp [Statement.GenerateInstructions]
  · simp [Statement.GenerateInstructions]

/-- C13: a declaration of `x` without initialiser leaves the list and both
counters as they are.  With initialiser `e` it appends the lowering of `e` into
temporary 1, the dereferencing load of temporary 1 exactly when the list then ends
in an address instruction, the address of `x` into temporary 0 and the store of
temporary 1 at that address.  An integer declaration, a boolean declaration and an
assignment with the same name and expression give the same result. -/
theorem C13_declaration_lowering (x : String) (e : Expression) (symTable : symbol.Table)
    (temporary : Temporary) (st : GenState) :
    (Statement.IntegerDeclaration x none).GenerateInstructions symTable temporary st = st
    ∧ (Statement.BooleanDeclaration x none).GenerateInstructions symTable temporary st = st
    ∧ ((Statement.IntegerDeclaration x (some e)).GenerateInstructions symTable temporary st).list
        = st.list ++ (appended st (e.GenerateInstructions symTable .One st)
          ++ (if backIsAddress (e.GenerateInstructions symTable .One st).list
              then [Base.Load (.Register .One) (.Register .One)] else [])
          ++ [Base.Address x (.Register .Zero),
              Base.Save (.Register .One) (.Register .Zero)])
    ∧ (e.GenerateInstructions symTable .One st).list
        = st.list ++ appended st (e.GenerateInstructions symTable .One st)
    ∧ (Statement.BooleanDeclaration x (some e)).GenerateInstructions symTable temporary st
        = (Statement.IntegerDeclaration x (some e)).GenerateInstructions symTable temporary st
    ∧ (Statement.Assignment x e).GenerateInstructions symTable temporary st
        = (Statement.IntegerDeclaration x (some e)).GenerateInstructions symTable temporary st := by
  refine ⟨rfl, rfl, ?_, list_eq_Expression e symTable .One st, rfl, rfl⟩
  simp only [Statement.GenerateInstructions]
  exact store_list x e symTable st

end node

namespace node
open instruction (Temporary Variable Base RenderState)

/-! ### Conditionals and loops -/

/-- C14: a conditional lowered when its counter is `n` appends, in this order and
with nothing in between: the lowering of the test into temporary 0; the
dereferencing load of temporary 0 exactly when the list then ends in an address
instruction; the branch-if-equal of temporary 0 against the constant 0, to
`IfThenElse_Failure_n` when there is an else block and to `IfThenElse_End_n` when
there is none; the lowering of the success block; only when there is an else block
the label `IfThenElse_Failure_n` and the lowering of the failure block; and the
label `IfThenElse_End_n`.  None of the instructions the conditional itself pushes is
a `Jump`. -/
theorem C14_conditional_lowering (t : Expression) (S F : Block) (symTable : symbol.Table)
    (temporary : Temporary) (st : GenState) :
    let n := st.IfThenElse_labels
    let st0 : GenState := { st with IfThenElse_labels := instruction.increment n }
    let st1 := t.GenerateInstructions symTable .Zero st0
    let load : List Base :=
      if backIsAddress st1.list then [.Load (.Register .Zero) (.Register .Zero)] else []
    let labelend := "IfThenElse_End_" ++ toString n
    let labelfail := "IfThenElse_Failure_" ++ toString n
    let st2 := (loadIfAddress .Zero st1).push_back
      (.BranchEqual (.Register .Zero) (.Constant 0) labelend)
    let st3 := S.GenerateInstructions symTable .Zero st2
    let st2' := (loadIfAddress .Zero st1).push_back
      (.BranchEqual (.Register .Zero) (.Constant 0) labelfail)
    let st3' := S.GenerateInstructions symTable .Zero st2'
    let st4' := st3'.push_back (.Label labelfail)
    let st5' := F.GenerateInstructions symTable .Zero st4'
    ((Statement.IfThenElse t S none).GenerateInstructions symTable temporary st).list
        = st.list ++ (appended st0 st1 ++ load
            ++ [.BranchEqual (.Register .Zero) (.Constant 0) labelend]
            ++ appended st2 st3 ++ [.Label labelend])
    ∧ ((Statement.IfThenElse t S (some F)).GenerateInstructions symTable temporary st).list
        = st.list ++ (appended st0 st1 ++ load
            ++ [.BranchEqual (.Register .Zero) (.Constant 0) labelfail]
            ++ appended st2' st3' ++ [.Label labelfail]
            ++ appended st4' st5' ++ [.Label labelend])
    ∧ st1.list = st.list ++ appended st0 st1
    ∧ st3.list = st2.list ++ appended st2 st3
    ∧ st3'.list = st2'.list ++ appended st2' st3'
    ∧ st5'.list = st4'.list ++ appended st4' st5'
    ∧ (∀ x ∈ load ++ [.BranchEqual (.Register .Zero) (.Constant 0) labelend,
          .BranchEqual (.Register .Zero) (.Constant 0) labelfail,
          .Label labelfail, .Label labelend], ∀ label : String, x ≠ Base.Jump label) := by
  intro n st0 st1 load labelend labelfail st2 st3 st2' st3' st4' st5'
  have h1 : st1.list = st.list ++ appended st0 st1 :=
    list_eq_Expression t symTable .Zero st0
  have h2 : st2.list = st.list ++ (appended st0 st1 ++ load
      ++ [.BranchEqual (.Register .Zero) (.Constant 0) labelend]) := by
    show (loadIfAddress .Zero st1).list ++ [_] = _
    rw [loadIfAddress_list]
    show st1.list ++ load ++ [_] = _
    rw [h1]
    simp only [List.append_assoc]
  have h2' : st2'.list = st.list ++ (appended st0 st1 ++ load
      ++ [.BranchEqual (.Register .Zero) (.Constant 0) labelfail]) := by
    show (loadIfAddress .Zero st1).list ++ [_] = _
    rw [loadIfAddress_list]
    show st1.list ++ load ++ [_] = _
    rw [h1]
    simp only [List.append_assoc]
  have h3 : st3.list = st2.list ++ appended st2 st3 := list_eq_Block S symTable .Zero st2
  have h3' : st3'.list = st2'.list ++ appended st2' st3' :=
    list_eq_Block S symTable .Zero st2'
  have h5' : st5'.list = st4'.list ++ appended st4' st5' :=
    list_eq_Block F symTable .Zero st4'
  refine ⟨?_, ?_, h1, h3, h3', h5', ?_⟩
  · show (st3.push_back (.Label labelend)).list = _
    rw [GenState.push_back_list, h3, h2]
    simp only [List.append_assoc]
  · show (st5'.push_back (.Label labelend)).list = _
    rw [GenState.push_back_list, h5']
    show (st3'.list ++ [Base.Label labelfail]) ++ _ ++ _ = _
    rw [h3', h2']
    simp only [List.append_assoc]
  · intro x hx label
    simp only [load, List.mem_append, List.mem_cons, List.mem_singleton,
      List.not_mem_nil, or_false] at hx
    rcases hx with hx | hx | hx | hx | hx
    · split at hx
      · simp only [List.mem_singleton] at hx
        subst hx
        simp
      · simp at hx
    all_goals (subst hx; simp)

end node

namespace node
open instruction (Temporary Variable Base RenderState)

/-- C15: a loop lowered when its counter is `n` appends, in this order: the label
`WhileLoop_Start_n`; the lowering of the test into temporary 0; the dereferencing
load of temporary 0 exactly when the list then ends in an address instruction; the
branch-if-equal of temporary 0 against the constant 0 to `WhileLoop_End_n`; the
lowering of the body; the jump to `WhileLoop_Start_n`; and the label
`WhileLoop_End_n`.  The jump goes to the label defined first and the branch to the
label defined last. -/
theorem C15_loop_lowering (t : Expression) (B : Block) (symTable : symbol.Table)
    (temporary : Temporary) (st : GenState) :
    let n := st.WhileLoop_labels
    let labelstart := "WhileLoop_Start_" ++ toString n
    let labelend := "WhileLoop_End_" ++ toString n
    let st0 : GenState :=
      GenState.push_back { st with WhileLoop_labels := instruction.increment n }
        (.Label labelstart)
    let st1 := t.GenerateInstructions symTable .Zero st0
    let load : List Base :=
      if backIsAddress st1.list then [.Load (.Register .Zero) (.Register .Zero)] else []
    let st2 := (loadIfAddress .Zero st1).push_back
      (.BranchEqual (.Register .Zero) (.Constant 0) labelend)
    let st3 := B.GenerateInstructions symTable .Zero st2
    ((Statement.WhileLoop t B).GenerateInstructions symTable temporary st).list
        = st.list ++ ([.Label labelstart] ++ appended st0 st1 ++ load
            ++ [.BranchEqual (.Register .Zero) (.Constant 0) labelend]
            ++ appended st2 st3 ++ [.Jump labelstart] ++ [.Label labelend])
    ∧ st0.list = st.list ++ [.Label labelstart]
    ∧ st1.list = st0.list ++ appended st0 st1
    ∧ st3.list = st2.list ++ appended st2 st3
    ∧ ((Statement.WhileLoop t B).GenerateInstructions symTable temporary st).list.getLast?
        = some (.Label labelend) := by
  intro n labelstart labelend st0 st1 load st2 st3
  have h0 : st0.list = st.list ++ [.Label labelstart] := rfl
  have h1 : st1.list = st0.list ++ appended st0 st1 :=
    list_eq_Expression t symTable .Zero st0
  have h2 : st2.list = st.list ++ ([.Label labelstart] ++ appended st0 st1 ++ load
      ++ [.BranchEqual (.Register .Zero) (.Constant 0) labelend]) := by
    show (loadIfAddress .Zero st1).list ++ [_] = _
    rw [loadIfAddress_list]
    show st1.list ++ load ++ [_] = _
    rw [h1, h0]
    simp only [List.append_assoc]
  have h3 : st3.list = st2.list ++ appended st2 st3 := list_eq_Block B symTable .Zero st2
  have hout : (Statement.WhileLoop t B).GenerateInstructions symTable temporary st
      = (st3.push_back (.Jump labelstart)).push_back (.Label labelend) := rfl
  refine ⟨?_, h0, h1, h3, ?_⟩
  · rw [hout, GenState.push_back_list, GenState.push_back_list, h3, h2]
    simp only [List.append_assoc]
  · rw [hout, GenState.push_back_list, List.getLast?_concat]

/-- C17: a binary operator never skips an operand.  For every operator, target
register and starting list, the output is the starting list, then what lowering
`lhs` into `T` appends and its optional dereferencing load, then what lowering `rhs`
into `next_temporary T` appends and its optional dereferencing load, then one
instruction for the operator.  For `And` that instruction is the single `AND` line
and for `Or` the single `OR` line, on `T` and `next_temporary T` into `T`; what the
operator itself pushes is never a branch, a jump or a label. -/
theorem C17_no_short_circuit (lhs rhs : Expression) (op : Code) (symTable : symbol.Table)
    (T : Temporary) (st : GenState) (rs : RenderState) :
    let T2 := next_temporary T
    let st1 := lhs.GenerateInstructions symTable T st
    let load1 : List Base :=
      if backIsAddress st1.list then [.Load (.Register T) (.Register T)] else []
    let st2 := rhs.GenerateInstructions symTable T2 (loadIfAddress T st1)
    let load2 : List Base :=
      if backIsAddress st2.list then [.Load (.Register T2) (.Register T2)] else []
    ((Expression.BinaryOperator lhs op rhs).GenerateInstructions symTable T st).list
        = st.list ++ (appended st st1 ++ load1 ++ appended (loadIfAddress T st1) st2
            ++ load2 ++ [BinaryOperator.inst op T T2])
    ∧ st1.list = st.list ++ appended st st1
    ∧ st2.list = (loadIfAddress T st1).list ++ appended (loadIfAddress T st1) st2
    ∧ BinaryOperator.inst .And T T2 = .And (.Register T) (.Register T2) (.Register T)
    ∧ BinaryOperator.inst .Or T T2 = .Or (.Register T) (.Register T2) (.Register T)
    ∧ (Base.And (.Register T) (.Register T2) (.Register T)).ToString rs
        = ("AND " ++ (Variable.Register T).ToString ++ ", " ++ (Variable.Register T).ToString
            ++ ", " ++ (Variable.Register T2).ToString ++ "\n", rs)
    ∧ (Base.Or (.Register T) (.Register T2) (.Register T)).ToString rs
        = ("OR " ++ (Variable.Register T).ToString ++ ", " ++ (Variable.Register T).ToString
            ++ ", " ++ (Variable.Register T2).ToString ++ "\n", rs)
    ∧ (∀ x ∈ load1 ++ load2 ++ [BinaryOperator.inst .And T T2, BinaryOperator.inst .Or T T2],
        (∀ label : String, x ≠ .Jump label ∧ x ≠ .Label label)
        ∧ ∀ (l r : Variable) (label : String),
            x ≠ .BranchLessThan l r label ∧ x ≠ .BranchLessEqual l r label
            ∧ x ≠ .BranchNotEqual l r label ∧ x ≠ .BranchEqual l r label
            ∧ x ≠ .BranchGreaterEqual l r label ∧ x ≠ .BranchGreaterThan l r label) := by
  intro T2 st1 load1 st2 load2
  have h1 : st1.list = st.list ++ appended st st1 := list_eq_Expression lhs symTable T st
  have h2 : st2.list = (loadIfAddress T st1).list ++ appended (loadIfAddress T st1) st2 :=
    list_eq_Expression rhs symTable T2 (loadIfAddress T st1)
  have hout : (Expression.BinaryOperator lhs op rhs).GenerateInstructions symTable T st
      = (loadIfAddress T2 st2).push_back (BinaryOperator.inst op T T2) := rfl
  refine ⟨?_, h1, h2, rfl, rfl, rfl, rfl, ?_⟩
  · rw [hout, GenState.push_back_list, loadIfAddress_list]
    show st2.list ++ load2 ++ [_] = _
    rw [h2, loadIfAddress_list]
    show st1.list ++ load1 ++ _ ++ load2 ++ [_] = _
    rw [h1]
    simp only [List.append_assoc]
  · intro x hx
    simp only [load1, load2, List.mem_append, List.mem_cons, List.mem_singleton,
      List.not_mem_nil, or_false] at hx
    rcases hx with (hx | hx) | hx | hx
    · split at hx
      · simp only [List.mem_singleton] at hx
        subst hx
        simp
      · simp at hx
    · split at hx
      · simp only [List.mem_singleton] at hx
        subst hx
        simp
      · simp at hx
    all_goals (subst hx; simp [BinaryOperator.inst])

end node

namespace node
open instruction (Temporary Variable Base RenderState)

/-! ### Address and value -/

theorem backIsAddress_concat (list : List Base) (x : Base) :
    backIsAddress (list ++ [x]) = (x.GetType == .Address) := by
  unfold backIsAddress
  rw [List.getLast?_concat]
  cases x <;> rfl

theorem inst_GetType (op : Code) (t t2 : Temporary) :
    (BinaryOperator.inst op t t2).GetType = .Unknown := by
  cases op <;> rfl

theorem loadIfAddress_Identifier (y : String) (symTable : symbol.Table) (R : Temporary)
    (st : GenState) :
    loadIfAddress R ((Expression.Identifier y).GenerateInstructions symTable R st)
      = (st.push_back (.Address y (.Register R))).push_back
          (.Load (.Register R) (.Register R)) := by
  simp [loadIfAddress, Expression.GenerateInstructions, backIsAddress_concat, Base.GetType]

theorem backIsAddress_value (v : Expression) (hv : v.isLiteralOrOperator = true)
    (symTable : symbol.Table) (R : Temporary) (st : GenState) :
    backIsAddress (v.GenerateInstructions symTable R st).list = false := by
  cases v with
  | Boolean b => simp [Expression.GenerateInstructions, backIsAddress_concat, Base.GetType]
  | Integer n => simp [Expression.GenerateInstructions, backIsAddress_concat, Base.GetType]
  | BinaryOperator lhs op rhs =>
    simp [Expression.GenerateInstructions, backIsAddress_concat, inst_GetType]
  | Identifier y => simp [Expression.isLiteralOrOperator] at hv
  | Block b => simp [Expression.isLiteralOrOperator] at hv

theorem loadIfAddress_value (v : Expression) (hv : v.isLiteralOrOperator = true)
    (symTable : symbol.Table) (R R' : Temporary) (st : GenState) :
    loadIfAddress R' (v.GenerateInstructions symTable R st)
      = v.GenerateInstructions symTable R st := by
  simp [loadIfAddress, backIsAddress_value v hv]

/-- C16: the dereferencing rule is the same at every consumption point.  Lowering an
identifier on its own pushes the address instruction and nothing else.  Where an
identifier `y` is consumed (operand of a binary operator, right-hand side of an
assignment, initialiser of a declaration, test of a conditional or of a loop) into
register `R`, the address of `y` into `R` is directly followed by the load from `R`
into `R`.  Where a literal or a binary operator `v` is consumed, its lowering is
followed directly by what the consumer pushes next, without a load. -/
theorem C16_address_value_duality (x y : String) (v other : Expression)
    (hv : v.isLiteralOrOperator = true) (op : Code) (S F : Block)
    (symTable : symbol.Table) (T : Temporary) (st : GenState) :
    (Expression.Identifier y).GenerateInstructions symTable T st
        = st.push_back (.Address y (.Register T))
    ∧ (Statement.ExpressionStatement (.Identifier y)).GenerateInstructions symTable T st
        = st.push_back (.Address y (.Register T))
    -- an identifier as left and as right operand
    ∧ (Expression.BinaryOperator (.Identifier y) op other).GenerateInstructions symTable T st
        = (loadIfAddress (next_temporary T)
            (other.GenerateInstructions symTable (next_temporary T)
              ((st.push_back (.Address y (.Register T))).push_back
                (.Load (.Register T) (.Register T))))).push_back
            (BinaryOperator.inst op T (next_temporary T))
    ∧ (Expression.BinaryOperator other op (.Identifier y)).GenerateInstructions symTable T st
        = (((loadIfAddress T (other.GenerateInstructions symTable T st)).push_back
            (.Address y (.Register (next_temporary T)))).push_back
            (.Load (.Register (next_temporary T)) (.Register (next_temporary T)))).push_back
            (BinaryOperator.inst op T (next_temporary T))
    -- an identifier as right-hand side and as initialiser
    ∧ (Statement.Assignment x (.Identifier y)).GenerateInstructions symTable T st
        = (((st.push_back (.Address y (.Register .One))).push_back
            (.Load (.Register .One) (.Register .One))).push_back
            (.Address x (.Register .Zero))).push_back
            (.Save (.Register .One) (.Register .Zero))
    ∧ (Statement.IntegerDeclaration x (some (.Identifier y))).GenerateInstructions symTable T st
        = (((st.push_back (.Address y (.Register .One))).push_back
            (.Load (.Register .One) (.Register .One))).push_back
            (.Address x (.Register .Zero))).push_back
            (.Save (.Register .One) (.Register .Zero))
    ∧ (Statement.BooleanDeclaration x (some (.Identifier y))).GenerateInstructions symTable T st
        = (((st.push_back (.Address y (.Register .One))).push_back
            (.Load (.Register .One) (.Register .One))).push_back
            (.Address x (.Register .Zero))).push_back
            (.Save (.Register .One) (.Register .Zero))
    -- an identifier as test of a conditional and of a loop
    ∧ (Statement.IfThenElse (.Identifier y) S none).GenerateInstructions symTable T st
        = (S.GenerateInstructions symTable .Zero
            (((GenState.push_back
              { st with IfThenElse_labels := instruction.increment st.IfThenElse_labels }
              (.Address y (.Register .Zero))).push_back
              (.Load (.Register .Zero) (.Register .Zero))).push_back
              (.BranchEqual (.Register .Zero) (.Constant 0)
                ("IfThenElse_End_" ++ toString st.IfThenElse_labels)))).push_back
            (.Label ("IfThenElse_End_" ++ toString st.IfThenElse_labels))
    ∧ (Statement.IfThenElse (.Identifier y) S (some F)).GenerateInstructions symTable T st
        = (F.GenerateInstructions symTable .Zero
            ((S.GenerateInstructions symTable .Zero
              (((GenState.push_back
                { st with IfThenElse_labels := instruction.increment st.IfThenElse_labels }
                (.Address y (.Register .Zero))).push_back
                (.Load (.Register .Zero) (.Register .Zero))).push_back
                (.BranchEqual (.Register .Zero) (.Constant 0)
                  ("IfThenElse_Failure_" ++ toString st.IfThenElse_labels)))).push_back
              (.Label ("IfThenElse_Failure_" ++ toString st.IfThenElse_labels)))).push_back
            (.Label ("IfThenElse_End_" ++ toString st.IfThenElse_labels))
    ∧ (Statement.WhileLoop (.Identifier y) S).GenerateInstructions symTable T st
        = ((S.GenerateInstructions symTable .Zero
            ((((GenState.push_back
              { st with WhileLoop_labels := instruction.increment st.WhileLoop_labels }
              (.Label ("WhileLoop_Start_" ++ toString st.WhileLoop_labels))).push_back
              (.Address y (.Register .Zero))).push_back
              (.Load (.Register .Zero) (.Register .Zero))).push_back
              (.BranchEqual (.Register .Zero) (.Constant 0)
                ("WhileLoop_End_" ++ toString st.WhileLoop_labels)))).push_back
            (.Jump ("WhileLoop_Start_" ++ toString st.WhileLoop_labels))).push_back
            (.Label ("WhileLoop_End_" ++ toString st.WhileLoop_labels))
    -- a literal or a binary operator at the same places
    ∧ (Expression.BinaryOperator v op other).GenerateInstructions symTable T st
        = (loadIfAddress (next_temporary T)
            (other.GenerateInstructions symTable (next_temporary T)
              (v.GenerateInstructions symTable T st))).push_back
            (BinaryOperator.inst op T (next_temporary T))
    ∧ (Expression.BinaryOperator other op v).GenerateInstructions symTable T st
        = (v.GenerateInstructions symTable (next_temporary T)
            (loadIfAddress T (other.GenerateInstructions symTable T st))).push_back
            (BinaryOperator.inst op T (next_temporary T))
    ∧ (Statement.Assignment x v).GenerateInstructions symTable T st
        = ((v.GenerateInstructions symTable .One st).push_back
            (.Address x (.Register .Zero))).push_back
            (.Save (.Register .One) (.Register .Zero))
    ∧ (Statement.IntegerDeclaration x (some v)).GenerateInstructions symTable T st
        = ((v.GenerateInstructions symTable .One st).push_back
            (.Address x (.Register .Zero))).push_back
            (.Save (.Register .One) (.Register .Zero))
    ∧ (Statement.BooleanDeclaration x (some v)).GenerateInstructions symTable T st
        = ((v.GenerateInstructions symTable .One st).push_back
            (.Address x (.Register .Zero))).push_back
            (.Save (.Register .One) (.Register .Zero))
    ∧ (Statement.IfThenElse v S none).GenerateInstructions symTable T st
        = (S.GenerateInstructions symTable .Zero
            ((v.GenerateInstructions symTable .Zero
              { st with IfThenElse_labels := instruction.increment st.IfThenElse_labels }).push_back
              (.BranchEqual (.Register .Zero) (.Constant 0)
                ("IfThenElse_End_" ++ toString st.IfThenElse_labels)))).push_back
            (.Label ("IfThenElse_End_" ++ toString st.IfThenElse_labels))
    ∧ (Statement.IfThenElse v S (some F)).GenerateInstructions symTable T st
        = (F.GenerateInstructions symTable .Zero
            ((S.GenerateInstructions symTable .Zero
              ((v.GenerateInstructions symTable .Zero
                { st with IfThenElse_labels :=
                    instruction.increment st.IfThenElse_labels }).push_back
                (.BranchEqual (.Register .Zero) (.Constant 0)
                  ("IfThenElse_Failure_" ++ toString st.IfThenElse_labels)))).push_back
              (.Label ("IfThenElse_Failure_" ++ toString st.IfThenElse_labels)))).push_back
            (.Label ("IfThenElse_End_" ++ toString st.IfThenElse_labels))
    ∧ (Statement.WhileLoop v S).GenerateInstructions symTable T st
        = ((S.GenerateInstructions symTable .Zero
            ((v.GenerateInstructions symTable .Zero
              (GenState.push_back
                { st with WhileLoop_labels := instruction.increment st.WhileLoop_labels }
                (.Label ("WhileLoop_Start_" ++ toString st.WhileLoop_labels)))).push_back
              (.BranchEqual (.Register .Zero) (.Constant 0)
                ("WhileLoop_End_" ++ toString st.WhileLoop_labels)))).push_back
            (.Jump ("WhileLoop_Start_" ++ toString st.WhileLoop_labels))).push_back
            (.Label ("WhileLoop_End_" ++ toString st.WhileLoop_labels)) := by
  refine ⟨rfl, rfl, ?_, ?_, ?_, ?_, ?_, ?_, ?_, ?_, ?_, ?_, ?_, ?_, ?_, ?_, ?_, ?_⟩
  · rw [← loadIfAddress_Identifier y symTable T st]
    rfl
  · rw [← loadIfAddress_Identifier y symTable (next_temporary T)]
    rfl
  · rw [← loadIfAddress_Identifier y symTable .One st]
    rfl
  · rw [← loadIfAddress_Identifier y symTable .One st]
    rfl
  · rw [← loadIfAddress_Identifier y symTable .One st]
    rfl
  · rw [← loadIfAddress_Identifier y symTable .Zero]
    rfl
  · rw [← loadIfAddress_Identifier y symTable .Zero]
    rfl
  · rw [← loadIfAddress_Identifier y symTable .Zero]
    rfl
  · rw [← loadIfAddress_value v hv symTable T T st]
    rfl
  · rw [← loadIfAddress_value v hv symTable (next_temporary T) (next_temporary T)]
    rfl
  · rw [← loadIfAddress_value v hv symTable .One .One st]
    rfl
  · rw [← loadIfAddress_value v hv symTable .One .One st]
    rfl
  · rw [← loadIfAddress_value v hv symTable .One .One st]
    rfl
  · rw [← loadIfAddress_value v hv symTable .Zero .Zero]
    rfl
  · rw [← loadIfAddress_value v hv symTable .Zero .Zero]
    rfl
  · rw [← loadIfAddress_value v hv symTable .Zero .Zero]
    rfl

end node

namespace node
open instruction (Temporary Variable Base RenderState)

/-- Witness for C16: an assignment whose right-hand side is the identifier `y`, and
one whose right-hand side is the literal 5. -/
theorem C16_address_value_duality_witness :
    (Expression.Integer 5).isLiteralOrOperator = true
    ∧ (Statement.Assignment "x" (.Identifier "y")).GenerateInstructions ⟨[]⟩ .Zero
        ⟨[.Custom ".text\n"], 0, 0⟩
      = ⟨[.Custom ".text\n", .Address "y" (.Register .One),
          .Load (.Register .One) (.Register .One), .Address "x" (.Register .Zero),
          .Save (.Register .One) (.Register .Zero)], 0, 0⟩
    ∧ (Statement.Assignment "x" (.Integer 5)).GenerateInstructions ⟨[]⟩ .Zero
        ⟨[.Custom ".text\n"], 0, 0⟩
      = ⟨[.Custom ".text\n", .Constant (.Constant 5) (.Register .One),
          .Address "x" (.Register .Zero),
          .Save (.Register .One) (.Register .Zero)], 0, 0⟩ :=
  ⟨by decide,
    ((C16_address_value_duality "x" "y" (.Integer 5) (.Integer 0) (by decide) .Addition
      (.mk []) (.mk []) ⟨[]⟩ .Zero ⟨[.Custom ".text\n"], 0, 0⟩).2.2.2.2.1).trans (by decide),
    ((C16_address_value_duality "x" "y" (.Integer 5) (.Integer 0) (by decide) .Addition
      (.mk []) (.mk []) ⟨[]⟩ .Zero
      ⟨[.Custom ".text\n"], 0, 0⟩).2.2.2.2.2.2.2.2.2.2.2.2.1).trans (by decide)⟩

end node

namespace symbol

/-! ### The symbol table -/

theorem Table.find_isSome_iff (t : Table) (name : String) :
    (t.find name).isSome = true ↔ ∃ type : Type_, (name, type) ∈ t.table := by
  unfold Table.find
  rw [List.find?_isSome]
  constructor
  · rintro ⟨entry, hmem, heq⟩
    have h : entry.1 = name := by simpa using heq
    exact ⟨entry.2, by rw [← h]; exact hmem⟩
  · rintro ⟨type, hmem⟩
    exact ⟨(name, type), hmem, by simp⟩

theorem Table.find_eq_none_iff (t : Table) (name : String) :
    t.find name = none ↔ ∀ type : Type_, (name, type) ∉ t.table := by
  rw [← Option.not_isSome_iff_eq_none, Table.find_isSome_iff]
  simp

theorem Table.find_of_mem (t : Table) (name : String) (type : Type_)
    (hwf : t.WellFormed) (hmem : (name, type) ∈ t.table) :
    t.find name = some (name, type) := by
  cases t with
  | mk table =>
    unfold Table.WellFormed at hwf
    unfold Table.find
    simp only at hwf hmem ⊢
    induction table with
    | nil => simp at hmem
    | cons entry rest ih =>
      simp only [List.map_cons, List.nodup_cons] at hwf
      rcases List.mem_cons.mp hmem with h | h
      · subst h
        simp [List.find?_cons]
      · have hne : entry.1 ≠ name := by
          intro heq
          apply hwf.1
          rw [heq]
          exact List.mem_map.mpr ⟨(name, type), h, rfl⟩
        have hb : (entry.1 == name) = false := by simpa using hne
        rw [List.find?_cons, hb]
        exact ih hwf.2 h

/-- C18: `Add` on a name that is already in the table returns false and hands back
the table as it was.  On a name that is not in the table it returns true;
afterwards `Get` of that name is the given type, `Get` of every other name is what
it was before, and the keys are still pairwise distinct. -/
theorem C18_table_add (t : Table) (name other : String) (type : Type_) :
    ((∃ declared : Type_, (name, declared) ∈ t.table) → t.Add name type = (false, t))
    ∧ ((∀ declared : Type_, (name, declared) ∉ t.table) →
        (t.Add name type).1 = true
        ∧ (t.Add name type).2.Get name = type
        ∧ (other ≠ name → (t.Add name type).2.Get other = t.Get other)
        ∧ (t.WellFormed → (t.Add name type).2.WellFormed)) := by
  constructor
  · intro h
    have := (Table.find_isSome_iff t name).mpr h
    simp [Table.Add, this]
  · intro h
    have hnone := (Table.find_eq_none_iff t name).mpr h
    have hadd : t.Add name type = (true, ⟨(name, type) :: t.table⟩) := by
      simp [Table.Add, hnone]
    rw [hadd]
    refine ⟨rfl, ?_, ?_, ?_⟩
    · simp [Table.Get, Table.find, List.find?_cons]
    · intro hne
      have hb : (name == other) = false := by
        simpa using fun h => hne h.symm
      simp [Table.Get, Table.find, List.find?_cons, hb]
    · intro hwf
      unfold Table.WellFormed at hwf ⊢
      simp only [List.map_cons, List.nodup_cons]
      refine ⟨?_, hwf⟩
      intro hmem
      obtain ⟨entry, he, hname⟩ := List.mem_map.mp hmem
      apply h entry.2
      rw [← hname]
      exact he

/-- Witness for C18: adding `x` again and adding `y` to a table that holds `x`. -/
theorem C18_table_add_witness :
    (∃ declared : Type_, ("x", declared) ∈ (Table.mk [("x", .Integer)]).table)
    ∧ (Table.mk [("x", .Integer)]).Add "x" .Boolean = (false, ⟨[("x", .Integer)]⟩)
    ∧ (∀ declared : Type_, ("y", declared) ∉ (Table.mk [("x", .Integer)]).table)
    ∧ ((Table.mk [("x", .Integer)]).Add "y" .Boolean).1 = true :=
  ⟨⟨.Integer, by decide⟩,
    (C18_table_add ⟨[("x", .Integer)]⟩ "x" "z" .Boolean).1 ⟨.Integer, by decide⟩,
    by simp,
    ((C18_table_add ⟨[("x", .Integer)]⟩ "y" "z" .Boolean).2 (by simp)).1⟩

end symbol

namespace node
open instruction (Temporary Variable Base RenderState)

/-- C19: `Get` of a name that is not in the table is the sentinel `None`, and so is
the result type of an identifier of that name; for a name that is in the table
both are the type stored with it.  An empty table answers `None` for every name. -/
theorem C19_get_undeclared (t : symbol.Table) (name : String) (type : symbol.Type_) :
    ((∀ declared : symbol.Type_, (name, declared) ∉ t.table) →
        t.Get name = .None ∧ (Expression.Identifier name).GetResultType t = .None)
    ∧ (t.WellFormed → (name, type) ∈ t.table →
        t.Get name = type ∧ (Expression.Identifier name).GetResultType t = type)
    ∧ (t.Empty = true →
        t.Get name = .None ∧ (Expression.Identifier name).GetResultType t = .None) := by
  refine ⟨?_, ?_, ?_⟩
  · intro h
    have hnone := (symbol.Table.find_eq_none_iff t name).mpr h
    simp [Expression.GetResultType, symbol.Table.Get, hnone]
  · intro hwf hmem
    have := symbol.Table.find_of_mem t name type hwf hmem
    simp [Expression.GetResultType, symbol.Table.Get, this]
  · intro h
    have hnil : t.table = [] := by
      simpa [symbol.Table.Empty] using h
    simp [Expression.GetResultType, symbol.Table.Get, symbol.Table.find, hnil]

/-- Witness for C19: the undeclared `y` and the declared `x` in a table that holds
`x` as an integer. -/
theorem C19_get_undeclared_witness :
    (∀ declared : symbol.Type_, ("y", declared) ∉ (symbol.Table.mk [("x", .Integer)]).table)
    ∧ (Expression.Identifier "y").GetResultType ⟨[("x", .Integer)]⟩ = .None
    ∧ (symbol.Table.mk [("x", .Integer)]).WellFormed
    ∧ ("x", symbol.Type_.Integer) ∈ (symbol.Table.mk [("x", .Integer)]).table
    ∧ (Expression.Identifier "x").GetResultType ⟨[("x", .Integer)]⟩ = .Integer :=
  ⟨by simp,
    ((C19_get_undeclared ⟨[("x", .Integer)]⟩ "y" .Boolean).1 (by simp)).2,
    by simp [symbol.Table.WellFormed],
    by decide,
    ((C19_get_undeclared ⟨[("x", .Integer)]⟩ "x" .Integer).2.1
      (by simp [symbol.Table.WellFormed]) (by decide)).2⟩

end node

namespace node
open instruction (Temporary Variable Base RenderState)

/-! ### The symbol table only shows in the prologue -/

theorem backIsAddress_append (l app : List Base) (h : app ≠ []) :
    backIsAddress (l ++ app) = backIsAddress app := by
  unfold backIsAddress
  rw [List.getLast?_append_of_ne_nil l h]

theorem backIsAddress_prologueList (symTable : symbol.Table) :
    backIsAddress (prologueList symTable) = false := by
  unfold prologueList
  rw [backIsAddress_concat]
  rfl

theorem backIsAddress_nil : backIsAddress [] = false := rfl

theorem similar_refl (st : GenState) : Similar st st :=
  ⟨Iff.rfl, rfl, rfl, rfl⟩

theorem similar_of_sameAppended {symTable symTable' : symbol.Table}
    {a a' b b' : GenState} (hs : Similar a a') (h : SameAppended symTable symTable' a a' b b') :
    Similar b b' := by
  obtain ⟨hempty, hback, _, _⟩ := hs
  obtain ⟨hi, hw, rest, h | h⟩ := h
  · obtain ⟨hb, hb'⟩ := h
    refine ⟨?_, ?_, hi, hw⟩
    · rw [hb, hb']
      simp [hempty]
    · rw [hb, hb']
      by_cases hr : rest = []
      · subst hr
        simpa using hback
      · rw [backIsAddress_append _ _ hr, backIsAddress_append _ _ hr]
  · obtain ⟨_, _, hb, hb'⟩ := h
    refine ⟨?_, ?_, hi, hw⟩
    · rw [hb, hb']
      simp [prologueList_ne_nil]
    · rw [hb, hb']
      by_cases hr : rest = []
      · subst hr
        simp [backIsAddress_prologueList]
      · rw [backIsAddress_append _ _ hr, backIsAddress_append _ _ hr]

theorem sameAppended_step {symTable symTable' : symbol.Table} {a a' b b' c c' : GenState}
    (h1 : Similar a a' → SameAppended symTable symTable' a a' b b')
    (h2 : Similar b b' → SameAppended symTable symTable' b b' c c') :
    Similar a a' → SameAppended symTable symTable' a a' c c' := by
  intro hs
  have hab := h1 hs
  have hbc := h2 (similar_of_sameAppended hs hab)
  obtain ⟨_, _, r1, hab⟩ := hab
  obtain ⟨hi, hw, r2, hbc⟩ := hbc
  refine ⟨hi, hw, ?_⟩
  rcases hab with ⟨hb, hb'⟩ | ⟨ha, ha', hb, hb'⟩
  · rcases hbc with ⟨hc, hc'⟩ | ⟨hbn, hbn', hc, hc'⟩
    · exact ⟨r1 ++ r2, Or.inl ⟨by rw [hc, hb, List.append_assoc],
        by rw [hc', hb', List.append_assoc]⟩⟩
    · rw [hb] at hbn
      rw [hb'] at hbn'
      exact ⟨r2, Or.inr ⟨(List.append_eq_nil.mp hbn).1, (List.append_eq_nil.mp hbn').1,
        hc, hc'⟩⟩
  · rcases hbc with ⟨hc, hc'⟩ | ⟨hbn, _, _, _⟩
    · exact ⟨r1 ++ r2, Or.inr ⟨ha, ha', by rw [hc, hb, List.append_assoc],
        by rw [hc', hb', List.append_assoc]⟩⟩
    · rw [hb] at hbn
      exact absurd (List.append_eq_nil.mp hbn).1 (prologueList_ne_nil symTable)

theorem sameAppended_push_back {symTable symTable' : symbol.Table} (a a' : GenState)
    (inst : Base) :
    Similar a a' → SameAppended symTable symTable' a a' (a.push_back inst) (a'.push_back inst) :=
  fun hs => ⟨hs.2.2.1, hs.2.2.2, [inst], Or.inl ⟨rfl, rfl⟩⟩

theorem sameAppended_loadIfAddress {symTable symTable' : symbol.Table} (t : Temporary)
    (a a' : GenState) :
    Similar a a' →
      SameAppended symTable symTable' a a' (loadIfAddress t a) (loadIfAddress t a') := by
  intro hs
  refine ⟨by simpa using hs.2.2.1, by simpa using hs.2.2.2, _, Or.inl
    ⟨loadIfAddress_list t a, ?_⟩⟩
  rw [loadIfAddress_list, hs.2.1]

theorem sameAppended_prologue (symTable symTable' : symbol.Table) (a a' : GenState) :
    Similar a a' → SameAppended symTable symTable' a a'
      (Block.prologue symTable a) (Block.prologue symTable' a') := by
  intro hs
  refine ⟨by simpa using hs.2.2.1, by simpa using hs.2.2.2, [], ?_⟩
  by_cases ha : a.list = []
  · have ha' := hs.1.mp ha
    right
    refine ⟨ha, ha', ?_, ?_⟩
    · cases a with
      | mk l i w =>
        simp only at ha
        subst ha
        rw [Block.prologue_of_nil]
        simp
    · cases a' with
      | mk l i w =>
        simp only at ha'
        subst ha'
        rw [Block.prologue_of_nil]
        simp
  · have ha' : a'.list ≠ [] := fun h => ha (hs.1.mpr h)
    left
    rw [Block.prologue_of_ne_nil symTable a ha, Block.prologue_of_ne_nil symTable' a' ha']
    simp

theorem sameAppended_refl (symTable symTable' : symbol.Table) (a a' : GenState) :
    Similar a a' → SameAppended symTable symTable' a a' a a' :=
  fun hs => ⟨hs.2.2.1, hs.2.2.2, [], Or.inl ⟨by simp, by simp⟩⟩

theorem sameAppended_counters {symTable symTable' : symbol.Table} (a a' b b' : GenState)
    (hl : b.list = a.list) (hl' : b'.list = a'.list)
    (hi : b.IfThenElse_labels = b'.IfThenElse_labels)
    (hw : b.WhileLoop_labels = b'.WhileLoop_labels) :
    SameAppended symTable symTable' a a' b b' :=
  ⟨hi, hw, [], Or.inl ⟨by simp [hl], by simp [hl']⟩⟩

end node

namespace node
open instruction (Temporary Variable Base RenderState)

mutual
theorem same_Expression : ∀ (e : Expression) (symTable symTable' : symbol.Table)
    (temporary : Temporary) (st st' : GenState), Similar st st' →
    SameAppended symTable symTable' st st'
      (e.GenerateInstructions symTable temporary st)
      (e.GenerateInstructions symTable' temporary st')
  | .Boolean _, _, _, _, st, st' => sameAppended_push_back st st' _
  | .Integer _, _, _, _, st, st' => sameAppended_push_back st st' _
  | .Identifier _, _, _, _, st, st' => sameAppended_push_back st st' _
  | .BinaryOperator lhs op rhs, symTable, symTable', temporary, st, st' => by
      simp only [Expression.GenerateInstructions]
      refine sameAppended_step ?_ (sameAppended_push_back _ _ _)
      refine sameAppended_step ?_ (sameAppended_loadIfAddress _ _ _)
      refine sameAppended_step ?_ (same_Expression rhs symTable symTable' _ _ _)
      refine sameAppended_step ?_ (sameAppended_loadIfAddress _ _ _)
      exact same_Expression lhs symTable symTable' _ _ _
  | .Block block, symTable, symTable', temporary, st, st' => by
      simp only [Expression.GenerateInstructions]
      exact same_Block block symTable symTable' temporary st st'
theorem same_Statement : ∀ (s : Statement) (symTable symTable' : symbol.Table)
    (temporary : Temporary) (st st' : GenState), Similar st st' →
    SameAppended symTable symTable' st st'
      (s.GenerateInstructions symTable temporary st)
      (s.GenerateInstructions symTable' temporary st')
  | .Assignment _ rhs, symTable, symTable', _, st, st' => by
      simp only [Statement.GenerateInstructions]
      refine sameAppended_step ?_ (sameAppended_push_back _ _ _)
      refine sameAppended_step ?_ (sameAppended_push_back _ _ _)
      refine sameAppended_step ?_ (sameAppended_loadIfAddress _ _ _)
      exact same_Expression rhs symTable symTable' _ _ _
  | .ExpressionStatement expression, symTable, symTable', temporary, st, st' => by
      simp only [Statement.GenerateInstructions]
      exact same_Expression expression symTable symTable' temporary st st'
  | .IntegerDeclaration _ none, symTable, symTable', _, st, st' => by
      simp only [Statement.GenerateInstructions]
      exact sameAppended_refl symTable symTable' st st'
  | .IntegerDeclaration _ (some e), symTable, symTable', _, st, st' => by
      simp only [Statement.GenerateInstructions]
      refine sameAppended_step ?_ (sameAppended_push_back _ _ _)
      refine sameAppended_step ?_ (sameAppended_push_back _ _ _)
      refine sameAppended_step ?_ (sameAppended_loadIfAddress _ _ _)
      exact same_Expression e symTable symTable' _ _ _
  | .BooleanDeclaration _ none, symTable, symTable', _, st, st' => by
      simp only [Statement.GenerateInstructions]
      exact sameAppended_refl symTable symTable' st st'
  | .BooleanDeclaration _ (some e), symTable, symTable', _, st, st' => by
      simp only [Statement.GenerateInstructions]
      refine sameAppended_step ?_ (sameAppended_push_back _ _ _)
      refine sameAppended_step ?_ (sameAppended_push_back _ _ _)
      refine sameAppended_step ?_ (sameAppended_loadIfAddress _ _ _)
      exact same_Expression e symTable symTable' _ _ _
  | .IfThenElse testExpr successBlock none, symTable, symTable', _, st, st' => by
      intro hs
      have hI := hs.2.2.1
      simp only [Statement.GenerateInstructions]
      rw [hI]
      revert hs
      refine sameAppended_step ?_ (sameAppended_push_back _ _ _)
      refine sameAppended_step ?_ (same_Block successBlock symTable symTable' _ _ _)
      refine sameAppended_step ?_ (sameAppended_push_back _ _ _)
      refine sameAppended_step ?_ (sameAppended_loadIfAddress _ _ _)
      refine sameAppended_step ?_ (same_Expression testExpr symTable symTable' _ _ _)
      intro hs
      exact sameAppended_counters _ _ _ _ rfl rfl rfl hs.2.2.2
  | .IfThenElse testExpr successBlock (some failureBlock), symTable, symTable', _, st, st' => by
      intro hs
      have hI := hs.2.2.1
      simp only [Statement.GenerateInstructions]
      rw [hI]
      revert hs
      refine sameAppended_step ?_ (sameAppended_push_back _ _ _)
      refine sameAppended_step ?_ (same_Block failureBlock symTable symTable' _ _ _)
      refine sameAppended_step ?_ (sameAppended_push_back _ _ _)
      refine sameAppended_step ?_ (same_Block successBlock symTable symTable' _ _ _)
      refine sameAppended_step ?_ (sameAppended_push_back _ _ _)
      refine sameAppended_step ?_ (sameAppended_loadIfAddress _ _ _)
      refine sameAppended_step ?_ (same_Expression testExpr symTable symTable' _ _ _)
      intro hs
      exact sameAppended_counters _ _ _ _ rfl rfl rfl hs.2.2.2
  | .WhileLoop testExpr successBlock, symTable, symTable', _, st, st' => by
      intro hs
      have hW := hs.2.2.2
      simp only [Statement.GenerateInstructions]
      rw [hW]
      revert hs
      refine sameAppended_step ?_ (sameAppended_push_back _ _ _)
      refine sameAppended_step ?_ (sameAppended_push_back _ _ _)
      refine sameAppended_step ?_ (same_Block successBlock symTable symTable' _ _ _)
      refine sameAppended_step ?_ (sameAppended_push_back _ _ _)
      refine sameAppended_step ?_ (sameAppended_loadIfAddress _ _ _)
      refine sameAppended_step ?_ (same_Expression testExpr symTable symTable' _ _ _)
      refine sameAppended_step ?_ (sameAppended_push_back _ _ _)
      intro hs
      exact sameAppended_counters _ _ _ _ rfl rfl hs.2.2.1 rfl
theorem same_Block : ∀ (b : Block) (symTable symTable' : symbol.Table)
    (temporary : Temporary) (st st' : GenState), Similar st st' →
    SameAppended symTable symTable' st st'
      (b.GenerateInstructions symTable temporary st)
      (b.GenerateInstructions symTable' temporary st')
  | .mk statements, symTable, symTable', _, st, st' => by
      simp only [Block.GenerateInstructions]
      refine sameAppended_step ?_ (same_GenerateStatements statements symTable symTable' _ _)
      exact sameAppended_prologue symTable symTable' st st'
theorem same_GenerateStatements : ∀ (statements : List Statement)
    (symTable symTable' : symbol.Table) (st st' : GenState), Similar st st' →
    SameAppended symTable symTable' st st'
      (Block.GenerateStatements statements symTable st)
      (Block.GenerateStatements statements symTable' st')
  | [], symTable, symTable', st, st' => by
      simp only [Block.GenerateStatements]
      exact sameAppended_refl symTable symTable' st st'
  | stmt :: rest, symTable, symTable', st, st' => by
      simp only [Block.GenerateStatements]
      refine sameAppended_step ?_ (same_GenerateStatements rest symTable symTable' _ _)
      exact same_Statement stmt symTable symTable' .Zero st st'
end

theorem GenState.ext_of {a b : GenState} (hl : a.list = b.list)
    (hi : a.IfThenElse_labels = b.IfThenElse_labels)
    (hw : a.WhileLoop_labels = b.WhileLoop_labels) : a = b := by
  cases a
  cases b
  simp only at hl hi hw
  subst hl hi hw
  rfl

theorem eq_of_sameAppended {symTable symTable' : symbol.Table} {st r r' : GenState}
    (hne : st.list ≠ []) (h : SameAppended symTable symTable' st st r r') : r = r' := by
  obtain ⟨hi, hw, rest, h | h⟩ := h
  · exact GenState.ext_of (by rw [h.1, h.2]) hi hw
  · exact absurd h.1 hne

theorem Block.same_after_prologue (statements : List Statement)
    (symTable symTable' : symbol.Table) (temporary : Temporary) (i w : Nat) :
    ∃ rest : List Base,
      ((Block.mk statements).GenerateInstructions symTable temporary ⟨[], i, w⟩).list
        = prologueList symTable ++ rest
      ∧ ((Block.mk statements).GenerateInstructions symTable' temporary ⟨[], i, w⟩).list
        = prologueList symTable' ++ rest := by
  rw [Block.GenerateInstructions_nil_state, Block.GenerateInstructions_nil_state]
  have hs : Similar ⟨prologueList symTable, i, w⟩ ⟨prologueList symTable', i, w⟩ :=
    ⟨by simp [prologueList_ne_nil],
      by simp [backIsAddress_prologueList], rfl, rfl⟩
  obtain ⟨_, _, rest, h | h⟩ := same_GenerateStatements statements symTable symTable' _ _ hs
  · exact ⟨rest, h.1, h.2⟩
  · exact absurd h.1 (prologueList_ne_nil symTable)

/-- C20: lowering reads the symbol table nowhere but in the prologue.  Into a
non-empty list and from the same counters, an assignment, and likewise any
statement, expression or block, gives the same result with any two tables, whether
or not the names it mentions are declared.  From any starting state the two
counters come out the same for both tables, and the two lists are either the
starting list followed by the same instructions, or, the starting list being empty,
the prologue of each table followed by the same instructions; the latter is what a
block lowered into the empty list gives. -/
theorem C20_table_independence (x : String) (e : Expression) (s : Statement) (b : Block)
    (symTable symTable' : symbol.Table) (T : Temporary) (st nonempty : GenState)
    (i w : Nat) (hne : nonempty.list ≠ []) :
    (Statement.Assignment x e).GenerateInstructions symTable T nonempty
        = (Statement.Assignment x e).GenerateInstructions symTable' T nonempty
    ∧ s.GenerateInstructions symTable T nonempty
        = s.GenerateInstructions symTable' T nonempty
    ∧ e.GenerateInstructions symTable T nonempty
        = e.GenerateInstructions symTable' T nonempty
    ∧ b.GenerateInstructions symTable T nonempty
        = b.GenerateInstructions symTable' T nonempty
    ∧ SameAppended symTable symTable' st st
        (s.GenerateInstructions symTable T st) (s.GenerateInstructions symTable' T st)
    ∧ SameAppended symTable symTable' st st
        (e.GenerateInstructions symTable T st) (e.GenerateInstructions symTable' T st)
    ∧ SameAppended symTable symTable' st st
        (b.GenerateInstructions symTable T st) (b.GenerateInstructions symTable' T st)
    ∧ (∃ rest : List Base,
        (b.GenerateInstructions symTable T ⟨[], i, w⟩).list = prologueList symTable ++ rest
        ∧ (b.GenerateInstructions symTable' T ⟨[], i, w⟩).list
            = prologueList symTable' ++ rest) :=
  ⟨eq_of_sameAppended hne (same_Statement _ symTable symTable' T _ _ (similar_refl _)),
    eq_of_sameAppended hne (same_Statement s symTable symTable' T _ _ (similar_refl _)),
    eq_of_sameAppended hne (same_Expression e symTable symTable' T _ _ (similar_refl _)),
    eq_of_sameAppended hne (same_Block b symTable symTable' T _ _ (similar_refl _)),
    same_Statement s symTable symTable' T st st (similar_refl st),
    same_Expression e symTable symTable' T st st (similar_refl st),
    same_Block b symTable symTable' T st st (similar_refl st),
    by cases b with
      | mk statements => exact Block.same_after_prologue statements symTable symTable' T i w⟩

/-- Witness for C20: the assignment `x = y` lowered after one instruction, once with
an empty table and once with a table that declares both names. -/
theorem C20_table_independence_witness :
    (GenState.mk [.Custom ".text\n"] 0 0).list ≠ []
    ∧ (Statement.Assignment "x" (.Identifier "y")).GenerateInstructions ⟨[]⟩ .Zero
        ⟨[.Custom ".text\n"], 0, 0⟩
      = (Statement.Assignment "x" (.Identifier "y")).GenerateInstructions
          ⟨[("x", .Integer), ("y", .Integer)]⟩ .Zero ⟨[.Custom ".text\n"], 0, 0⟩ :=
  ⟨by decide,
    (C20_table_independence "x" (.Identifier "y") (.Assignment "x" (.Identifier "y"))
      (.mk []) ⟨[]⟩ ⟨[("x", .Integer), ("y", .Integer)]⟩ .Zero ⟨[], 0, 0⟩
      ⟨[.Custom ".text\n"], 0, 0⟩ 0 0 (by decide)).1⟩

end node

namespace node
open instruction (Temporary Variable Base RenderState)

/-! ### The destination of a synthesised comparison -/

/-- C11, the code at the failing input: the test `5 > 7` lowered into temporary 0.
The only write to temporary 0 before the comparison is the load of the left
operand 5; no instruction puts 0 there, and the comparison renders as a branch
around `ADDI $t0, $zero, 1`, so temporary 0 still holds 5 when the branch is
taken. -/
theorem C11_destination_keeps_left_operand :
    (Expression.BinaryOperator (.Integer 5) .GreaterThan (.Integer 7)).GenerateInstructions
        ⟨[]⟩ .Zero ⟨[.Custom ".text\n"], 0, 0⟩
      = ⟨[.Custom ".text\n",
          .Constant (.Constant 5) (.Register .Zero),
          .Constant (.Constant 7) (.Register .One),
          .GreaterThan (.Register .Zero) (.Register .One) (.Register .Zero)], 0, 0⟩
    ∧ (instruction.render
        ((Statement.IfThenElse (.BinaryOperator (.Integer 5) .GreaterThan (.Integer 7))
          (.mk [.Assignment "x" (.Integer 1)]) none).GenerateInstructions
          ⟨[]⟩ .Zero ⟨[.Custom ".text\n"], 0, 0⟩).list
        instruction.RenderState.initial).1
      = [".text\n", "LI $t0, 5\n", "LI $t1, 7\n",
         "BLE $t0, $t1, GreaterThan_0\nADDI $t0, $zero, 1\nGreaterThan_0:\n",
         "BEQ $t0, 0, IfThenElse_End_0\n",
         "LI $t1, 1\n", "LA $t0, x\n", "SW $t1, 0($t0)\n",
         "IfThenElse_End_0:\n"] := by
  constructor <;> decide

end node

namespace node
open instruction (Temporary Variable Base RenderState)

/-! ### Result types -/

/-- C21: the result type of a binary operator is `Integer` for `+ - * / %` and
`Boolean` for `== != < <= > >= && ||`, whatever the operand subtrees and whatever
the symbol table. -/
theorem C21_operator_result_type (lhs rhs lhs' rhs' : Expression) (op : Code)
    (symTable symTable' : symbol.Table) :
    (Expression.BinaryOperator lhs op rhs).GetResultType symTable
        = (match op with
          | .Addition => symbol.Type_.Integer
          | .Subtraction => .Integer
          | .Multiplication => .Integer
          | .Division => .Integer
          | .Modulo => .Integer
          | .Equal => .Boolean
          | .NotEqual => .Boolean
          | .LessThan => .Boolean
          | .LessEqual => .Boolean
          | .GreaterThan => .Boolean
          | .GreaterEqual => .Boolean
          | .And => .Boolean
          | .Or => .Boolean)
    ∧ (Expression.BinaryOperator lhs op rhs).GetResultType symTable
        = (Expression.BinaryOperator lhs' op rhs').GetResultType symTable'
    ∧ (Expression.BinaryOperator (.Identifier "undeclared") op
          (.Boolean true)).GetResultType ⟨[]⟩
        = (Expression.BinaryOperator lhs op rhs).GetResultType symTable := by
  refine ⟨?_, rfl, rfl⟩
  cases op <;> rfl

end node

namespace instruction

/-! ### The text of the single-line and two-line instructions -/

theorem newlines_toString_int (n : Int) : newlines (toString n) = 0 := by
  cases n with
  | ofNat m =>
    have : toString (Int.ofNat m) = toString m := rfl
    rw [this]
    exact newlines_toString_nat m
  | negSucc m =>
    have : toString (Int.negSucc m) = "-" ++ toString (m + 1) := rfl
    rw [this, newlines_append, newlines_toString_nat]
    decide

theorem newlines_constant (n : Int) : newlines (Variable.Constant n).ToString = 0 := by
  simp only [Variable.ToString]
  exact newlines_toString_int n

end instruction

namespace instruction

/-- C22: a register operand of index 0..9 renders as `$t` and its single digit, a
constant as its signed decimal value, a memory operand as its name.  Every
single-line instruction renders with the stated spelling and leaves the counters
alone; raw text renders verbatim.  With register or constant operands and a label
or name free of newlines, each of these texts holds exactly one newline, its last
character. -/
theorem C22_text_format (t t1 t2 t3 : Temporary) (ht : t ≠ Temporary.None) (n : Int)
    (name label data : String) (d c a v s l r : Variable) (rs : RenderState)
    (hlabel : newlines label = 0) (hname : newlines name = 0) :
    (Variable.Register t).ToString = "$t" ++ toString t.toInt
    ∧ (toString t.toInt).length = 1
    ∧ (Variable.Constant n).ToString = toString n
    ∧ (Variable.Memory name).ToString = name
    ∧ (Base.Constant c d).ToString rs
        = ("LI " ++ d.ToString ++ ", " ++ c.ToString ++ "\n", rs)
    ∧ (Base.Address name d).ToString rs
        = ("LA " ++ d.ToString ++ ", " ++ name ++ "\n", rs)
    ∧ (Base.Load a d).ToString rs
        = ("LW " ++ d.ToString ++ ", 0(" ++ a.ToString ++ ")\n", rs)
    ∧ (Base.Save v a).ToString rs
        = ("SW " ++ v.ToString ++ ", 0(" ++ a.ToString ++ ")\n", rs)
    ∧ (Base.Assignment d s).ToString rs
        = ("ADDI " ++ d.ToString ++ ", " ++ s.ToString ++ ", 0\n", rs)
    ∧ (Base.Jump label).ToString rs = ("J " ++ label ++ "\n", rs)
    ∧ (Base.Label label).ToString rs = (label ++ ":\n", rs)
    ∧ (Base.BranchLessThan l r label).ToString rs
        = ("BLT " ++ l.ToString ++ ", " ++ r.ToString ++ ", " ++ label ++ "\n", rs)
    ∧ (Base.BranchLessEqual l r label).ToString rs
        = ("BLE " ++ l.ToString ++ ", " ++ r.ToString ++ ", " ++ label ++ "\n", rs)
    ∧ (Base.BranchNotEqual l r label).ToString rs
        = ("BNE " ++ l.ToString ++ ", " ++ r.ToString ++ ", " ++ label ++ "\n", rs)
    ∧ (Base.BranchEqual l r label).ToString rs
        = ("BEQ " ++ l.ToString ++ ", " ++ r.ToString ++ ", " ++ label ++ "\n", rs)
    ∧ (Base.BranchGreaterEqual l r label).ToString rs
        = ("BGE " ++ l.ToString ++ ", " ++ r.ToString ++ ", " ++ label ++ "\n", rs)
    ∧ (Base.BranchGreaterThan l r label).ToString rs
        = ("BGT " ++ l.ToString ++ ", " ++ r.ToString ++ ", " ++ label ++ "\n", rs)
    ∧ (Base.Add l r d).ToString rs
        = ("ADD " ++ d.ToString ++ ", " ++ l.ToString ++ ", " ++ r.ToString ++ "\n", rs)
    ∧ (Base.Subtract l r d).ToString rs
        = ("SUB " ++ d.ToString ++ ", " ++ l.ToString ++ ", " ++ r.ToString ++ "\n", rs)
    ∧ (Base.And l r d).ToString rs
        = ("AND " ++ d.ToString ++ ", " ++ l.ToString ++ ", " ++ r.ToString ++ "\n", rs)
    ∧ (Base.Or l r d).ToString rs
        = ("OR " ++ d.ToString ++ ", " ++ l.ToString ++ ", " ++ r.ToString ++ "\n", rs)
    ∧ (Base.LessThan l r d).ToString rs
        = ("SLT " ++ d.ToString ++ ", " ++ l.ToString ++ ", " ++ r.ToString ++ "\n", rs)
    ∧ (Base.Custom data).ToString rs = (data, rs)
    ∧ (∀ inst ∈ [Base.Constant (.Constant n) (.Register t1),
          Base.Address name (.Register t1),
          Base.Load (.Register t1) (.Register t2),
          Base.Save (.Register t1) (.Register t2),
          Base.Assignment (.Register t1) (.Register t2),
          Base.Jump label, Base.Label label,
          Base.BranchLessThan (.Register t1) (.Register t2) label,
          Base.BranchLessEqual (.Register t1) (.Register t2) label,
          Base.BranchNotEqual (.Register t1) (.Register t2) label,
          Base.BranchEqual (.Register t1) (.Constant n) label,
          Base.BranchGreaterEqual (.Register t1) (.Register t2) label,
          Base.BranchGreaterThan (.Register t1) (.Register t2) label,
          Base.Add (.Register t1) (.Register t2) (.Register t3),
          Base.Subtract (.Register t1) (.Register t2) (.Register t3),
          Base.And (.Register t1) (.Register t2) (.Register t3),
          Base.Or (.Register t1) (.Register t2) (.Register t3),
          Base.LessThan (.Register t1) (.Register t2) (.Register t3)],
        newlines (inst.ToString rs).1 = 1) := by
  refine ⟨?_, ?_, rfl, rfl, rfl, rfl, rfl, rfl, rfl, rfl, rfl, rfl, rfl, rfl, rfl, rfl, rfl,
    rfl, rfl, rfl, rfl, rfl, rfl, ?_⟩
  · cases t <;> first | exact absurd rfl ht | rfl
  · cases t <;> first | exact absurd rfl ht | decide
  · have hnl : newlines "\n" = 1 := by decide
    intro inst hinst
    simp only [List.mem_cons, List.mem_singleton, List.not_mem_nil, or_false] at hinst
    rcases hinst with h | h | h | h | h | h | h | h | h | h | h | h | h | h | h | h | h | h <;>
      subst h <;>
      simp only [Base.ToString, Variable.ToString, newlines_append, newlines_register,
        newlines_constant, newlines_toString_int, hlabel, hname, hnl] <;>
      first
        | decide
        | (have h1 := newlines_register t1
           have h2 := newlines_register t2
           have h3 := newlines_register t3
           simp only [Variable.ToString, newlines_append] at h1 h2 h3
           simp only [newlines_append, h1, h2, h3, hlabel, hname, newlines_toString_int]
           decide)

/-- Witness for C22: temporary 7, the constant -12 and the names `x` and `L_1`. -/
theorem C22_text_format_witness :
    Temporary.Seven ≠ Temporary.None ∧ newlines "L_1" = 0 ∧ newlines "x" = 0
    ∧ (Variable.Register .Seven).ToString = "$t7"
    ∧ (Base.Save (.Register .Seven) (.Register .Zero)).ToString RenderState.initial
        = ("SW $t7, 0($t0)\n", RenderState.initial) :=
  ⟨by decide, by decide, by decide,
    ((C22_text_format .Seven .Zero .One .Two (by decide) (-12) "x" "L_1" "raw"
      (.Register .Zero) (.Constant (-12)) (.Register .Zero) (.Register .Seven)
      (.Register .One) (.Register .One) (.Register .Two) RenderState.initial
      (by decide) (by decide)).1).trans (by decide),
    ((C22_text_format .Seven .Zero .One .Two (by decide) (-12) "x" "L_1" "raw"
      (.Register .Zero) (.Constant (-12)) (.Register .Zero) (.Register .Seven)
      (.Register .One) (.Register .One) (.Register .Two) RenderState.initial
      (by decide) (by decide)).2.2.2.2.2.2.2.1).trans (by decide)⟩

/-- C26: `Multiply`, `Divide` and `Modulo` each render as two lines, the
computation into the hidden register and the move of the result into the
destination: `MULT l, r` then `MFLO d`; `DIV l, r` then `MFLO d`; `DIV l, r` then
`MFHI d`.  `Divide` and `Modulo` on the same operands share the first line and
differ in the opcode of the second.  With register operands each text holds exactly
two newlines. -/
theorem C26_two_line_arithmetic (l r d : Variable) (t1 t2 t3 : Temporary)
    (rs : RenderState) :
    (Base.Multiply l r d).ToString rs
        = (("MULT " ++ l.ToString ++ ", " ++ r.ToString ++ "\n")
            ++ ("MFLO " ++ d.ToString ++ "\n"), rs)
    ∧ (Base.Divide l r d).ToString rs
        = (("DIV " ++ l.ToString ++ ", " ++ r.ToString ++ "\n")
            ++ ("MFLO " ++ d.ToString ++ "\n"), rs)
    ∧ (Base.Modulo l r d).ToString rs
        = (("DIV " ++ l.ToString ++ ", " ++ r.ToString ++ "\n")
            ++ ("MFHI " ++ d.ToString ++ "\n"), rs)
    ∧ newlines ((Base.Multiply (.Register t1) (.Register t2) (.Register t3)).ToString rs).1 = 2
    ∧ newlines ((Base.Divide (.Register t1) (.Register t2) (.Register t3)).ToString rs).1 = 2
    ∧ newlines ((Base.Modulo (.Register t1) (.Register t2) (.Register t3)).ToString rs).1 = 2 := by
  have hassoc : ∀ (op mv : String),
      op ++ l.ToString ++ ", " ++ r.ToString ++ "\n" ++ mv ++ d.ToString ++ "\n"
        = (op ++ l.ToString ++ ", " ++ r.ToString ++ "\n") ++ (mv ++ d.ToString ++ "\n") := by
    intro op mv
    apply String.ext
    simp [String.data_append, List.append_assoc]
  have hcount : ∀ (op mv : String), newlines op = 0 → newlines mv = 0 →
      newlines (op ++ (Variable.Register t1).ToString ++ ", "
        ++ (Variable.Register t2).ToString ++ "\n" ++ mv
        ++ (Variable.Register t3).ToString ++ "\n") = 2 := by
    intro op mv hop hmv
    have hnl : newlines "\n" = 1 := by decide
    have hc : newlines ", " = 0 := by decide
    simp only [newlines_append, newlines_register, hop, hmv, hnl, hc]
  refine ⟨?_, ?_, ?_, ?_, ?_, ?_⟩
  · simp only [Base.ToString, hassoc]
  · simp only [Base.ToString, hassoc]
  · simp only [Base.ToString, hassoc]
  · exact hcount "MULT " "MFLO " (by decide) (by decide)
  · exact hcount "DIV " "MFLO " (by decide) (by decide)
  · exact hcount "DIV " "MFHI " (by decide) (by decide)

end instruction

namespace node
open instruction (Temporary Variable Base RenderState)

/-! ### Append-only lowering and the last element -/

theorem take_of_list_eq {st st' : GenState} (h : st'.list = st.list ++ appended st st') :
    st'.list.take st.list.length = st.list := by
  rw [h]
  simp

/-- C23: lowering only appends.  For every expression, statement and block, every
symbol table, target register and starting state, the list afterwards is the
starting list followed by what was appended, so its first elements are the
starting list unchanged and in place.  What a sequence of statements appends is
what the first statement appends followed by what the remaining ones append. -/
theorem C23_append_only (e : Expression) (s stmt : Statement) (b : Block)
    (rest : List Statement) (symTable : symbol.Table) (T : Temporary) (st : GenState) :
    (e.GenerateInstructions symTable T st).list
        = st.list ++ appended st (e.GenerateInstructions symTable T st)
    ∧ (s.GenerateInstructions symTable T st).list
        = st.list ++ appended st (s.GenerateInstructions symTable T st)
    ∧ (b.GenerateInstructions symTable T st).list
        = st.list ++ appended st (b.GenerateInstructions symTable T st)
    ∧ (e.GenerateInstructions symTable T st).list.take st.list.length = st.list
    ∧ (s.GenerateInstructions symTable T st).list.take st.list.length = st.list
    ∧ (b.GenerateInstructions symTable T st).list.take st.list.length = st.list
    ∧ appended st (Block.GenerateStatements (stmt :: rest) symTable st)
        = appended st (stmt.GenerateInstructions symTable .Zero st)
          ++ appended (stmt.GenerateInstructions symTable .Zero st)
              (Block.GenerateStatements rest symTable
                (stmt.GenerateInstructions symTable .Zero st)) := by
  have he := list_eq_append_appended (extends_Expression e symTable T st)
  have hs := list_eq_append_appended (extends_Statement s symTable T st)
  have hb := list_eq_append_appended (extends_Block b symTable T st)
  refine ⟨he, hs, hb, take_of_list_eq he, take_of_list_eq hs, take_of_list_eq hb, ?_⟩
  have h1 := list_eq_append_appended (extends_Statement stmt symTable .Zero st)
  have h2 := list_eq_append_appended (extends_GenerateStatements rest symTable
    (stmt.GenerateInstructions symTable .Zero st))
  apply appended_of_list_eq
  simp only [Block.GenerateStatements]
  rw [h2, h1, List.append_assoc]

/-- C29: after an expression has been lowered the list is never empty, whatever the
symbol table, the target register and the starting list, the empty one included;
every look at the last element therefore finds one.  For a literal, an identifier
and a binary operator the last element is the last instruction the expression
appended: the load-immediate, the address, the instruction of the operator. -/
theorem C29_back_is_defined (e lhs rhs : Expression) (value : Int) (flag : Bool)
    (name : String) (op : Code) (symTable : symbol.Table) (T : Temporary) (st : GenState) :
    (e.GenerateInstructions symTable T st).list ≠ []
    ∧ appended st ((Expression.Integer value).GenerateInstructions symTable T st)
        = [.Constant (.Constant value) (.Register T)]
    ∧ appended st ((Expression.Boolean flag).GenerateInstructions symTable T st)
        = [.Constant (.Constant (if flag then 1 else 0)) (.Register T)]
    ∧ appended st ((Expression.Identifier name).GenerateInstructions symTable T st)
        = [.Address name (.Register T)]
    ∧ (∃ front : List Base,
        appended st ((Expression.BinaryOperator lhs op rhs).GenerateInstructions symTable T st)
          = front ++ [BinaryOperator.inst op T (next_temporary T)])
    ∧ ((Expression.Integer value).GenerateInstructions symTable T st).list.getLast?
        = some (.Constant (.Constant value) (.Register T))
    ∧ ((Expression.Boolean flag).GenerateInstructions symTable T st).list.getLast?
        = some (.Constant (.Constant (if flag then 1 else 0)) (.Register T))
    ∧ ((Expression.Identifier name).GenerateInstructions symTable T st).list.getLast?
        = some (.Address name (.Register T))
    ∧ ((Expression.BinaryOperator lhs op rhs).GenerateInstructions symTable T st).list.getLast?
        = some (BinaryOperator.inst op T (next_temporary T)) := by
  refine ⟨Expression.GenerateInstructions_ne_nil e symTable T st,
    appended_of_list_eq rfl, appended_of_list_eq rfl, appended_of_list_eq rfl, ?_,
    ?_, ?_, ?_, ?_⟩
  · have h := list_eq_append_appended
      (extends_Expression (.BinaryOperator lhs op rhs) symTable T st)
    have hout : (Expression.BinaryOperator lhs op rhs).GenerateInstructions symTable T st
        = (loadIfAddress (next_temporary T)
            (rhs.GenerateInstructions symTable (next_temporary T)
              (loadIfAddress T (lhs.GenerateInstructions symTable T st)))).push_back
            (BinaryOperator.inst op T (next_temporary T)) := rfl
    have hpre := ((extends_Expression lhs symTable T st).trans
      (Appends.loadIfAddress T _ trivial)).trans
      (((extends_Expression rhs symTable (next_temporary T) _)).trans
        (Appends.loadIfAddress (next_temporary T) _ trivial))
    obtain ⟨front, hfront, _⟩ := hpre
    refine ⟨front, appended_of_list_eq ?_⟩
    rw [hout, GenState.push_back_list, hfront, List.append_assoc]
  · simp only [Expression.GenerateInstructions, GenState.push_back_list]
    rw [List.getLast?_concat]
  · simp only [Expression.GenerateInstructions, GenState.push_back_list]
    rw [List.getLast?_concat]
  · simp only [Expression.GenerateInstructions, GenState.push_back_list]
    rw [List.getLast?_concat]
  · simp only [Expression.GenerateInstructions, GenState.push_back_list]
    rw [List.getLast?_concat]

/-! ### The target register of a statement -/

/-- Counterexample to C24 as stated: the expression statement `5;` lowered with
target register 0 and with target register 3 appends different instructions. -/
theorem C24_expression_statement_forwards :
    (Statement.ExpressionStatement (.Integer 5)).GenerateInstructions ⟨[]⟩ .Zero
        ⟨[.Custom ".text\n"], 0, 0⟩
      = ⟨[.Custom ".text\n", .Constant (.Constant 5) (.Register .Zero)], 0, 0⟩
    ∧ (Statement.ExpressionStatement (.Integer 5)).GenerateInstructions ⟨[]⟩ .Three
        ⟨[.Custom ".text\n"], 0, 0⟩
      = ⟨[.Custom ".text\n", .Constant (.Constant 5) (.Register .Three)], 0, 0⟩
    ∧ (Statement.ExpressionStatement (.Integer 5)).GenerateInstructions ⟨[]⟩ .Zero
        ⟨[.Custom ".text\n"], 0, 0⟩
      ≠ (Statement.ExpressionStatement (.Integer 5)).GenerateInstructions ⟨[]⟩ .Three
        ⟨[.Custom ".text\n"], 0, 0⟩ := by
  decide

/-- C24 as amended: an assignment, a declaration, a conditional, a loop and a block
give the same result for any two target-register arguments; they lower a right-hand
side or an initialiser into temporary 1 and a test into temporary 0, and the
instructions they push themselves name temporaries 0 and 1 only.  An expression
statement hands its target register on to its expression, and a block lowers every
statement with temporary 0. -/
theorem C24_statement_target (x : String) (e t : Expression) (initialiser : Option Expression)
    (S : Block) (F : Option Block) (b : Block) (stmt : Statement) (rest : List Statement)
    (symTable : symbol.Table) (T T' : Temporary) (st : GenState) :
    (Statement.Assignment x e).GenerateInstructions symTable T st
        = (Statement.Assignment x e).GenerateInstructions symTable T' st
    ∧ (Statement.IntegerDeclaration x initialiser).GenerateInstructions symTable T st
        = (Statement.IntegerDeclaration x initialiser).GenerateInstructions symTable T' st
    ∧ (Statement.BooleanDeclaration x initialiser).GenerateInstructions symTable T st
        = (Statement.BooleanDeclaration x initialiser).GenerateInstructions symTable T' st
    ∧ (Statement.IfThenElse t S F).GenerateInstructions symTable T st
        = (Statement.IfThenElse t S F).GenerateInstructions symTable T' st
    ∧ (Statement.WhileLoop t S).GenerateInstructions symTable T st
        = (Statement.WhileLoop t S).GenerateInstructions symTable T' st
    ∧ b.GenerateInstructions symTable T st = b.GenerateInstructions symTable T' st
    ∧ (Statement.ExpressionStatement e).GenerateInstructions symTable T st
        = e.GenerateInstructions symTable T st
    ∧ Block.GenerateStatements (stmt :: rest) symTable st
        = Block.GenerateStatements rest symTable (stmt.GenerateInstructions symTable .Zero st)
    ∧ (Statement.Assignment x e).GenerateInstructions symTable T st
        = ((loadIfAddress .One (e.GenerateInstructions symTable .One st)).push_back
            (.Address x (.Register .Zero))).push_back
            (.Save (.Register .One) (.Register .Zero))
    ∧ (Statement.IntegerDeclaration x (some e)).GenerateInstructions symTable T st
        = ((loadIfAddress .One (e.GenerateInstructions symTable .One st)).push_back
            (.Address x (.Register .Zero))).push_back
            (.Save (.Register .One) (.Register .Zero))
    ∧ (Statement.BooleanDeclaration x (some e)).GenerateInstructions symTable T st
        = ((loadIfAddress .One (e.GenerateInstructions symTable .One st)).push_back
            (.Address x (.Register .Zero))).push_back
            (.Save (.Register .One) (.Register .Zero))
    ∧ (Statement.IfThenElse t S none).GenerateInstructions symTable T st
        = (S.GenerateInstructions symTable .Zero
            ((loadIfAddress .Zero (t.GenerateInstructions symTable .Zero
              { st with IfThenElse_labels :=
                  instruction.increment st.IfThenElse_labels })).push_back
              (.BranchEqual (.Register .Zero) (.Constant 0)
                ("IfThenElse_End_" ++ toString st.IfThenElse_labels)))).push_back
            (.Label ("IfThenElse_End_" ++ toString st.IfThenElse_labels))
    ∧ (Statement.WhileLoop t S).GenerateInstructions symTable T st
        = ((S.GenerateInstructions symTable .Zero
            ((loadIfAddress .Zero (t.GenerateInstructions symTable .Zero
              (GenState.push_back
                { st with WhileLoop_labels := instruction.increment st.WhileLoop_labels }
                (.Label ("WhileLoop_Start_" ++ toString st.WhileLoop_labels))))).push_back
              (.BranchEqual (.Register .Zero) (.Constant 0)
                ("WhileLoop_End_" ++ toString st.WhileLoop_labels)))).push_back
            (.Jump ("WhileLoop_Start_" ++ toString st.WhileLoop_labels))).push_back
            (.Label ("WhileLoop_End_" ++ toString st.WhileLoop_labels)) := by
  refine ⟨rfl, ?_, ?_, ?_, rfl, ?_, rfl, rfl, rfl, rfl, rfl, rfl, rfl⟩
  · cases initialiser <;> rfl
  · cases initialiser <;> rfl
  · cases F <;> rfl
  · cases b
    rfl

end node

namespace node
open instruction (Temporary Variable Base RenderState)

/-! ### The two label counters -/

theorem increment_mod (n : Nat) :
    instruction.increment n = (n + 1) % 2 ^ 32 := rfl

mutual
theorem counters_Expression : ∀ (e : Expression) (symTable : symbol.Table)
    (temporary : Temporary) (st : GenState),
    ((e.conditionals = 0 ∧ (e.GenerateInstructions symTable temporary st).IfThenElse_labels
          = st.IfThenElse_labels)
      ∨ (0 < e.conditionals ∧ (e.GenerateInstructions symTable temporary st).IfThenElse_labels
          = (st.IfThenElse_labels + e.conditionals) % 2 ^ 32))
    ∧ ((e.loops = 0 ∧ (e.GenerateInstructions symTable temporary st).WhileLoop_labels
          = st.WhileLoop_labels)
      ∨ (0 < e.loops ∧ (e.GenerateInstructions symTable temporary st).WhileLoop_labels
          = (st.WhileLoop_labels + e.loops) % 2 ^ 32))
  | .Boolean _, _, _, _ => by
      simp [Expression.GenerateInstructions, Expression.conditionals, Expression.loops,
        GenState.push_back]
  | .Integer _, _, _, _ => by
      simp [Expression.GenerateInstructions, Expression.conditionals, Expression.loops,
        GenState.push_back]
  | .Identifier _, _, _, _ => by
      simp [Expression.GenerateInstructions, Expression.conditionals, Expression.loops,
        GenState.push_back]
  | .BinaryOperator lhs op rhs, symTable, temporary, st => by
      have h1 := counters_Expression lhs symTable temporary st
      have h2 := counters_Expression rhs symTable (next_temporary temporary)
        (loadIfAddress temporary (lhs.GenerateInstructions symTable temporary st))
      simp only [loadIfAddress_IfThenElse_labels, loadIfAddress_WhileLoop_labels] at h2
      simp only [Expression.GenerateInstructions, Expression.conditionals, Expression.loops,
        GenState.push_back_IfThenElse_labels, GenState.push_back_WhileLoop_labels,
        loadIfAddress_IfThenElse_labels, loadIfAddress_WhileLoop_labels]
      omega
  | .Block block, symTable, temporary, st => by
      have h := counters_Block block symTable temporary st
      simpa only [Expression.GenerateInstructions, Expression.conditionals,
        Expression.loops] using h
theorem counters_Statement : ∀ (s : Statement) (symTable : symbol.Table)
    (temporary : Temporary) (st : GenState),
    ((s.conditionals = 0 ∧ (s.GenerateInstructions symTable temporary st).IfThenElse_labels
          = st.IfThenElse_labels)
      ∨ (0 < s.conditionals ∧ (s.GenerateInstructions symTable temporary st).IfThenElse_labels
          = (st.IfThenElse_labels + s.conditionals) % 2 ^ 32))
    ∧ ((s.loops = 0 ∧ (s.GenerateInstructions symTable temporary st).WhileLoop_labels
          = st.WhileLoop_labels)
      ∨ (0 < s.loops ∧ (s.GenerateInstructions symTable temporary st).WhileLoop_labels
          = (st.WhileLoop_labels + s.loops) % 2 ^ 32))
  | .Assignment _ rhs, symTable, _, st => by
      have h := counters_Expression rhs symTable .One st
      simpa only [Statement.GenerateInstructions, Statement.conditionals, Statement.loops,
        GenState.push_back_IfThenElse_labels, GenState.push_back_WhileLoop_labels,
        loadIfAddress_IfThenElse_labels, loadIfAddress_WhileLoop_labels] using h
  | .ExpressionStatement e, symTable, temporary, st => by
      have h := counters_Expression e symTable temporary st
      simpa only [Statement.GenerateInstructions, Statement.conditionals,
        Statement.loops] using h
  | .IntegerDeclaration _ none, _, _, _ => by
      simp [Statement.GenerateInstructions, Statement.conditionals, Statement.loops]
  | .IntegerDeclaration _ (some e), symTable, _, st => by
      have h := counters_Expression e symTable .One st
      simpa only [Statement.GenerateInstructions, Statement.conditionals, Statement.loops,
        GenState.push_back_IfThenElse_labels, GenState.push_back_WhileLoop_labels,
        loadIfAddress_IfThenElse_labels, loadIfAddress_WhileLoop_labels] using h
  | .BooleanDeclaration _ none, _, _, _ => by
      simp [Statement.GenerateInstructions, Statement.conditionals, Statement.loops]
  | .BooleanDeclaration _ (some e), symTable, _, st => by
      have h := counters_Expression e symTable .One st
      simpa only [Statement.GenerateInstructions, Statement.conditionals, Statement.loops,
        GenState.push_back_IfThenElse_labels, GenState.push_back_WhileLoop_labels,
        loadIfAddress_IfThenElse_labels, loadIfAddress_WhileLoop_labels] using h
  | .IfThenElse t S none, symTable, _, st => by
      have h1 := counters_Expression t symTable .Zero
        { st with IfThenElse_labels := instruction.increment st.IfThenElse_labels }
      have h2 := counters_Block S symTable .Zero
        ((loadIfAddress .Zero (t.GenerateInstructions symTable .Zero
          { st with IfThenElse_labels :=
              instruction.increment st.IfThenElse_labels })).push_back
          (.BranchEqual (.Register .Zero) (.Constant 0)
            ("IfThenElse_End_" ++ toString st.IfThenElse_labels)))
      simp only [GenState.push_back_IfThenElse_labels, GenState.push_back_WhileLoop_labels,
        loadIfAddress_IfThenElse_labels, loadIfAddress_WhileLoop_labels,
        increment_mod] at h1 h2
      simp only [Statement.GenerateInstructions, Statement.conditionals, Statement.loops,
        GenState.push_back_IfThenElse_labels, GenState.push_back_WhileLoop_labels,
        loadIfAddress_IfThenElse_labels, loadIfAddress_WhileLoop_labels, increment_mod]
      omega
  | .IfThenElse t S (some F), symTable, _, st => by
      have h1 := counters_Expression t symTable .Zero
        { st with IfThenElse_labels := instruction.increment st.IfThenElse_labels }
      have h2 := counters_Block S symTable .Zero
        ((loadIfAddress .Zero (t.GenerateInstructions symTable .Zero
          { st with IfThenElse_labels :=
              instruction.increment st.IfThenElse_labels })).push_back
          (.BranchEqual (.Register .Zero) (.Constant 0)
            ("IfThenElse_Failure_" ++ toString st.IfThenElse_labels)))
      have h3 := counters_Block F symTable .Zero
        ((S.GenerateInstructions symTable .Zero
          ((loadIfAddress .Zero (t.GenerateInstructions symTable .Zero
            { st with IfThenElse_labels :=
                instruction.increment st.IfThenElse_labels })).push_back
            (.BranchEqual (.Register .Zero) (.Constant 0)
              ("IfThenElse_Failure_" ++ toString st.IfThenElse_labels)))).push_back
          (.Label ("IfThenElse_Failure_" ++ toString st.IfThenElse_labels)))
      simp only [GenState.push_back_IfThenElse_labels, GenState.push_back_WhileLoop_labels,
        loadIfAddress_IfThenElse_labels, loadIfAddress_WhileLoop_labels,
        increment_mod] at h1 h2 h3
      simp only [Statement.GenerateInstructions, Statement.conditionals, Statement.loops,
        GenState.push_back_IfThenElse_labels, GenState.push_back_WhileLoop_labels,
        loadIfAddress_IfThenElse_labels, loadIfAddress_WhileLoop_labels, increment_mod]
      obtain ⟨a1, b1⟩ := h1
      obtain ⟨a2, b2⟩ := h2
      obtain ⟨a3, b3⟩ := h3
      refine ⟨?_, ?_⟩
      · clear b1 b2 b3
        omega
      · clear a1 a2 a3
        omega
  | .WhileLoop t S, symTable, _, st => by
      have h1 := counters_Expression t symTable .Zero
        (GenState.push_back
          { st with WhileLoop_labels := instruction.increment st.WhileLoop_labels }
          (.Label ("WhileLoop_Start_" ++ toString st.WhileLoop_labels)))
      have h2 := counters_Block S symTable .Zero
        ((loadIfAddress .Zero (t.GenerateInstructions symTable .Zero
          (GenState.push_back
            { st with WhileLoop_labels := instruction.increment st.WhileLoop_labels }
            (.Label ("WhileLoop_Start_" ++ toString st.WhileLoop_labels))))).push_back
          (.BranchEqual (.Register .Zero) (.Constant 0)
            ("WhileLoop_End_" ++ toString st.WhileLoop_labels)))
      simp only [GenState.push_back_IfThenElse_labels, GenState.push_back_WhileLoop_labels,
        loadIfAddress_IfThenElse_labels, loadIfAddress_WhileLoop_labels,
        increment_mod] at h1 h2
      simp only [Statement.GenerateInstructions, Statement.conditionals, Statement.loops,
        GenState.push_back_IfThenElse_labels, GenState.push_back_WhileLoop_labels,
        loadIfAddress_IfThenElse_labels, loadIfAddress_WhileLoop_labels, increment_mod]
      omega
theorem counters_Block : ∀ (b : Block) (symTable : symbol.Table)
    (temporary : Temporary) (st : GenState),
    ((b.conditionals = 0 ∧ (b.GenerateInstructions symTable temporary st).IfThenElse_labels
          = st.IfThenElse_labels)
      ∨ (0 < b.conditionals ∧ (b.GenerateInstructions symTable temporary st).IfThenElse_labels
          = (st.IfThenElse_labels + b.conditionals) % 2 ^ 32))
    ∧ ((b.loops = 0 ∧ (b.GenerateInstructions symTable temporary st).WhileLoop_labels
          = st.WhileLoop_labels)
      ∨ (0 < b.loops ∧ (b.GenerateInstructions symTable temporary st).WhileLoop_labels
          = (st.WhileLoop_labels + b.loops) % 2 ^ 32))
  | .mk statements, symTable, _, st => by
      have h := counters_GenerateStatements statements symTable (Block.prologue symTable st)
      simpa only [Block.GenerateInstructions, Block.conditionals, Block.loops,
        prologue_IfThenElse_labels, prologue_WhileLoop_labels] using h
theorem counters_GenerateStatements : ∀ (statements : List Statement)
    (symTable : symbol.Table) (st : GenState),
    ((Block.conditionalsOfStatements statements = 0
        ∧ (Block.GenerateStatements statements symTable st).IfThenElse_labels
          = st.IfThenElse_labels)
      ∨ (0 < Block.conditionalsOfStatements statements
        ∧ (Block.GenerateStatements statements symTable st).IfThenElse_labels
          = (st.IfThenElse_labels + Block.conditionalsOfStatements statements) % 2 ^ 32))
    ∧ ((Block.loopsOfStatements statements = 0
        ∧ (Block.GenerateStatements statements symTable st).WhileLoop_labels
          = st.WhileLoop_labels)
      ∨ (0 < Block.loopsOfStatements statements
        ∧ (Block.GenerateStatements statements symTable st).WhileLoop_labels
          = (st.WhileLoop_labels + Block.loopsOfStatements statements) % 2 ^ 32))
  | [], _, _ => by
      simp [Block.GenerateStatements, Block.conditionalsOfStatements, Block.loopsOfStatements]
  | stmt :: rest, symTable, st => by
      have h1 := counters_Statement stmt symTable .Zero st
      have h2 := counters_GenerateStatements rest symTable
        (stmt.GenerateInstructions symTable .Zero st)
      simp only [Block.GenerateStatements, Block.conditionalsOfStatements,
        Block.loopsOfStatements]
      omega
end

end node

namespace node
open instruction (Temporary Variable Base RenderState)

theorem counter_formula {c a b : Nat}
    (h : (c = 0 ∧ b = a) ∨ (0 < c ∧ b = (a + c) % 2 ^ 32)) :
    b = (if c = 0 then a else (a + c) % 2 ^ 32)
      ∧ (b = a + c ∨ 2 ^ 32 ≤ a + c) := by
  constructor
  · split <;> omega
  · omega

/-- C27: label-counter accounting.  Lowering an expression, a statement or a block
leaves the conditional counter as it was when the node contains no conditional and
otherwise sets it to the old value plus the number of conditionals the node contains,
modulo 2^32; the same holds for the loop counter and the number of loops.  Unless the
sum reaches 2^32 the counter afterwards is exactly the old value plus that number, so
it is never decreased or reset.  A program lowered from the start, both counters 0,
ends with the counters at the numbers of its conditionals and loops modulo 2^32.  The
state that lowering reads and returns holds the instruction list and these two
counters only; the counters of the comparison renderers are not part of it. -/
theorem C27_label_counter_accounting (e : Expression) (s : Statement) (b : Block)
    (symTable : symbol.Table) (T : Temporary) (st : GenState) :
    ((e.GenerateInstructions symTable T st).IfThenElse_labels
        = (if e.conditionals = 0 then st.IfThenElse_labels
            else (st.IfThenElse_labels + e.conditionals) % 2 ^ 32)
      ∧ (e.GenerateInstructions symTable T st).WhileLoop_labels
        = (if e.loops = 0 then st.WhileLoop_labels
            else (st.WhileLoop_labels + e.loops) % 2 ^ 32))
    ∧ ((s.GenerateInstructions symTable T st).IfThenElse_labels
        = (if s.conditionals = 0 then st.IfThenElse_labels
            else (st.IfThenElse_labels + s.conditionals) % 2 ^ 32)
      ∧ (s.GenerateInstructions symTable T st).WhileLoop_labels
        = (if s.loops = 0 then st.WhileLoop_labels
            else (st.WhileLoop_labels + s.loops) % 2 ^ 32))
    ∧ ((b.GenerateInstructions symTable T st).IfThenElse_labels
        = (if b.conditionals = 0 then st.IfThenElse_labels
            else (st.IfThenElse_labels + b.conditionals) % 2 ^ 32)
      ∧ (b.GenerateInstructions symTable T st).WhileLoop_labels
        = (if b.loops = 0 then st.WhileLoop_labels
            else (st.WhileLoop_labels + b.loops) % 2 ^ 32))
    ∧ (((e.GenerateInstructions symTable T st).IfThenElse_labels
          = st.IfThenElse_labels + e.conditionals
        ∨ 2 ^ 32 ≤ st.IfThenElse_labels + e.conditionals)
      ∧ ((e.GenerateInstructions symTable T st).WhileLoop_labels
          = st.WhileLoop_labels + e.loops
        ∨ 2 ^ 32 ≤ st.WhileLoop_labels + e.loops))
    ∧ (((s.GenerateInstructions symTable T st).IfThenElse_labels
          = st.IfThenElse_labels + s.conditionals
        ∨ 2 ^ 32 ≤ st.IfThenElse_labels + s.conditionals)
      ∧ ((s.GenerateInstructions symTable T st).WhileLoop_labels
          = st.WhileLoop_labels + s.loops
        ∨ 2 ^ 32 ≤ st.WhileLoop_labels + s.loops))
    ∧ (((b.GenerateInstructions symTable T st).IfThenElse_labels
          = st.IfThenElse_labels + b.conditionals
        ∨ 2 ^ 32 ≤ st.IfThenElse_labels + b.conditionals)
      ∧ ((b.GenerateInstructions symTable T st).WhileLoop_labels
          = st.WhileLoop_labels + b.loops
        ∨ 2 ^ 32 ≤ st.WhileLoop_labels + b.loops))
    ∧ (b.GenerateInstructions symTable T ⟨[], 0, 0⟩).IfThenElse_labels
        = b.conditionals % 2 ^ 32
    ∧ (b.GenerateInstructions symTable T ⟨[], 0, 0⟩).WhileLoop_labels
        = b.loops % 2 ^ 32 := by
  have he := counters_Expression e symTable T st
  have hs := counters_Statement s symTable T st
  have hb := counters_Block b symTable T st
  have h0 := counters_Block b symTable T ⟨[], 0, 0⟩
  refine ⟨⟨(counter_formula he.1).1, (counter_formula he.2).1⟩,
    ⟨(counter_formula hs.1).1, (counter_formula hs.2).1⟩,
    ⟨(counter_formula hb.1).1, (counter_formula hb.2).1⟩,
    ⟨(counter_formula he.1).2, (counter_formula he.2).2⟩,
    ⟨(counter_formula hs.1).2, (counter_formula hs.2).2⟩,
    ⟨(counter_formula hb.1).2, (counter_formula hb.2).2⟩, ?_, ?_⟩
  · have h := h0.1
    simp only [Nat.zero_add] at h
    omega
  · have h := h0.2
    simp only [Nat.zero_add] at h
    omega

end node

namespace node
open instruction (Temporary Variable Base RenderState)

/-! ### Register bounds of nested binary operators -/

theorem appends_weaken {P Q : Base → Prop} {a b : GenState} (h : Appends P a b)
    (hPQ : ∀ x, P x → Q x) : Appends Q a b := by
  obtain ⟨app, happ, hp⟩ := h
  exact ⟨app, happ, fun x hx => hPQ x (hp x hx)⟩

theorem appended_mem_of_appends {P : Base → Prop} {a b : GenState} (h : Appends P a b) :
    ∀ x ∈ appended a b, P x := by
  obtain ⟨app, happ, hp⟩ := h
  rw [appended_of_list_eq happ]
  exact hp

theorem appended_append {P Q : Base → Prop} {a b c : GenState} (h1 : Appends P a b)
    (h2 : Appends Q b c) : appended a c = appended a b ++ appended b c := by
  apply appended_of_list_eq
  rw [list_eq_append_appended h2, list_eq_append_appended h1, List.append_assoc]

theorem registerWithin_weaken {lo hi lo' hi' : Int} (hlo : lo' ≤ lo) (hhi : hi ≤ hi')
    (v : Variable) (h : v.registerWithin lo hi = true) : v.registerWithin lo' hi' = true := by
  cases v with
  | Register t =>
    simp only [Variable.registerWithin, Bool.and_eq_true, decide_eq_true_eq] at h ⊢
    omega
  | _ => rfl

theorem registersWithin_weaken {lo hi lo' hi' : Int} (hlo : lo' ≤ lo) (hhi : hi ≤ hi')
    (x : Base) (h : x.registersWithin lo hi = true) : x.registersWithin lo' hi' = true := by
  simp only [Base.registersWithin, List.all_eq_true] at h ⊢
  exact fun v hv => registerWithin_weaken hlo hhi v (h v hv)

theorem registerWithin_Register (lo hi : Int) (t : Temporary) :
    (Variable.Register t).registerWithin lo hi = true ↔ lo ≤ t.toInt ∧ t.toInt ≤ hi := by
  simp [Variable.registerWithin]

theorem inst_registersWithin (op : Code) (t t2 : Temporary) (lo hi : Int)
    (h1 : lo ≤ t.toInt ∧ t.toInt ≤ hi) (h2 : lo ≤ t2.toInt ∧ t2.toInt ≤ hi) :
    (BinaryOperator.inst op t t2).registersWithin lo hi = true := by
  cases op <;>
    simp [BinaryOperator.inst, Base.registersWithin, Base.operands,
      registerWithin_Register, h1, h2]

theorem Load_registersWithin (t : Temporary) (lo hi : Int)
    (h : lo ≤ t.toInt ∧ t.toInt ≤ hi) :
    (Base.Load (.Register t) (.Register t)).registersWithin lo hi = true := by
  simp [Base.registersWithin, Base.operands, registerWithin_Register, h]

theorem Constant_registersWithin (v : Int) (t : Temporary) (lo hi : Int)
    (h : lo ≤ t.toInt ∧ t.toInt ≤ hi) :
    (Base.Constant (.Constant v) (.Register t)).registersWithin lo hi = true := by
  simp [Base.registersWithin, Base.operands, registerWithin_Register, h,
    Variable.registerWithin]

theorem Address_registersWithin (name : String) (t : Temporary) (lo hi : Int)
    (h : lo ≤ t.toInt ∧ t.toInt ≤ hi) :
    (Base.Address name (.Register t)).registersWithin lo hi = true := by
  simp [Base.registersWithin, Base.operands, registerWithin_Register, h,
    Variable.registerWithin]

theorem registersInRange_of_within (x : Base) (lo hi : Int) (hlo : 0 ≤ lo)
    (h : x.registersWithin lo hi = true) : x.registersInRange = true := by
  simp only [Base.registersWithin, Base.registersInRange, List.all_eq_true] at h ⊢
  intro v hv
  have := h v hv
  cases v with
  | Register t =>
    cases t <;> first
      | rfl
      | (simp only [Variable.registerWithin, Temporary.toInt, Bool.and_eq_true,
           decide_eq_true_eq] at this
         omega)
  | _ => rfl

theorem not_mem_operands_of_within (x : Base) (lo hi : Int) (t : Temporary)
    (ht : t.toInt < lo) (h : x.registersWithin lo hi = true) :
    Variable.Register t ∉ x.operands := by
  intro hmem
  simp only [Base.registersWithin, List.all_eq_true] at h
  have := h _ hmem
  simp only [Variable.registerWithin, Bool.and_eq_true, decide_eq_true_eq] at this
  omega

theorem next_temporary_toInt (t : Temporary) (ht : t ≠ Temporary.None)
    (h9 : t.toInt + 1 ≤ 9) :
    next_temporary t ≠ Temporary.None ∧ (next_temporary t).toInt = t.toInt + 1 := by
  cases t <;> first
    | exact absurd rfl ht
    | (simp only [Temporary.toInt] at h9; omega)
    | exact ⟨by decide, by decide⟩

theorem toInt_nonneg (t : Temporary) (ht : t ≠ Temporary.None) : 0 ≤ t.toInt := by
  cases t <;> first
    | exact absurd rfl ht
    | decide

theorem toInt_le_nine (t : Temporary) : t.toInt ≤ 9 := by
  cases t <;> decide

theorem registersWithin_Expression : ∀ (e : Expression) (symTable : symbol.Table)
    (temporary : Temporary) (st : GenState),
    e.blockFree = true → temporary ≠ Temporary.None → temporary.toInt + e.rdepth ≤ 9 →
    Appends (fun x => x.registersWithin temporary.toInt (temporary.toInt + e.rdepth) = true)
      st (e.GenerateInstructions symTable temporary st)
  | .Boolean _, _, temporary, st => by
      intro _ _ _
      exact Appends.push_back st _ (Constant_registersWithin _ _ _ _ ⟨by omega, by omega⟩)
  | .Integer _, _, temporary, st => by
      intro _ _ _
      exact Appends.push_back st _ (Constant_registersWithin _ _ _ _ ⟨by omega, by omega⟩)
  | .Identifier _, _, temporary, st => by
      intro _ _ _
      exact Appends.push_back st _ (Address_registersWithin _ _ _ _ ⟨by omega, by omega⟩)
  | .BinaryOperator lhs op rhs, symTable, temporary, st => by
      intro hb ht hd
      simp only [Expression.blockFree, Bool.and_eq_true] at hb
      simp only [Expression.rdepth] at hd ⊢
      obtain ⟨hn, hnext⟩ := next_temporary_toInt temporary ht (by omega)
      simp only [Expression.GenerateInstructions]
      refine Appends.trans ?_ (Appends.push_back _ _
        (inst_registersWithin op _ _ _ _ ⟨by omega, by omega⟩ ⟨by omega, by omega⟩))
      refine Appends.trans ?_ (Appends.loadIfAddress _ _
        (Load_registersWithin _ _ _ ⟨by omega, by omega⟩))
      refine Appends.trans ?_ (appends_weaken
        (registersWithin_Expression rhs symTable _ _ hb.2 hn (by omega))
        (fun x hx => registersWithin_weaken (by omega) (by omega) x hx))
      refine Appends.trans ?_ (Appends.loadIfAddress _ _
        (Load_registersWithin _ _ _ ⟨by omega, by omega⟩))
      exact appends_weaken (registersWithin_Expression lhs symTable _ _ hb.1 ht (by omega))
        (fun x hx => registersWithin_weaken (by omega) (by omega) x hx)
  | .Block _, _, _, _ => by
      intro hb
      simp [Expression.blockFree] at hb

theorem inst_operands (op : Code) (t t2 : Temporary) :
    Variable.Register t2 ∈ (BinaryOperator.inst op t t2).operands := by
  cases op <;> simp [BinaryOperator.inst, Base.operands]

theorem exhausts_Expression : ∀ (e : Expression) (symTable : symbol.Table)
    (temporary : Temporary) (st : GenState),
    temporary ≠ Temporary.None → 10 ≤ temporary.toInt + e.rdepth →
    ∃ x ∈ appended st (e.GenerateInstructions symTable temporary st),
      Variable.Register Temporary.None ∈ x.operands
  | .Boolean _, _, temporary, _ => by
      intro _ h
      have := toInt_le_nine temporary
      simp only [Expression.rdepth] at h
      omega
  | .Integer _, _, temporary, _ => by
      intro _ h
      have := toInt_le_nine temporary
      simp only [Expression.rdepth] at h
      omega
  | .Identifier _, _, temporary, _ => by
      intro _ h
      have := toInt_le_nine temporary
      simp only [Expression.rdepth] at h
      omega
  | .Block _, _, temporary, _ => by
      intro _ h
      have := toInt_le_nine temporary
      simp only [Expression.rdepth] at h
      omega
  | .BinaryOperator lhs op rhs, symTable, temporary, st => by
      intro ht h
      simp only [Expression.rdepth] at h
      have e1 := extends_Expression lhs symTable temporary st
      have e2 : Appends (fun _ => True) (lhs.GenerateInstructions symTable temporary st)
          (loadIfAddress temporary (lhs.GenerateInstructions symTable temporary st)) :=
        Appends.loadIfAddress _ _ trivial
      have e3 := extends_Expression rhs symTable (next_temporary temporary)
        (loadIfAddress temporary (lhs.GenerateInstructions symTable temporary st))
      have e4 : Appends (fun _ => True)
          (rhs.GenerateInstructions symTable (next_temporary temporary)
            (loadIfAddress temporary (lhs.GenerateInstructions symTable temporary st)))
          (loadIfAddress (next_temporary temporary)
            (rhs.GenerateInstructions symTable (next_temporary temporary)
              (loadIfAddress temporary (lhs.GenerateInstructions symTable temporary st)))) :=
        Appends.loadIfAddress _ _ trivial
      have e5 : Appends (fun _ => True)
          (loadIfAddress (next_temporary temporary)
            (rhs.GenerateInstructions symTable (next_temporary temporary)
              (loadIfAddress temporary (lhs.GenerateInstructions symTable temporary st))))
          ((Expression.BinaryOperator lhs op rhs).GenerateInstructions symTable temporary st) :=
        Appends.push_back _ _ trivial
      have a5 : appended (loadIfAddress (next_temporary temporary)
            (rhs.GenerateInstructions symTable (next_temporary temporary)
              (loadIfAddress temporary (lhs.GenerateInstructions symTable temporary st))))
          ((Expression.BinaryOperator lhs op rhs).GenerateInstructions symTable temporary st)
          = [BinaryOperator.inst op temporary (next_temporary temporary)] :=
        appended_of_list_eq rfl
      rw [appended_append (((e1.trans e2).trans e3).trans e4) e5,
        appended_append ((e1.trans e2).trans e3) e4,
        appended_append (e1.trans e2) e3, appended_append e1 e2, a5]
      by_cases hl : 10 ≤ temporary.toInt + lhs.rdepth
      · obtain ⟨x, hx, hop⟩ := exhausts_Expression lhs symTable temporary st ht hl
        exact ⟨x, by simp [hx], hop⟩
      · by_cases h9 : temporary = Temporary.Nine
        · subst h9
          exact ⟨BinaryOperator.inst op .Nine (next_temporary .Nine), by simp,
            inst_operands op _ _⟩
        · have hlt : temporary.toInt + 1 ≤ 9 := by
            cases temporary <;> first
              | exact absurd rfl ht
              | exact absurd rfl h9
              | decide
          obtain ⟨hn, hnext⟩ := next_temporary_toInt temporary ht hlt
          obtain ⟨x, hx, hop⟩ := exhausts_Expression rhs symTable (next_temporary temporary)
            (loadIfAddress temporary (lhs.GenerateInstructions symTable temporary st)) hn
            (by omega)
          exact ⟨x, by simp [hx], hop⟩

theorem rdepth_rightNested : ∀ (n : Nat) (e : Expression),
    e.rightNested n = true → e.rdepth = n ∧ e.blockFree = true
  | 0, e => by
      intro h
      cases e <;> simp_all [Expression.rightNested, Expression.isLiteral, Expression.rdepth,
        Expression.blockFree]
  | n + 1, .BinaryOperator lhs _ rhs => by
      intro h
      simp only [Expression.rightNested, Bool.and_eq_true] at h
      obtain ⟨h1, h2⟩ := rdepth_rightNested n rhs h.2
      have hl : lhs.rdepth = 0 ∧ lhs.blockFree = true := by
        have := h.1
        cases lhs <;> simp_all [Expression.isLiteral, Expression.rdepth, Expression.blockFree]
      simp only [Expression.rdepth, Expression.blockFree, h1, h2, hl.1, hl.2, Bool.and_self]
      exact ⟨by omega, trivial⟩
  | _ + 1, .Boolean _ => by simp [Expression.rightNested]
  | _ + 1, .Integer _ => by simp [Expression.rightNested]
  | _ + 1, .Identifier _ => by simp [Expression.rightNested]
  | _ + 1, .Block _ => by simp [Expression.rightNested]

theorem rdepth_leftNested : ∀ (n : Nat) (e : Expression),
    e.leftNested n = true → e.rdepth ≤ 1 ∧ e.blockFree = true
  | 0, e => by
      intro h
      cases e <;> simp_all [Expression.leftNested, Expression.isLiteral, Expression.rdepth,
        Expression.blockFree]
  | n + 1, .BinaryOperator lhs _ rhs => by
      intro h
      simp only [Expression.leftNested, Bool.and_eq_true] at h
      obtain ⟨h1, h2⟩ := rdepth_leftNested n lhs h.1
      have hr : rhs.rdepth = 0 ∧ rhs.blockFree = true := by
        have := h.2
        cases rhs <;> simp_all [Expression.isLiteral, Expression.rdepth, Expression.blockFree]
      simp only [Expression.rdepth, Expression.blockFree, h2, hr.1, hr.2, Bool.and_self]
      exact ⟨by omega, trivial⟩
  | _ + 1, .Boolean _ => by simp [Expression.leftNested]
  | _ + 1, .Integer _ => by simp [Expression.leftNested]
  | _ + 1, .Identifier _ => by simp [Expression.leftNested]
  | _ + 1, .Block _ => by simp [Expression.leftNested]

theorem leftNested_registers (n : Nat) (e : Expression) (symTable : symbol.Table)
    (temporary : Temporary) (st : GenState) (h : e.leftNested n = true)
    (ht : temporary ≠ Temporary.None) (h9 : temporary.toInt + 1 ≤ 9) :
    ∀ x ∈ appended st (e.GenerateInstructions symTable temporary st),
      x.registersWithin temporary.toInt (temporary.toInt + 1) = true := by
  obtain ⟨hd, hb⟩ := rdepth_leftNested n e h
  exact appended_mem_of_appends (appends_weaken
    (registersWithin_Expression e symTable temporary st hb ht (by omega))
    (fun x hx => registersWithin_weaken (Int.le_refl _) (by omega) x hx))

end node

namespace node
open instruction (Temporary Variable Base RenderState)

theorem registersInRange_false_of_mem (x : Base)
    (h : Variable.Register Temporary.None ∈ x.operands) : x.registersInRange = false := by
  simp only [Base.registersInRange, List.all_eq_false]
  exact ⟨_, h, by simp [Variable.registerInRange]⟩

/-- Counterexample to C25 as stated: `0 + 1 + ... + 10`, ten binary operators nested
on the left side with literal leaves, lowered into temporary 0 appends 21
instructions, and every register operand of every one of them is one of the
temporaries 0..9; no operand is the register none. -/
theorem C25_left_nesting_stays_in_range :
    (Expression.leftChain 10).leftNested 10 = true
    ∧ ((Expression.leftChain 10).GenerateInstructions ⟨[]⟩ .Zero ⟨[], 0, 0⟩).list.length = 21
    ∧ ((Expression.leftChain 10).GenerateInstructions ⟨[]⟩ .Zero ⟨[], 0, 0⟩).list.all
        Base.registersInRange = true
    ∧ ∀ x ∈ ((Expression.leftChain 10).GenerateInstructions ⟨[]⟩ .Zero ⟨[], 0, 0⟩).list,
        Variable.Register Temporary.None ∉ x.operands := by
  decide

/-- C25 as amended: for every expression that is ten binary operators nested on the
right side with literal leaves, lowered into temporary 0 after any starting list,
lowering returns the starting list followed by the appended instructions, and one
of the appended instructions has the register none as an operand, so its register
operands are not all in 0..9.  Nested on the left side to any depth, every register
operand of every appended instruction is temporary 0 or temporary 1. -/
theorem C25_right_nesting_exhausts (e : Expression) (symTable : symbol.Table)
    (st : GenState) (h : e.rightNested 10 = true) :
    (e.GenerateInstructions symTable .Zero st).list
        = st.list ++ appended st (e.GenerateInstructions symTable .Zero st)
    ∧ (∃ x ∈ appended st (e.GenerateInstructions symTable .Zero st),
        Variable.Register Temporary.None ∈ x.operands ∧ x.registersInRange = false)
    ∧ (∀ (n : Nat) (e' : Expression), e'.leftNested n = true →
        ∀ x ∈ appended st (e'.GenerateInstructions symTable .Zero st),
          x.registersWithin 0 1 = true ∧ x.registersInRange = true) := by
  refine ⟨list_eq_Expression e symTable .Zero st, ?_, ?_⟩
  · obtain ⟨hd, _⟩ := rdepth_rightNested 10 e h
    obtain ⟨x, hx, hop⟩ := exhausts_Expression e symTable .Zero st (by decide)
      (by rw [hd]; decide)
    exact ⟨x, hx, hop, registersInRange_false_of_mem x hop⟩
  · intro n e' h' x hx
    have := leftNested_registers n e' symTable .Zero st h' (by decide) (by decide) x hx
    exact ⟨this, registersInRange_of_within x _ _ (by decide) this⟩

/-- Witness for C25 as amended: `10 + (9 + (... + (1 + 0)))` lowered into temporary 0
on its own. -/
theorem C25_right_nesting_exhausts_witness :
    (Expression.rightChain 10).rightNested 10 = true
    ∧ ∃ x ∈ appended ⟨[], 0, 0⟩
        ((Expression.rightChain 10).GenerateInstructions ⟨[]⟩ .Zero ⟨[], 0, 0⟩),
        Variable.Register Temporary.None ∈ x.operands ∧ x.registersInRange = false :=
  ⟨by decide, (C25_right_nesting_exhausts (Expression.rightChain 10) ⟨[]⟩ ⟨[], 0, 0⟩
    (by decide)).2.1⟩

/-- C28: with `rdepth` 0 for a literal and an identifier and
`max (rdepth l) (1 + rdepth r)` for a binary operator, for every expression built
from literals, identifiers and binary operators only and every target register `T`
other than none with `index T + rdepth e ≤ 9`, every register operand of every
instruction appended by lowering `e` into `T` has its index between `index T` and
`index T + rdepth e`.  Hence every register operand is one of the temporaries 0..9
and none is the register none; when `e` is a binary operator the instructions
appended by lowering its right operand into the next register do not have `T` as an
operand; and an expression nested on the left side to any depth stays within `T`
and the register after it. -/
theorem C28_bounded_nesting (e lhs rhs : Expression) (op : Code) (flag : Bool)
    (value : Int) (name : String) (symTable : symbol.Table) (T : Temporary)
    (st : GenState) (hfree : e.blockFree = true) (hT : T ≠ Temporary.None)
    (hfit : T.toInt + e.rdepth ≤ 9) :
    (Expression.Boolean flag).rdepth = 0
    ∧ (Expression.Integer value).rdepth = 0
    ∧ (Expression.Identifier name).rdepth = 0
    ∧ (Expression.BinaryOperator lhs op rhs).rdepth = max lhs.rdepth (1 + rhs.rdepth)
    ∧ (∀ x ∈ appended st (e.GenerateInstructions symTable T st),
        x.registersWithin T.toInt (T.toInt + e.rdepth) = true)
    ∧ (∀ x ∈ appended st (e.GenerateInstructions symTable T st),
        x.registersInRange = true ∧ Variable.Register Temporary.None ∉ x.operands)
    ∧ (e = .BinaryOperator lhs op rhs →
        ∀ x ∈ appended (loadIfAddress T (lhs.GenerateInstructions symTable T st))
            (rhs.GenerateInstructions symTable (next_temporary T)
              (loadIfAddress T (lhs.GenerateInstructions symTable T st))),
          Variable.Register T ∉ x.operands)
    ∧ (∀ (n : Nat) (e' : Expression), e'.leftNested n = true → T.toInt + 1 ≤ 9 →
        ∀ x ∈ appended st (e'.GenerateInstructions symTable T st),
          x.registersWithin T.toInt (T.toInt + 1) = true) := by
  have hmain := appended_mem_of_appends (registersWithin_Expression e symTable T st hfree hT hfit)
  refine ⟨rfl, rfl, rfl, rfl, hmain, ?_, ?_, ?_⟩
  · intro x hx
    have hin := registersInRange_of_within x _ _ (toInt_nonneg T hT) (hmain x hx)
    refine ⟨hin, fun hmem => ?_⟩
    rw [registersInRange_false_of_mem x hmem] at hin
    exact Bool.false_ne_true hin
  · intro he x hx
    subst he
    simp only [Expression.blockFree, Bool.and_eq_true] at hfree
    simp only [Expression.rdepth] at hfit
    obtain ⟨hn, hnext⟩ := next_temporary_toInt T hT (by omega)
    have := appended_mem_of_appends (registersWithin_Expression rhs symTable
      (next_temporary T) (loadIfAddress T (lhs.GenerateInstructions symTable T st))
      hfree.2 hn (by omega)) x hx
    exact not_mem_operands_of_within x _ _ T (by omega) this
  · intro n e' h' h9
    exact leftNested_registers n e' symTable T st h' hT h9

/-- Witness for C28: `1 + (x * 2)` lowered into temporary 0 uses the registers 0
to 2, and the lowering of `x * 2` into temporary 1 does not mention temporary 0. -/
theorem C28_bounded_nesting_witness :
    (Expression.BinaryOperator (.Integer 1) .Addition
        (.BinaryOperator (.Identifier "x") .Multiplication (.Integer 2))).blockFree = true
    ∧ Temporary.Zero ≠ Temporary.None
    ∧ Temporary.Zero.toInt
        + (Expression.BinaryOperator (.Integer 1) .Addition
            (.BinaryOperator (.Identifier "x") .Multiplication (.Integer 2))).rdepth ≤ 9
    ∧ (∀ x ∈ appended ⟨[], 0, 0⟩
        ((Expression.BinaryOperator (.Integer 1) .Addition
            (.BinaryOperator (.Identifier "x") .Multiplication
              (.Integer 2))).GenerateInstructions ⟨[]⟩ .Zero ⟨[], 0, 0⟩),
        x.registersWithin Temporary.Zero.toInt
          (Temporary.Zero.toInt
            + (Expression.BinaryOperator (.Integer 1) .Addition
                (.BinaryOperator (.Identifier "x") .Multiplication (.Integer 2))).rdepth)
          = true)
    ∧ (∀ x ∈ appended
          (loadIfAddress .Zero
            ((Expression.Integer 1).GenerateInstructions ⟨[]⟩ .Zero ⟨[], 0, 0⟩))
          ((Expression.BinaryOperator (.Identifier "x") .Multiplication
              (.Integer 2)).GenerateInstructions ⟨[]⟩ (next_temporary .Zero)
            (loadIfAddress .Zero
              ((Expression.Integer 1).GenerateInstructions ⟨[]⟩ .Zero ⟨[], 0, 0⟩))),
        Variable.Register Temporary.Zero ∉ x.operands) :=
  ⟨by decide, by decide, by decide,
    (C28_bounded_nesting _ (.Integer 1)
      (.BinaryOperator (.Identifier "x") .Multiplication (.Integer 2)) .Addition true 0 ""
      ⟨[]⟩ .Zero ⟨[], 0, 0⟩ (by decide) (by decide) (by decide)).2.2.2.2.1,
    (C28_bounded_nesting _ (.Integer 1)
      (.BinaryOperator (.Identifier "x") .Multiplication (.Integer 2)) .Addition true 0 ""
      ⟨[]⟩ .Zero ⟨[], 0, 0⟩ (by decide) (by decide) (by decide)).2.2.2.2.2.2.1 rfl⟩

end node

namespace node
open instruction (Temporary Variable Base RenderState Synthesized definedLabels)

/-! ### The labels defined in the rendered output -/

theorem definedLabel?_cases (inst : Base) (rs : RenderState) :
    inst.definedLabel? rs
      = (match labelName? inst with
          | some l => some l
          | none => inst.synthesized?.map (fun kind => kind.labelName (kind.counter rs))) := by
  cases inst <;> rfl

theorem exists_prefix (a b c d : String) :
    ∃ pre : String, a ++ b ++ c ++ d = pre ++ (b ++ c) ++ d :=
  ⟨a, by rw [String.append_assoc a b c]⟩

theorem definedLabel?_text (inst : Base) (rs : RenderState) (l : String)
    (h : inst.definedLabel? rs = some l) :
    ∃ pre : String, (inst.ToString rs).1 = pre ++ l ++ ":\n" := by
  cases inst <;> simp only [Base.definedLabel?, Option.some.injEq] at h <;>
    first
    | exact absurd h (by simp)
    | (subst h
       refine ⟨"", ?_⟩
       apply String.ext
       simp [Base.ToString, String.data_append]
       done)
    | (subst h
       simp only [Base.ToString]
       exact exists_prefix _ _ _ _)

theorem Synthesized.labelName_eq {kind kind' : Synthesized} {j j' : Nat}
    (h : kind.labelName j = kind'.labelName j') : kind = kind' ∧ j = j' := by
  cases kind <;> cases kind' <;> simp only [Synthesized.labelName] at h <;>
    first
    | exact ⟨rfl, append_toString_injective _ _ _ h⟩
    | (exfalso
       have := congrArg String.data h
       simp [String.data_append] at this)

theorem ControlLabel.name_ne_labelName (c : ControlLabel) (kind : Synthesized) (j : Nat) :
    c.name ≠ kind.labelName j := by
  intro h
  cases c <;> cases kind <;> simp only [ControlLabel.name, Synthesized.labelName] at h <;>
    (exfalso
     have := congrArg String.data h
     simp [String.data_append] at this)

theorem calls_cons (kind : Synthesized) (x : Base) (rest : List Base) :
    kind.calls (x :: rest)
      = kind.calls rest + (if x.synthesized? = some kind then 1 else 0) := by
  simp only [Synthesized.calls, List.countP_cons, beq_iff_eq]

theorem counter_step (kind : Synthesized) (x : Base) (rest : List Base) (rs : RenderState)
    (h : kind.counter rs + kind.calls (x :: rest) < 2 ^ 32) :
    kind.counter (x.ToString rs).2
        = kind.counter rs + (if x.synthesized? = some kind then 1 else 0)
      ∧ kind.counter (x.ToString rs).2 + kind.calls rest < 2 ^ 32 := by
  rw [calls_cons] at h
  rw [Synthesized.counter_ToString]
  by_cases hk : x.synthesized? = some kind
  · simp only [hk, if_true] at h ⊢
    have hinc : instruction.increment (kind.counter rs) = kind.counter rs + 1 :=
      Nat.mod_eq_of_lt (by omega)
    rw [hinc]
    omega
  · simp only [hk, if_false] at h ⊢
    omega

theorem definedLabels_mem : ∀ (list : List Base) (rs : RenderState),
    (∀ kind : Synthesized, kind.counter rs + kind.calls list < 2 ^ 32) →
    ∀ l ∈ definedLabels list rs,
      l ∈ labelNames list
        ∨ ∃ (kind : Synthesized) (j : Nat), l = kind.labelName j ∧ kind.counter rs ≤ j
  | [], _ => by
      intro _ l hl
      simp [definedLabels] at hl
  | x :: rest, rs => by
      intro hinv l hl
      simp only [definedLabels, List.mem_append, Option.mem_toList, Option.mem_def] at hl
      rcases hl with hl | hl
      · rw [definedLabel?_cases] at hl
        cases hx : labelName? x with
        | some l' =>
          simp only [hx, Option.some.injEq] at hl
          left
          simp [labelNames_cons, hx, hl]
        | none =>
          simp only [hx, Option.map_eq_some'] at hl
          obtain ⟨kind, _, hk⟩ := hl
          exact Or.inr ⟨kind, _, hk.symm, Nat.le_refl _⟩
      · have hrest := definedLabels_mem rest (x.ToString rs).2
          (fun kind => (counter_step kind x rest rs (hinv kind)).2) l hl
        rcases hrest with h | ⟨kind, j, hk, hj⟩
        · left
          simp [labelNames_cons, h]
        · refine Or.inr ⟨kind, j, hk, ?_⟩
          have := (counter_step kind x rest rs (hinv kind)).1
          omega

theorem definedLabels_nodup : ∀ (list : List Base) (rs : RenderState),
    (∀ kind : Synthesized, kind.counter rs + kind.calls list < 2 ^ 32) →
    (labelNames list).Nodup →
    (∀ l ∈ labelNames list, ∀ (kind : Synthesized) (j : Nat), l ≠ kind.labelName j) →
    (definedLabels list rs).Nodup
  | [], _ => by
      intro _ _ _
      simp [definedLabels]
  | x :: rest, rs => by
      intro hinv hnd hne
      have hinv' : ∀ kind : Synthesized,
          kind.counter (x.ToString rs).2 + kind.calls rest < 2 ^ 32 :=
        fun kind => (counter_step kind x rest rs (hinv kind)).2
      rw [labelNames_cons] at hnd hne
      have hrest := definedLabels_nodup rest (x.ToString rs).2 hinv'
        (List.Nodup.of_append_right hnd)
        (fun l hl => hne l (List.mem_append_right _ hl))
      simp only [definedLabels]
      rw [List.nodup_append]
      refine ⟨?_, hrest, ?_⟩
      · cases x.definedLabel? rs <;> simp
      · rw [List.disjoint_left]
        intro l hl hl'
        simp only [Option.mem_toList, Option.mem_def] at hl
        rw [definedLabel?_cases] at hl
        have hmem := definedLabels_mem rest (x.ToString rs).2 hinv' l hl'
        cases hx : labelName? x with
        | some l' =>
          simp only [hx, Option.some.injEq] at hl
          subst hl
          simp only [hx, Option.toList_some, List.singleton_append, List.nodup_cons] at hnd
          rcases hmem with h | ⟨kind, j, hk, _⟩
          · exact hnd.1 h
          · exact hne l' (by simp [hx]) kind j hk
        | none =>
          simp only [hx, Option.map_eq_some'] at hl
          obtain ⟨kind, hsyn, hk⟩ := hl
          rcases hmem with h | ⟨kind', j, hk', hj⟩
          · exact hne l (List.mem_append_right _ h) kind _ hk.symm
          · rw [← hk] at hk'
            obtain ⟨hkk, hjj⟩ := Synthesized.labelName_eq hk'
            subst hkk
            have := (counter_step kind x rest rs (hinv kind)).1
            simp only [hsyn, if_true] at this
            omega

/-- C30: for a program with fewer than 2^32 conditionals and fewer than 2^32 loops
whose lowering from the empty list, both label counters 0, holds fewer than 2^32
comparisons of each synthesised kind, the labels defined when the list is rendered
once, in order, from render counters all 0 are pairwise distinct.  Each of them is
the name of a control label of the program or the text of a synthesised kind
followed by a number; the text of an instruction that defines a label closes with
that label, a colon and a newline; a control label never equals a synthesised one,
and two synthesised labels are equal only for the same kind and number. -/
theorem C30_generated_labels_distinct (program : Block) (symTable : symbol.Table)
    (temporary : Temporary) (hi : program.conditionals < 2 ^ 32)
    (hw : program.loops < 2 ^ 32)
    (hcalls : ∀ kind : Synthesized,
      kind.calls (program.GenerateInstructions symTable temporary ⟨[], 0, 0⟩).list < 2 ^ 32) :
    (definedLabels (program.GenerateInstructions symTable temporary ⟨[], 0, 0⟩).list
        RenderState.initial).Nodup
    ∧ (∀ l ∈ definedLabels (program.GenerateInstructions symTable temporary ⟨[], 0, 0⟩).list
          RenderState.initial,
        (∃ c ∈ program.preorderLabels 0 0, l = c.name)
          ∨ ∃ (kind : Synthesized) (j : Nat), l = kind.labelName j)
    ∧ (∀ (inst : Base) (rs : RenderState) (l : String), inst.definedLabel? rs = some l →
        ∃ pre : String, (inst.ToString rs).1 = pre ++ l ++ ":\n")
    ∧ (∀ (c : ControlLabel) (kind : Synthesized) (j : Nat), c.name ≠ kind.labelName j)
    ∧ (∀ (kind kind' : Synthesized) (j j' : Nat),
        kind.labelName j = kind'.labelName j' → kind = kind' ∧ j = j') := by
  obtain ⟨hl, _, _⟩ := labels_Block program symTable temporary ⟨[], 0, 0⟩
    (by simpa using hi) (by simpa using hw)
  simp only [labelNames_nil, List.nil_append] at hl
  have hinv : ∀ kind : Synthesized, kind.counter RenderState.initial
      + kind.calls (program.GenerateInstructions symTable temporary ⟨[], 0, 0⟩).list
        < 2 ^ 32 := by
    intro kind
    have := hcalls kind
    cases kind <;> simpa [Synthesized.counter, RenderState.initial] using this
  refine ⟨?_, ?_, definedLabel?_text,
    ControlLabel.name_ne_labelName, fun _ _ _ _ h => Synthesized.labelName_eq h⟩
  · apply definedLabels_nodup _ _ hinv
    · rw [hl]
      exact (nodup_Block program 0 0).map ControlLabel.name_injective
    · intro l hmem kind j
      rw [hl, List.mem_map] at hmem
      obtain ⟨c, _, hc⟩ := hmem
      rw [← hc]
      exact ControlLabel.name_ne_labelName c kind j
  · intro l hmem
    rcases definedLabels_mem _ _ hinv l hmem with h | ⟨kind, j, hk, _⟩
    · rw [hl, List.mem_map] at h
      obtain ⟨c, hc, hcl⟩ := h
      exact Or.inl ⟨c, hc, hcl.symm⟩
    · exact Or.inr ⟨kind, j, hk⟩

/-- Witness for C30: `if (1 <= 2) { x = 3 <= 4; y = 5 == 6; } while (7 > 8) { }`
defines labels with the suffix 0 of four kinds and the suffix 1 of one. -/
theorem C30_generated_labels_distinct_witness :
    definedLabels ((Block.mk [
        .IfThenElse (.BinaryOperator (.Integer 1) .LessEqual (.Integer 2))
          (.mk [.Assignment "x" (.BinaryOperator (.Integer 3) .LessEqual (.Integer 4)),
                .Assignment "y" (.BinaryOperator (.Integer 5) .Equal (.Integer 6))]) none,
        .WhileLoop (.BinaryOperator (.Integer 7) .GreaterThan (.Integer 8))
          (.mk [])]).GenerateInstructions ⟨[]⟩ .Zero ⟨[], 0, 0⟩).list RenderState.initial
      = ["LessThan_0", "LessThan_1", "Equal_0", "IfThenElse_End_0", "WhileLoop_Start_0",
         "GreaterThan_0", "WhileLoop_End_0"]
    ∧ (definedLabels ((Block.mk [
        .IfThenElse (.BinaryOperator (.Integer 1) .LessEqual (.Integer 2))
          (.mk [.Assignment "x" (.BinaryOperator (.Integer 3) .LessEqual (.Integer 4)),
                .Assignment "y" (.BinaryOperator (.Integer 5) .Equal (.Integer 6))]) none,
        .WhileLoop (.BinaryOperator (.Integer 7) .GreaterThan (.Integer 8))
          (.mk [])]).GenerateInstructions ⟨[]⟩ .Zero ⟨[], 0, 0⟩).list
        RenderState.initial).Nodup :=
  ⟨by decide,
    (C30_generated_labels_distinct _ ⟨[]⟩ .Zero (by decide) (by decide)
      (fun kind => by cases kind <;> decide)).1⟩

end node
